import Mathlib

/-!
# se401 gspca sub-driver: a shallow embedding and its verified properties

Source: `drivers/media/video/gspca/se401.c`.

The driver state (`struct sd`, laid over `struct gspca_dev`) becomes a pair of Lean
structures that are passed explicitly.  C `int` fields are `Int`; where a sum can grow
without bound (`pixels_read`) or a product is formed (`width * height`) the 32-bit
wrap-around is applied explicitly; `u8` / `u16` stores are reduced modulo `2^8` / `2^16`.
Bytes are `Fin 256`.  The USB transport and the gspca frame queue are not part of the
file: the device is a parameter answering each control transfer, and the frame queue is
a small recording model of `gspca_frame_add`.
-/

namespace Se401

/-! ## Machine integers -/

/-- One byte of a buffer (`u8`). -/
abbrev u8 := Fin 256

/-- Value of an expression stored into an `int` (two's complement, 32 bit). -/
def to_int (x : Int) : Int := (x + 2147483648) % 4294967296 - 2147483648

/-- Value of an expression stored into an `unsigned int`. -/
def to_uint (x : Int) : Nat := (x % 4294967296).toNat

/-- Value of an expression stored into a `u16`. -/
def to_u16 (x : Int) : Nat := (x % 65536).toNat

/-- Value of an expression stored into a `u8`. -/
def to_u8 (x : Int) : Nat := (x % 256).toNat

/-! ## Constants defined in se401.c -/

def BULK_SIZE : Nat := 4096
def PACKET_SIZE : Nat := 1024
def READ_REQ_SIZE : Nat := 64
def MAX_MODES : Nat := (READ_REQ_SIZE - 6) / 4
def SE401_QUANT_FACT : Nat := 8

/-- Index of the brightness control in `enum e_ctrl`. -/
def BRIGHTNESS : Nat := 0

/-- Constants the driver takes from kernel headers that are not among the sources:
`USB_BUF_SZ` (gspca.h) and the errno value `ENOBUFS`. They are parameters of the model. -/
structure kernel_consts where
  USB_BUF_SZ : Nat
  ENOBUFS : Int
deriving DecidableEq

/-- Request codes of se401.h used by the driver, kept symbolic (the header is not among
the sources). -/
inductive se401_req where
  | SE401_REQ_GET_CAMERA_DESCRIPTOR
  | SE401_REQ_START_CONTINUOUS_CAPTURE
  | SE401_REQ_STOP_CONTINUOUS_CAPTURE
  | SE401_REQ_SET_BRT
  | SE401_REQ_GET_BRT
  | SE401_REQ_SET_WIDTH
  | SE401_REQ_SET_HEIGHT
  | SE401_REQ_LED_CONTROL
  | SE401_REQ_CAMERA_POWER
  | SE401_REQ_SET_EXT_FEATURE
  | SE401_REQ_GET_EXT_FEATURE
deriving DecidableEq

/-- Feature selectors of se401.h used by the driver, kept symbolic. -/
inductive se401_selector where
  | SE401_OPERATINGMODE
  | HV7131_REG_MODE_B
  | HV7131_REG_ARCG
  | HV7131_REG_AGCG
  | HV7131_REG_ABCG
  | HV7131_REG_TITL
  | HV7131_REG_TITM
  | HV7131_REG_TITU
  | HV7131_REG_ARLV
  | HV7131_REG_HIREFNOH
  | HV7131_REG_HIREFNOL
  | HV7131_REG_LOREFNOH
  | HV7131_REG_LOREFNOL
deriving DecidableEq

/-- Menu entries of `V4L2_CID_POWER_LINE_FREQUENCY` (the three that `sd_querymenu`
names), kept symbolic. -/
inductive power_line_frequency where
  | V4L2_CID_POWER_LINE_FREQUENCY_DISABLED
  | V4L2_CID_POWER_LINE_FREQUENCY_50HZ
  | V4L2_CID_POWER_LINE_FREQUENCY_60HZ
deriving DecidableEq

/-- The exposure change state machine states. -/
inductive expo_state where
  | EXPO_CHANGED
  | EXPO_DROP_FRAME
  | EXPO_NO_CHANGE
deriving DecidableEq

/-- Packet kinds understood by `gspca_frame_add`. -/
inductive gspca_packet_type where
  | DISCARD_PACKET
  | FIRST_PACKET
  | INTER_PACKET
  | LAST_PACKET
deriving DecidableEq

/-! ## The USB transport -/

/-- Direction of a control transfer. -/
inductive usb_dir where
  | USB_DIR_OUT
  | USB_DIR_IN
deriving DecidableEq

/-- Arguments of one `usb_control_msg` call; `index = none` stands for the literal 0,
`some sel` for a feature selector. -/
structure usb_ctrl where
  dir : usb_dir
  request : se401_req
  value : Nat
  index : Option se401_selector
  size : Nat
deriving DecidableEq

/-- What the driver asks of the USB core. -/
inductive usb_event where
  | control_msg (m : usb_ctrl)
  | reset_device
deriving DecidableEq

/-- Answer of the device to a control transfer: the return value of `usb_control_msg`
(negative on failure) and the bytes left in the transfer buffer by an IN transfer. -/
structure usb_reply where
  ret : Int
  data : List u8
deriving DecidableEq

/-- Modelled from the spec: the transport boundary (`send_request` / `recv_request`), which
is the kernel USB core and not among the sources. The device answers each transfer
as an arbitrary function of everything issued so far, the newest event first. -/
abbrev usb_device := List usb_event → usb_reply

/-- A completed frame as handed to the consumer; `valid = false` is a discarded frame. -/
structure frame where
  valid : Bool
  data : List u8
deriving DecidableEq

/-- The fields of `struct gspca_dev` the sub-driver reads or writes, followed by the
recorded history of what it asked of the USB core and of the frame queue. -/
structure gspca_dev where
  usb_err : Int
  usb_buf : List u8
  ctrl_dis : Nat
  width : Nat
  height : Nat
  /-- Field `cam.cam_mode[curr_mode].priv`. -/
  priv : Int
  /-- Field `cam.cam_mode[curr_mode].sizeimage`. -/
  sizeimage : Int
  last_packet_type : gspca_packet_type
  image_len : Int
  image : List u8
  usb_log : List usb_event
  frame_log : List (gspca_packet_type × List u8)
  frames : List frame
deriving DecidableEq

/-- Current values of the four controls (`sd->ctrls[..].val`). -/
structure ctrl_vals where
  brightness : Int
  gain : Int
  exposure : Int
  freq : power_line_frequency
deriving DecidableEq

/-- The webcam descriptor `struct sd`. -/
structure sd where
  gspca_dev : gspca_dev
  ctrls : ctrl_vals
  pixels_read : Int
  packet_read : Int
  packet : List u8
  restart_stream : Nat
  button_state : Nat
  resetlevel : Nat
  resetlevel_frame_count : Nat
  resetlevel_adjust_dir : Int
  expo_change_state : expo_state
deriving DecidableEq

/-! ## Collaborators outside the file -/

/-- Modelled from the spec: `gspca_frame_add` of the gspca core (gspca.c is not among the
sources), the sink boundary `begin_frame` / `append_fragment` / `end_frame(valid)`.
A FIRST_PACKET resets the frame length to zero, every fragment is appended and adds its
length to `image_len`, a LAST_PACKET completes the frame (valid unless the frame was
marked by `last_packet_type = DISCARD_PACKET`) and resets `image_len` to zero; the
kind of the fragment becomes `last_packet_type`. Every call is recorded in `frame_log`. -/
def gspca_frame_add (g : gspca_dev) (packet_type : gspca_packet_type) (data : List u8) :
    gspca_dev :=
  let img := if packet_type = .FIRST_PACKET then data else g.image ++ data
  let ilen := if packet_type = .FIRST_PACKET then (data.length : Int)
              else g.image_len + data.length
  let log := g.frame_log ++ [(packet_type, data)]
  if packet_type = .LAST_PACKET then
    { g with frame_log := log
             frames := g.frames ++ [⟨decide (g.last_packet_type ≠ .DISCARD_PACKET), img⟩]
             image := []
             image_len := 0
             last_packet_type := packet_type }
  else
    { g with frame_log := log
             image := img
             image_len := ilen
             last_packet_type := packet_type }

/-- Modelled from the spec: `usb_control_msg` of the USB core (not among the sources).
The transfer is recorded, the device answers, and an IN transfer leaves the answered
bytes in `usb_buf`. Returns the status together with the new device state. -/
def usb_control_msg (dev : usb_device) (g : gspca_dev) (m : usb_ctrl) : Int × gspca_dev :=
  let log := usb_event.control_msg m :: g.usb_log
  let r := dev log
  (r.ret, { g with usb_log := log
                   usb_buf := if m.dir = .USB_DIR_IN then r.data else g.usb_buf })

/-- Modelled from the spec: `usb_reset_device` of the USB core; only recorded. -/
def usb_reset_device (g : gspca_dev) : gspca_dev :=
  { g with usb_log := usb_event.reset_device :: g.usb_log }

/-- Byte `k` of a buffer as an integer (0 outside the list). -/
def rd (buf : List u8) (k : Nat) : Nat := (buf.getD k 0).val

/-! ## The control channel -/

/-- Function `se401_write_req`; the `err()` log lines are not modelled, so `silent` has no
effect on the state. -/
def se401_write_req (dev : usb_device) (g : gspca_dev) (req : se401_req) (value : Nat)
    (_silent : Bool) : gspca_dev :=
  if g.usb_err < 0 then g
  else
    let (err, g1) := usb_control_msg dev g ⟨.USB_DIR_OUT, req, value, none, 0⟩
    if err < 0 then
      { g1 with usb_err := err }
    else g1

/-- Function `se401_read_req`. -/
def se401_read_req (k : kernel_consts) (dev : usb_device) (g : gspca_dev) (req : se401_req)
    (_silent : Bool) : gspca_dev :=
  if g.usb_err < 0 then g
  else if k.USB_BUF_SZ < READ_REQ_SIZE then { g with usb_err := -k.ENOBUFS }
  else
    let (err, g1) := usb_control_msg dev g ⟨.USB_DIR_IN, req, 0, none, READ_REQ_SIZE⟩
    if err < 0 then
      { g1 with usb_err := err }
    else g1

/-- Function `se401_set_feature`. -/
def se401_set_feature (dev : usb_device) (g : gspca_dev) (selector : se401_selector)
    (param : Nat) : gspca_dev :=
  if g.usb_err < 0 then g
  else
    let (err, g1) := usb_control_msg dev g
      ⟨.USB_DIR_OUT, .SE401_REQ_SET_EXT_FEATURE, param, some selector, 0⟩
    if err < 0 then { g1 with usb_err := err } else g1

/-- Function `se401_get_feature`: the returned `int` and the new state. -/
def se401_get_feature (k : kernel_consts) (dev : usb_device) (g : gspca_dev)
    (selector : se401_selector) : Int × gspca_dev :=
  if g.usb_err < 0 then (g.usb_err, g)
  else if k.USB_BUF_SZ < 2 then (-k.ENOBUFS, { g with usb_err := -k.ENOBUFS })
  else
    let (err, g1) := usb_control_msg dev g
      ⟨.USB_DIR_IN, .SE401_REQ_GET_EXT_FEATURE, 0, some selector, 2⟩
    if err < 0 then (err, { g1 with usb_err := err })
    else (((rd g1.usb_buf 0 ||| (rd g1.usb_buf 1 <<< 8) : Nat) : Int), g1)

/-! ## Controls -/

/-- Function `setbrightness`. -/
def setbrightness (dev : usb_device) (s : sd) : sd :=
  if s.gspca_dev.ctrl_dis &&& (1 <<< BRIGHTNESS) ≠ 0 then s
  else { s with gspca_dev := se401_write_req dev s.gspca_dev .SE401_REQ_SET_BRT
                   (to_u16 s.ctrls.brightness) false }

/-- Function `setgain`. -/
def setgain (dev : usb_device) (s : sd) : sd :=
  let gain := to_u16 (63 - s.ctrls.gain)
  let g1 := se401_set_feature dev s.gspca_dev .HV7131_REG_ARCG gain
  let g2 := se401_set_feature dev g1 .HV7131_REG_AGCG gain
  let g3 := se401_set_feature dev g2 .HV7131_REG_ABCG gain
  { s with gspca_dev := g3 }

/-- The value `integration` that `setexposure` splits over the three integration time
registers: `val << 6`, reduced by its remainder modulo the line period when a filter
is selected. -/
def exposure_integration (exposure : Int) (freq : power_line_frequency) : Int :=
  let integration := to_int (exposure * 64)
  let integration :=
    if freq = .V4L2_CID_POWER_LINE_FREQUENCY_50HZ then
      to_int (integration - integration.tmod 106667) else integration
  let integration :=
    if freq = .V4L2_CID_POWER_LINE_FREQUENCY_60HZ then
      to_int (integration - integration.tmod 88889) else integration
  integration

/-- Function `setexposure`. -/
def setexposure (dev : usb_device) (s : sd) : sd :=
  let integration := exposure_integration s.ctrls.exposure s.ctrls.freq
  let s1 := { s with expo_change_state := .EXPO_CHANGED }
  let expose_h := to_u8 (integration >>> 16)
  let expose_m := to_u8 (integration >>> 8)
  let expose_l := to_u8 integration
  let g1 := se401_set_feature dev s1.gspca_dev .HV7131_REG_TITL expose_l
  let g2 := se401_set_feature dev g1 .HV7131_REG_TITM expose_m
  let g3 := se401_set_feature dev g2 .HV7131_REG_TITU expose_h
  { s1 with gspca_dev := g3 }

/-! ## Starting and stopping the stream -/

/-- Function `sd_start`: the returned `usb_err` and the new state. -/
def sd_start (dev : usb_device) (s : sd) : Int × sd :=
  let mult := s.gspca_dev.priv
  let g : gspca_dev := se401_write_req dev s.gspca_dev .SE401_REQ_CAMERA_POWER 1 true
  let g : gspca_dev :=
    if g.usb_err ≠ 0 then
      let g : gspca_dev := usb_reset_device g
      let g : gspca_dev := { g with usb_err := 0 }
      se401_write_req dev g .SE401_REQ_CAMERA_POWER 1 false
    else g
  let g : gspca_dev := se401_write_req dev g .SE401_REQ_LED_CONTROL 1 false
  let g : gspca_dev := se401_set_feature dev g .HV7131_REG_MODE_B 0x05
  let g : gspca_dev := se401_write_req dev g .SE401_REQ_SET_WIDTH (to_u16 (g.width * mult)) false
  let g : gspca_dev := se401_write_req dev g .SE401_REQ_SET_HEIGHT (to_u16 (g.height * mult)) false
  let mode : Nat :=
    if mult = 1 then 0x03
    else if mult = 2 then SE401_QUANT_FACT <<< 4
    else if mult = 4 then (SE401_QUANT_FACT <<< 4) ||| 0x02
    else 0
  let g : gspca_dev := se401_set_feature dev g .SE401_OPERATINGMODE mode
  let s : sd := { s with gspca_dev := g }
  let s : sd := setbrightness dev s
  let s : sd := setgain dev s
  let s : sd := setexposure dev s
  let g : gspca_dev := se401_set_feature dev s.gspca_dev .HV7131_REG_ARLV s.resetlevel
  let s : sd := { s with gspca_dev := g, packet_read := 0, pixels_read := 0,
                         restart_stream := 0, resetlevel_frame_count := 0,
                         resetlevel_adjust_dir := 0, expo_change_state := .EXPO_NO_CHANGE }
  let g : gspca_dev := se401_write_req dev s.gspca_dev .SE401_REQ_START_CONTINUOUS_CAPTURE 0 false
  (g.usb_err, { s with gspca_dev := g })

/-- Function `sd_stopN` on the generic device. -/
def sd_stopN (dev : usb_device) (g : gspca_dev) : gspca_dev :=
  let g : gspca_dev := se401_write_req dev g .SE401_REQ_STOP_CONTINUOUS_CAPTURE 0 false
  let g : gspca_dev := se401_write_req dev g .SE401_REQ_LED_CONTROL 0 false
  se401_write_req dev g .SE401_REQ_CAMERA_POWER 0 false

/-! ## The reset level control loop -/

/-- The loop `while (alrc >= 10 && sd->resetlevel < 63) { sd->resetlevel++; alrc /= 2; }`
of `sd_dq_callback`, run for at most `fuel` iterations; returns the level. -/
def dq_raise_loop : Nat → Nat → Nat → Nat
  | 0, _, resetlevel => resetlevel
  | fuel + 1, alrc, resetlevel =>
    if alrc ≥ 10 ∧ resetlevel < 63 then dq_raise_loop fuel (alrc / 2) (resetlevel + 1)
    else resetlevel

/-- The loop `while (ahrc >= 20 && sd->resetlevel > 0) { sd->resetlevel--; ahrc /= 2; }`
of `sd_dq_callback`, run for at most `fuel` iterations; returns the level. -/
def dq_lower_loop : Nat → Nat → Nat → Nat
  | 0, _, resetlevel => resetlevel
  | fuel + 1, ahrc, resetlevel =>
    if ahrc ≥ 20 ∧ resetlevel > 0 then dq_lower_loop fuel (ahrc / 2) (resetlevel - 1)
    else resetlevel

/-- The adjustment block of `sd_dq_callback` (the `if (alrc > 10) .. else if (ahrc > 20)`
statement). The level is a `u8`, so 256 iterations are more than either loop can make. -/
def dq_adjust (ahrc alrc resetlevel : Nat) : Nat :=
  if alrc > 10 then dq_raise_loop 256 alrc resetlevel
  else if ahrc > 20 then dq_lower_loop 256 ahrc resetlevel
  else resetlevel

/-- The eight counter reads of `sd_dq_callback`: the first four results are thrown away,
the next four are combined into `ahrc` and `alrc` (operands read left to right). -/
def dq_read_counters (k : kernel_consts) (dev : usb_device) (g : gspca_dev) :
    Nat × Nat × gspca_dev :=
  let g : gspca_dev := (se401_get_feature k dev g .HV7131_REG_HIREFNOH).2
  let g : gspca_dev := (se401_get_feature k dev g .HV7131_REG_HIREFNOL).2
  let g : gspca_dev := (se401_get_feature k dev g .HV7131_REG_LOREFNOH).2
  let g : gspca_dev := (se401_get_feature k dev g .HV7131_REG_LOREFNOL).2
  let hh := se401_get_feature k dev g .HV7131_REG_HIREFNOH
  let hl := se401_get_feature k dev hh.2 .HV7131_REG_HIREFNOL
  let lh := se401_get_feature k dev hl.2 .HV7131_REG_LOREFNOH
  let ll := se401_get_feature k dev lh.2 .HV7131_REG_LOREFNOL
  (to_uint (to_int (256 * hh.1 + hl.1)), to_uint (to_int (256 * lh.1 + ll.1)), ll.2)

/-- Function `sd_dq_callback`. -/
def sd_dq_callback (k : kernel_consts) (dev : usb_device) (s : sd) : sd :=
  let s : sd :=
    if s.restart_stream ≠ 0 then
      let s : sd := { s with gspca_dev := sd_stopN dev s.gspca_dev }
      let s : sd := (sd_start dev s).2
      { s with restart_stream := 0 }
    else s
  let s : sd := { s with resetlevel_frame_count := to_u8 (s.resetlevel_frame_count + 1) }
  if s.resetlevel_frame_count < 20 then s
  else
    let (ahrc, alrc, g) := dq_read_counters k dev s.gspca_dev
    let s : sd := { s with gspca_dev := g }
    let oldreset : Int := s.resetlevel
    let s : sd := { s with resetlevel := dq_adjust ahrc alrc s.resetlevel }
    let adjust_dir : Int := if (s.resetlevel : Int) > oldreset then 1 else -1
    let s : sd :=
      if s.resetlevel_adjust_dir ≠ 0 ∧ s.resetlevel_adjust_dir ≠ adjust_dir then
        { s with resetlevel := to_u8 (oldreset + Int.tdiv ((s.resetlevel : Int) - oldreset) 2) }
      else s
    let s : sd :=
      if (s.resetlevel : Int) ≠ oldreset then
        let s : sd := { s with resetlevel_adjust_dir := adjust_dir }
        { s with gspca_dev := se401_set_feature dev s.gspca_dev .HV7131_REG_ARLV s.resetlevel }
      else s
    { s with resetlevel_frame_count := 0 }

/-! ## Frame assembly -/

/-- Function `sd_complete_frame`. -/
def sd_complete_frame (s : sd) (data : List u8) : sd :=
  let s : sd :=
    match s.expo_change_state with
    | .EXPO_CHANGED => { s with expo_change_state := .EXPO_DROP_FRAME }
    | .EXPO_DROP_FRAME =>
      { s with gspca_dev := { s.gspca_dev with last_packet_type := .DISCARD_PACKET },
               expo_change_state := .EXPO_NO_CHANGE }
    | .EXPO_NO_CHANGE => s
  { s with gspca_dev := gspca_frame_add s.gspca_dev .LAST_PACKET data }

/-- Header field `bits = sd->packet[3] + (sd->packet[2] << 8)`. -/
def janggu_bits (packet : List u8) : Nat := rd packet 3 + (rd packet 2 <<< 8)

/-- Header field `pixels = sd->packet[1] + ((sd->packet[0] & 0x3f) << 8)`. -/
def janggu_pixels (packet : List u8) : Nat := rd packet 1 + ((rd packet 0 &&& 0x3f) <<< 8)

/-- Header field `info = (sd->packet[0] & 0xc0) >> 6`. -/
def janggu_info (packet : List u8) : Nat := (rd packet 0 &&& 0xc0) >>> 6

/-- Packet length `plen = ((bits + 47) >> 4) << 1`. -/
def janggu_plen (packet : List u8) : Nat := ((janggu_bits packet + 47) >>> 4) <<< 1

/-- Bytes of `dst` after `memcpy(&dst[off], src, src.length)`. -/
def memcpy (dst : List u8) (off : Nat) (src : List u8) : List u8 :=
  dst.take off ++ src ++ dst.drop (off + src.length)

/-- The three statements
`memcpy(&sd->packet[sd->packet_read], &data[i], count); sd->packet_read += count; i += count;`
on the unread part `rest = data[i..len)` of the range. The result is `none` when the copy
is undefined in C: a negative count, a read past the end of the range, or a write
outside `sd->packet`. -/
def janggu_copy (s : sd) (rest : List u8) (count : Int) : Option (sd × List u8) :=
  if count < 0 ∨ (rest.length : Int) < count ∨ s.packet_read < 0 ∨
      s.packet_read + count > PACKET_SIZE then none
  else
    some ({ s with packet := memcpy s.packet s.packet_read.toNat (rest.take count.toNat),
                   packet_read := s.packet_read + count },
          rest.drop count.toNat)

/-- How one pass through the body of the `while (i < len)` loop ends. -/
inductive scan_step where
  /-- Back to the loop condition with the new state and the unread part of the range. -/
  | next (s : sd) (rest : List u8)
  /-- Left by `break` or `return`. -/
  | done (s : sd)
  /-- Left by `goto error`. -/
  | error (s : sd)
  /-- A copy that is undefined in C. -/
  | undefined
deriving DecidableEq

/-- Result of a packet scan. -/
inductive scan_result where
  /-- The call returned in this state. -/
  | ok (s : sd)
  /-- The call made a copy that is undefined in C. -/
  | undefined
  /-- The iteration bound of the model was used up; `sd_pkt_scan_janggu_terminates`
  shows that this never happens. -/
  | out_of_fuel
deriving DecidableEq

/-- The `error:` label of `sd_pkt_scan_janggu`. -/
def janggu_error (s : sd) : sd :=
  let s : sd := { s with restart_stream := 1 }
  let g : gspca_dev := gspca_frame_add s.gspca_dev .FIRST_PACKET []
  let g : gspca_dev := gspca_frame_add g .LAST_PACKET []
  { s with gspca_dev := g }

/-- First part of the loop body: `if (sd->packet_read < 4) { .. }` up to, not including,
the test that leaves the loop; `rest` is `data[i..len)`. -/
def janggu_header (s : sd) (rest : List u8) : Option (sd × List u8) :=
  if s.packet_read < 4 then
    janggu_copy s rest (min (4 - s.packet_read) rest.length)
  else some (s, rest)

/-- Last part of the loop body, reached once the whole packet is in `sd->packet`:
`sd->pixels_read += pixels; sd->packet_read = 0;` and the `switch (info)`, with the
values of the locals `pixels`, `info` and `plen` decoded from the header. -/
def janggu_dispatch (imagesize : Int) (pixels info plen : Nat) (s : sd) (rest : List u8) :
    scan_step :=
  let s : sd := { s with pixels_read := to_int (s.pixels_read + pixels), packet_read := 0 }
  if info = 0 then
    .next { s with gspca_dev :=
              gspca_frame_add s.gspca_dev .INTER_PACKET (s.packet.take plen) } rest
  else if info = 1 then
    if s.pixels_read ≠ imagesize then .error s
    else .done (sd_complete_frame s (s.packet.take plen))
  else if info = 2 then
    .next { s with gspca_dev :=
              gspca_frame_add s.gspca_dev .FIRST_PACKET (s.packet.take plen),
                   pixels_read := pixels } rest
  else .next s rest

/-- Second part of the loop body, from the decoding of the header on; reached with at
least 4 bytes in `sd->packet`. -/
def janggu_packet (imagesize : Int) (s : sd) (rest : List u8) : scan_step :=
  let pixels := janggu_pixels s.packet
  let info := janggu_info s.packet
  let plen := janggu_plen s.packet
  if plen > 1024 then .error s
  else if info = 3 then .error s
  else
    match janggu_copy s rest (min ((plen : Int) - s.packet_read) rest.length) with
    | none => .undefined
    | some (s1, rest) =>
      if s1.packet_read < plen then .done s1
      else janggu_dispatch imagesize pixels info plen s1 rest

/-- One pass through the body of the `while (i < len)` loop of `sd_pkt_scan_janggu`,
entered with `i < len`; `rest` is `data[i..len)`. -/
def janggu_body (imagesize : Int) (s : sd) (rest : List u8) : scan_step :=
  match janggu_header s rest with
  | none => .undefined
  | some (s, rest) =>
    if s.packet_read < 4 then .done s
    else janggu_packet imagesize s rest

/-- The `while (i < len)` loop of `sd_pkt_scan_janggu` with its exits, for at most `fuel`
passes; `rest` is `data[i..len)`. -/
def janggu_loop (imagesize : Int) : Nat → sd → List u8 → scan_result
  | 0, _, _ => .out_of_fuel
  | fuel + 1, s, rest =>
    if rest.length = 0 then .ok s
    else
      match janggu_body imagesize s rest with
      | .next s rest => janggu_loop imagesize fuel s rest
      | .done s => .ok s
      | .error s => .ok (janggu_error s)
      | .undefined => .undefined

/-- Function `sd_pkt_scan_janggu`. Every pass but the first consumes at least one byte,
so `len + 2` passes always suffice. -/
def sd_pkt_scan_janggu (s : sd) (data : List u8) : scan_result :=
  let imagesize := to_int (s.gspca_dev.width * s.gspca_dev.height)
  if s.restart_stream ≠ 0 then .ok s
  else if s.gspca_dev.last_packet_type = .LAST_PACKET ∧ data.length = 1024 then
    .ok { s with gspca_dev := { s.gspca_dev with last_packet_type := .DISCARD_PACKET } }
  else janggu_loop imagesize (data.length + 2) s data

/-- Function `sd_pkt_scan_bayer`. -/
def sd_pkt_scan_bayer (s : sd) (data : List u8) : sd :=
  let imagesize := s.gspca_dev.sizeimage
  if s.gspca_dev.image_len = 0 then
    { s with gspca_dev := gspca_frame_add s.gspca_dev .FIRST_PACKET data }
  else if s.gspca_dev.image_len + data.length ≥ imagesize then
    sd_complete_frame s data
  else
    { s with gspca_dev := gspca_frame_add s.gspca_dev .INTER_PACKET data }

/-- Function `sd_pkt_scan`. -/
def sd_pkt_scan (s : sd) (data : List u8) : scan_result :=
  let mult := s.gspca_dev.priv
  if data.length = 0 then .ok s
  else if mult = 1 then .ok (sd_pkt_scan_bayer s data)
  else sd_pkt_scan_janggu s data

/-! ## Definitions used to state the properties -/

/-- One operation on the control channel. -/
inductive ctl_op where
  | write_req (req : se401_req) (value : Nat) (silent : Bool)
  | read_req (req : se401_req) (silent : Bool)
  | set_feature (selector : se401_selector) (param : Nat)
  | get_feature (selector : se401_selector)
  | stopN
deriving DecidableEq

/-- Effect of one control channel operation on the device state. -/
def run_op (k : kernel_consts) (dev : usb_device) (g : gspca_dev) : ctl_op → gspca_dev
  | .write_req req value silent => se401_write_req dev g req value silent
  | .read_req req silent => se401_read_req k dev g req silent
  | .set_feature selector param => se401_set_feature dev g selector param
  | .get_feature selector => (se401_get_feature k dev g selector).2
  | .stopN => sd_stopN dev g

/-- Effect of a sequence of control channel operations, first to last. -/
def run_ops (k : kernel_consts) (dev : usb_device) (g : gspca_dev) (ops : List ctl_op) :
    gspca_dev :=
  ops.foldl (run_op k dev) g

/-- Kernel constants as gspca.h and errno.h usually define them (sample values). -/
def sample_consts : kernel_consts := ⟨64, 105⟩

/-- A device that accepts every transfer and answers two zero bytes. -/
def quiet_device : usb_device := fun _ => ⟨0, [0, 0]⟩

/-- A device that fails every transfer with status -32. -/
def stalled_device : usb_device := fun _ => ⟨-32, []⟩

/-- A generic device state for a 10x20 mode, nothing recorded yet. -/
def sample_gspca (priv : Int) : gspca_dev :=
  { usb_err := 0, usb_buf := [], ctrl_dis := 0, width := 10, height := 20, priv := priv,
    sizeimage := 200, last_packet_type := .DISCARD_PACKET, image_len := 0, image := [],
    usb_log := [], frame_log := [], frames := [] }

/-- The state `sd_start` leaves for `sample_gspca`, the packet buffer zeroed. -/
def sample_sd (priv : Int) : sd :=
  { gspca_dev := sample_gspca priv,
    ctrls := ⟨15, 25, 15000, .V4L2_CID_POWER_LINE_FREQUENCY_DISABLED⟩,
    pixels_read := 0, packet_read := 0, packet := List.replicate PACKET_SIZE 0,
    restart_stream := 0, button_state := 0, resetlevel := 0x2d,
    resetlevel_frame_count := 0, resetlevel_adjust_dir := 0,
    expo_change_state := .EXPO_NO_CHANGE }

/-- A well-formed SOF packet: info 2, 50 pixels, bit count 17, hence 8 bytes. -/
def sample_sof : List u8 := [0x80, 50, 0, 17, 1, 2, 3, 4]

/-- A well-formed DATA packet: info 0, 50 pixels, bit count 0, hence 4 bytes. -/
def sample_data : List u8 := [0x00, 50, 0, 0]

/-- A well-formed EOF packet: info 1, 100 pixels, bit count 1, hence 6 bytes. -/
def sample_eof : List u8 := [0x40, 100, 0, 1, 9, 9]

/-- A well-formed EOF packet that carries only 50 pixels. -/
def sample_eof_short : List u8 := [0x40, 50, 0, 1, 9, 9]

/-- The sample state once the 4 header bytes of `sample_sof` are in the buffer. -/
def sample_header_sd : sd :=
  { sample_sd 2 with packet := memcpy (sample_sd 2).packet 0 (sample_sof.take 4),
                     packet_read := 4 }

/-- Completed frames after a scan, if the scan returned. -/
def scan_frames : scan_result → Option (List frame)
  | .ok s => some s.gspca_dev.frames
  | _ => none

/-- Recorded sink calls after a scan, if the scan returned. -/
def scan_frame_log : scan_result → Option (List (gspca_packet_type × List u8))
  | .ok s => some s.gspca_dev.frame_log
  | _ => none

/-- A well-formed compressed packet of the given kind: the info field is `info`, the
list holds exactly the `((bits+47)>>4)<<1` bytes its header announces, and that length
is at most 1024. -/
abbrev well_formed_packet (info : Nat) (p : List u8) : Prop :=
  janggu_info p = info ∧ p.length = janggu_plen p ∧ janggu_plen p ≤ 1024

/-- Feeding a sequence of chunks one by one to `sd_pkt_scan_bayer`. -/
def feed_bayer (s : sd) (chunks : List (List u8)) : sd :=
  chunks.foldl sd_pkt_scan_bayer s

/-- All bytes the sink holds: those of the completed frames, in order, followed by those
of the frame in progress. -/
def sink_bytes (g : gspca_dev) : List u8 :=
  (g.frames.map frame.data).flatten ++ g.image

/-- A raw-mode state for a 2x2 bayer mode (4 bytes per frame), no frame in progress. -/
def sample_raw_sd : sd :=
  { sample_sd 1 with gspca_dev := { sample_gspca 1 with width := 2, height := 2,
                                                        sizeimage := 4 } }

/-- Completing a sequence of frames, one `sd_complete_frame` call per final fragment. -/
def complete_frames (s : sd) (ds : List (List u8)) : sd :=
  ds.foldl sd_complete_frame s

/-- Validity of the next `n` completed frames as the exposure gate decides it, from the
gate state `e`. -/
def gate_marks : expo_state → Nat → List Bool
  | _, 0 => []
  | .EXPO_CHANGED, n + 1 => true :: gate_marks .EXPO_DROP_FRAME n
  | .EXPO_DROP_FRAME, n + 1 => false :: gate_marks .EXPO_NO_CHANGE n
  | .EXPO_NO_CHANGE, n + 1 => true :: gate_marks .EXPO_NO_CHANGE n

/-- A raw-mode state with a frame in progress. -/
def sample_streaming_sd : sd :=
  { sample_raw_sd with
      gspca_dev := gspca_frame_add sample_raw_sd.gspca_dev .FIRST_PACKET [1, 2] }

/-- The number `k` is the least `k >= 1` with `floor(x / 2^k) < bound`. -/
def is_least_shift (bound x k : Nat) : Prop :=
  1 ≤ k ∧ x / 2 ^ k < bound ∧ ∀ j, 1 ≤ j → j < k → ¬ x / 2 ^ j < bound

/-- A device that accepts every transfer and answers the value 40 to reads of
HV7131_REG_LOREFNOL and 0 to every other read. -/
def counter_device : usb_device := fun log =>
  match log with
  | usb_event.control_msg m :: _ =>
    if m.index = some .HV7131_REG_LOREFNOL then ⟨2, [40, 0]⟩ else ⟨2, [0, 0]⟩
  | _ => ⟨0, []⟩

/-- The sample state at reset level 30, one frame before a calibration cycle. -/
def sample_calibration_sd : sd :=
  { sample_sd 2 with resetlevel := 30, resetlevel_frame_count := 19 }

/-- The calibration cycle of `sd_dq_callback`: the statements that follow
`if (sd->resetlevel_frame_count < 20) return;`, from the counter reads to
`sd->resetlevel_frame_count = 0;`. -/
def dq_cycle (k : kernel_consts) (dev : usb_device) (s : sd) : sd :=
  let (ahrc, alrc, g) := dq_read_counters k dev s.gspca_dev
  let s : sd := { s with gspca_dev := g }
  let oldreset : Int := s.resetlevel
  let s : sd := { s with resetlevel := dq_adjust ahrc alrc s.resetlevel }
  let adjust_dir : Int := if (s.resetlevel : Int) > oldreset then 1 else -1
  let s : sd :=
    if s.resetlevel_adjust_dir ≠ 0 ∧ s.resetlevel_adjust_dir ≠ adjust_dir then
      { s with resetlevel := to_u8 (oldreset + Int.tdiv ((s.resetlevel : Int) - oldreset) 2) }
    else s
  let s : sd :=
    if (s.resetlevel : Int) ≠ oldreset then
      let s : sd := { s with resetlevel_adjust_dir := adjust_dir }
      { s with gspca_dev := se401_set_feature dev s.gspca_dev .HV7131_REG_ARLV s.resetlevel }
    else s
  { s with resetlevel_frame_count := 0 }

/-- One tick of the calibration loop: the part of `sd_dq_callback` that follows the
restart block, from `sd->resetlevel_frame_count++;` on. -/
def dq_tick (k : kernel_consts) (dev : usb_device) (s : sd) : sd :=
  let s : sd := { s with resetlevel_frame_count := to_u8 (s.resetlevel_frame_count + 1) }
  if s.resetlevel_frame_count < 20 then s
  else dq_cycle k dev s

/-- The statement `sd->resetlevel = 0x2d;` of `sd_config` (the rest of `sd_config`, the
parsing of the camera descriptor, is not modelled). -/
def sd_config_resetlevel (s : sd) : sd := { s with resetlevel := 0x2d }

/-- The level the undamped adjustment rule gives in a calibration cycle started in `s`. -/
def cycle_new_level (k : kernel_consts) (dev : usb_device) (s : sd) : Nat :=
  dq_adjust (dq_read_counters k dev s.gspca_dev).1 (dq_read_counters k dev s.gspca_dev).2.1
    s.resetlevel

/-- The direction of a calibration cycle started in `s`: 1 (up) when the undamped rule
raises the level, -1 (down) otherwise. -/
def cycle_direction (k : kernel_consts) (dev : usb_device) (s : sd) : Int :=
  if (cycle_new_level k dev s : Int) > s.resetlevel then 1 else -1

/-- The event is a feature read: an IN transfer SE401_REQ_GET_EXT_FEATURE of 2 bytes. -/
def is_feature_read (e : usb_event) : Prop :=
  ∃ selector, e = .control_msg
    ⟨.USB_DIR_IN, .SE401_REQ_GET_EXT_FEATURE, 0, some selector, 2⟩

/-- The transfer that writes `level` to the reset level register HV7131_REG_ARLV. -/
def arlv_write (level : Nat) : usb_event :=
  .control_msg ⟨.USB_DIR_OUT, .SE401_REQ_SET_EXT_FEATURE, level, some .HV7131_REG_ARLV, 0⟩

/-- The value `v` is the multiple of `p` nearest to `x`, as the specification words the
snapping of the exposure. -/
def is_nearest_multiple (p x v : Int) : Prop :=
  v % p = 0 ∧ ∀ m : Int, m % p = 0 → |x - v| ≤ |x - m|

/-- The sample state with the largest exposure, 32767, and the 50 Hz filter selected. -/
def sample_exposure_sd : sd :=
  { sample_sd 2 with
      ctrls := ⟨15, 25, 32767, .V4L2_CID_POWER_LINE_FREQUENCY_50HZ⟩ }

/-- The sample state right after a frame was completed: the sink is in the LAST_PACKET
state. -/
def sample_last_sd : sd :=
  { sample_sd 2 with
      gspca_dev := { sample_gspca 2 with last_packet_type := .LAST_PACKET } }

/-- State of the assembly buffer between two calls of `sd_pkt_scan_janggu`: the buffer has
its 1024 bytes and either fewer than 4 bytes of a header are in it, or the buffered header
is valid (info is not 3, packet length at most 1024) and the packet is not yet complete. -/
def buffer_ok (s : sd) : Prop :=
  s.packet.length = PACKET_SIZE ∧
    ((0 ≤ s.packet_read ∧ s.packet_read < 4) ∨
      (janggu_info s.packet ≠ 3 ∧ 4 ≤ s.packet_read ∧
        s.packet_read < janggu_plen s.packet ∧ janggu_plen s.packet ≤ 1024))

/-- What happens to a streaming device: a range arrives and is given to
`sd_pkt_scan_janggu`, or a frame was dequeued and `sd_dq_callback` runs (which restarts
the stream through `sd_stopN` and `sd_start` when a fault asked for it). -/
inductive stream_event where
  | range (data : List u8)
  | dq_callback
deriving DecidableEq

/-- Running a sequence of stream events, first to last; it stops at the first range whose
scan does not return. -/
def run_stream (k : kernel_consts) (dev : usb_device) : List stream_event → sd → scan_result
  | [], s => .ok s
  | .range data :: es, s =>
    match sd_pkt_scan_janggu s data with
    | .ok t => run_stream k dev es t
    | r => r
  | .dq_callback :: es, s => run_stream k dev es (sd_dq_callback k dev s)

/-- Repeated post-frame callbacks against one device. -/
def dq_callbacks (k : kernel_consts) (dev : usb_device) : Nat → sd → sd
  | 0, s => s
  | n + 1, s => sd_dq_callback k dev (dq_callbacks k dev n s)

/-- The sample calibration state with the direction Down recorded. -/
def sample_damped_sd : sd :=
  { sample_calibration_sd with resetlevel_adjust_dir := -1 }

/-- The sample state with a restart pending. -/
def sample_restart_sd : sd :=
  { sample_sd 2 with restart_stream := 1 }

/-- The sample calibration state at reset level `level` with the recorded direction `dir`
and the sticky error -32 already set. -/
def sample_latched_sd (level : Nat) (dir : Int) : sd :=
  { sample_calibration_sd with
      gspca_dev := { sample_gspca 2 with usb_err := -32 },
      resetlevel := level, resetlevel_adjust_dir := dir }

/-- Rounding up to an even number, as the specification words it. -/
def round_up_to_even (n : Nat) : Nat := if n % 2 = 0 then n else n + 1

/-- Payload length as the specification words it:
`round_up((bit_count+47)/16, to even) * 2`. -/
def spec_payload_len (bit_count : Nat) : Nat := round_up_to_even ((bit_count + 47) / 16) * 2

/-! ## Properties -/

set_option maxRecDepth 100000

theorem write_req_of_err (dev : usb_device) (g : gspca_dev) (h : g.usb_err < 0)
    (req : se401_req) (value : Nat) (silent : Bool) :
    se401_write_req dev g req value silent = g := by
  simp [se401_write_req, h]

theorem read_req_of_err (k : kernel_consts) (dev : usb_device) (g : gspca_dev)
    (h : g.usb_err < 0) (req : se401_req) (silent : Bool) :
    se401_read_req k dev g req silent = g := by
  simp [se401_read_req, h]

theorem set_feature_of_err (dev : usb_device) (g : gspca_dev) (h : g.usb_err < 0)
    (selector : se401_selector) (param : Nat) :
    se401_set_feature dev g selector param = g := by
  simp [se401_set_feature, h]

theorem get_feature_of_err (k : kernel_consts) (dev : usb_device) (g : gspca_dev)
    (h : g.usb_err < 0) (selector : se401_selector) :
    se401_get_feature k dev g selector = (g.usb_err, g) := by
  simp [se401_get_feature, h]

theorem stopN_of_err (dev : usb_device) (g : gspca_dev) (h : g.usb_err < 0) :
    sd_stopN dev g = g := by
  simp [sd_stopN, write_req_of_err dev g h]

theorem run_op_of_err (k : kernel_consts) (dev : usb_device) (g : gspca_dev)
    (h : g.usb_err < 0) (op : ctl_op) : run_op k dev g op = g := by
  cases op <;>
    simp [run_op, write_req_of_err, read_req_of_err, set_feature_of_err, get_feature_of_err,
      stopN_of_err, h]

theorem run_ops_of_err (k : kernel_consts) (dev : usb_device) (g : gspca_dev)
    (h : g.usb_err < 0) (ops : List ctl_op) : run_ops k dev g ops = g := by
  induction ops with
  | nil => rfl
  | cons op ops ih =>
    simpa [run_ops, List.foldl_cons, run_op_of_err k dev g h op] using ih

/-- C1. Sticky first error. Let `g` be the device state reached from any state `g0` by any
sequence `pre` of control channel operations against any device, and suppose `usb_err`
is negative in `g`. Then each of `se401_write_req`, `se401_read_req`,
`se401_set_feature` and `se401_get_feature` leaves `g` unchanged (so no transfer is
recorded and `usb_err` keeps its value), `se401_get_feature` returns the stored error,
every further sequence `post` of operations ends in `g` again, and two `sd_stopN` calls in
succession from any state leave what the first one left once it latched an error. -/
theorem sticky_first_error (k : kernel_consts) (dev : usb_device) (g0 : gspca_dev)
    (pre : List ctl_op) (h : (run_ops k dev g0 pre).usb_err < 0) :
    (∀ req value silent,
        se401_write_req dev (run_ops k dev g0 pre) req value silent = run_ops k dev g0 pre) ∧
    (∀ req silent,
        se401_read_req k dev (run_ops k dev g0 pre) req silent = run_ops k dev g0 pre) ∧
    (∀ selector param,
        se401_set_feature dev (run_ops k dev g0 pre) selector param = run_ops k dev g0 pre) ∧
    (∀ selector,
        se401_get_feature k dev (run_ops k dev g0 pre) selector =
          ((run_ops k dev g0 pre).usb_err, run_ops k dev g0 pre)) ∧
    (∀ post, run_ops k dev g0 (pre ++ post) = run_ops k dev g0 pre) ∧
    (∀ g1, (sd_stopN dev g1).usb_err < 0 →
        sd_stopN dev (sd_stopN dev g1) = sd_stopN dev g1) := by
  refine ⟨fun req value silent => write_req_of_err dev _ h req value silent,
    fun req silent => read_req_of_err k dev _ h req silent,
    fun selector param => set_feature_of_err dev _ h selector param,
    fun selector => get_feature_of_err k dev _ h selector, ?_, ?_⟩
  · intro post
    have : run_ops k dev g0 (pre ++ post) = run_ops k dev (run_ops k dev g0 pre) post := by
      simp [run_ops, List.foldl_append]
    rw [this, run_ops_of_err k dev _ h post]
  · intro g1 h1
    exact stopN_of_err dev _ h1

/-- C1, witness: against a device that stalls every transfer, the first `sd_stopN` latches
-32; a following feature read returns -32 without a transfer and a second `sd_stopN`
changes nothing. -/
theorem sticky_first_error_witness :
    (run_ops sample_consts stalled_device (sample_gspca 2) [.stopN]).usb_err = -32 ∧
    se401_get_feature sample_consts stalled_device
        (run_ops sample_consts stalled_device (sample_gspca 2) [.stopN])
        .HV7131_REG_ARLV =
      (-32, run_ops sample_consts stalled_device (sample_gspca 2) [.stopN]) ∧
    run_ops sample_consts stalled_device (sample_gspca 2) ([.stopN] ++ [.stopN]) =
      run_ops sample_consts stalled_device (sample_gspca 2) [.stopN] :=
  ⟨by decide,
   (sticky_first_error sample_consts stalled_device (sample_gspca 2) [.stopN]
      (by decide)).2.2.2.1 .HV7131_REG_ARLV,
   (sticky_first_error sample_consts stalled_device (sample_gspca 2) [.stopN]
      (by decide)).2.2.2.2.1 [.stopN]⟩

/-! ### Compressed packet headers -/

theorem janggu_plen_eq (packet : List u8) :
    janggu_plen packet = (janggu_bits packet + 47) / 16 * 2 := by
  simp [janggu_plen, Nat.shiftLeft_eq, Nat.shiftRight_eq_div_pow]

theorem janggu_plen_ge (packet : List u8) : 4 ≤ janggu_plen packet := by
  rw [janggu_plen_eq]; omega

theorem janggu_packet_error_iff (imagesize : Int) (s : sd) (rest : List u8)
    (h4 : 4 ≤ s.packet_read) :
    janggu_packet imagesize s rest = .error s ↔
      (janggu_plen s.packet > 1024 ∨ janggu_info s.packet = 3) := by
  constructor
  · intro h
    by_contra hc
    push_neg at hc
    obtain ⟨h1, h2⟩ := hc
    have h1 : ¬ janggu_plen s.packet > 1024 := by omega
    simp only [janggu_packet, h1, h2, if_false] at h
    cases hcp : janggu_copy s rest (min ((janggu_plen s.packet : Int) - s.packet_read)
        rest.length) with
    | none => simp [hcp] at h
    | some p =>
      obtain ⟨s2, rest2⟩ := p
      simp only [hcp] at h
      simp only [janggu_dispatch] at h
      split_ifs at h
      all_goals simp at h
      have hpr := congrArg sd.packet_read h
      simp at hpr
      omega
  · rintro (h | h)
    · simp [janggu_packet, h]
    · simp [janggu_packet, h]

theorem memcpy_length (dst : List u8) (off : Nat) (src : List u8)
    (h : off + src.length ≤ dst.length) : (memcpy dst off src).length = dst.length := by
  simp [memcpy]; omega

theorem memcpy_nil (dst : List u8) (off : Nat) : memcpy dst off [] = dst := by
  simp [memcpy]

theorem memcpy_take (dst : List u8) (off : Nat) (src : List u8) (k : Nat)
    (hk : k ≤ off) (h : off ≤ dst.length) : (memcpy dst off src).take k = dst.take k := by
  simp only [memcpy, List.append_assoc]
  rw [List.take_append_of_le_length (by simp; omega)]
  rw [List.take_take]
  simp [hk]

theorem memcpy_take_all (dst : List u8) (off : Nat) (src : List u8)
    (h : off ≤ dst.length) : (memcpy dst off src).take (off + src.length) = dst.take off ++ src := by
  simp only [memcpy]
  rw [List.take_append_of_le_length (by simp [h])]
  rw [List.take_of_length_le (by simp [h])]

theorem memcpy_memcpy (dst : List u8) (off : Nat) (a b : List u8)
    (h : off + a.length ≤ dst.length) :
    memcpy (memcpy dst off a) (off + a.length) b = memcpy dst off (a ++ b) := by
  have h1 : (memcpy dst off a).take (off + a.length) = dst.take off ++ a :=
    memcpy_take_all dst off a (by omega)
  have h2 : (memcpy dst off a).drop (off + a.length + b.length) =
      dst.drop (off + (a ++ b).length) := by
    simp only [memcpy, List.append_assoc, List.length_append]
    rw [← List.append_assoc, List.drop_append_eq_append_drop]
    have : (List.take off dst ++ a).length = off + a.length := by simp; omega
    rw [this, List.drop_of_length_le (by simp; omega)]
    simp
    congr 1
    omega
  unfold memcpy at h1 h2 ⊢
  rw [h1, h2]
  simp

theorem rd_take (p : List u8) (n k : Nat) (h : k < n) : rd (p.take n) k = rd p k := by
  simp [rd, List.getD_eq_getElem?_getD, List.getElem?_take, h]

theorem janggu_plen_take (p : List u8) : janggu_plen (p.take 4) = janggu_plen p := by
  simp [janggu_plen, janggu_bits, rd_take]
theorem janggu_info_take (p : List u8) : janggu_info (p.take 4) = janggu_info p := by
  simp [janggu_info, rd_take]
theorem janggu_pixels_take (p : List u8) : janggu_pixels (p.take 4) = janggu_pixels p := by
  simp [janggu_pixels, rd_take]



theorem janggu_copy_ok (s : sd) (rest : List u8) (count : Nat)
    (hc : count ≤ rest.length) (hpr : 0 ≤ s.packet_read)
    (hcap : s.packet_read + count ≤ PACKET_SIZE) :
    janggu_copy s rest count =
      some ({ s with packet := memcpy s.packet s.packet_read.toNat (rest.take count),
                     packet_read := s.packet_read + count }, rest.drop count) := by
  have h : ¬ ((count : Int) < 0 ∨ (rest.length : Int) < count ∨ s.packet_read < 0 ∨
      s.packet_read + count > PACKET_SIZE) := by omega
  unfold janggu_copy
  rw [if_neg h]
  simp

theorem janggu_header_complete (s : sd) (more tail : List u8) (n : Nat)
    (hn : s.packet_read = n) (h4 : n < 4) (hm : 4 - n ≤ more.length) :
    janggu_header s (more ++ tail) =
      some ({ s with packet := memcpy s.packet n (more.take (4 - n)), packet_read := 4 },
            more.drop (4 - n) ++ tail) := by
  have hmin : min (4 - s.packet_read) ((more ++ tail).length : Int) = ((4 - n : Nat) : Int) := by
    simp only [List.length_append, Nat.cast_add]
    omega
  have hlt : s.packet_read < 4 := by omega
  simp only [janggu_header, hlt, if_true, hmin]
  rw [janggu_copy_ok s (more ++ tail) (4 - n) (by simp; omega) (by omega)
    (by simp [PACKET_SIZE]; omega)]
  have e1 : s.packet_read + ((4 - n : Nat) : Int) = 4 := by omega
  have e2 : s.packet_read.toNat = n := by omega
  rw [e1, e2, List.take_append_of_le_length hm, List.drop_append_of_le_length hm]



theorem janggu_packet_complete (imagesize : Int) (s : sd) (p tail : List u8) (n : Nat)
    (hn : s.packet_read = n) (hP : n + p.length = janggu_plen s.packet)
    (hcap : janggu_plen s.packet ≤ 1024) (hinfo : janggu_info s.packet ≠ 3) :
    janggu_packet imagesize s (p ++ tail) =
      janggu_dispatch imagesize (janggu_pixels s.packet) (janggu_info s.packet)
        (janggu_plen s.packet)
        { s with packet := memcpy s.packet n p, packet_read := janggu_plen s.packet } tail := by
  have hmin : min ((janggu_plen s.packet : Int) - s.packet_read) ((p ++ tail).length : Int) =
      (p.length : Int) := by
    simp only [List.length_append, Nat.cast_add]
    omega
  have h1 : ¬ janggu_plen s.packet > 1024 := by omega
  simp only [janggu_packet, h1, hinfo, if_false, hmin]
  rw [janggu_copy_ok s (p ++ tail) p.length (by simp) (by omega)
    (by simp [PACKET_SIZE]; omega)]
  have e1 : s.packet_read + (p.length : Int) = janggu_plen s.packet := by omega
  have e2 : s.packet_read.toNat = n := by omega
  simp only [e1, e2, List.take_left', List.drop_left', lt_self_iff_false, if_false]

theorem header_fields_of_take {p q : List u8} (h : p.take 4 = q.take 4) :
    janggu_plen p = janggu_plen q ∧ janggu_info p = janggu_info q ∧
      janggu_pixels p = janggu_pixels q := by
  rw [← janggu_plen_take p, ← janggu_info_take p, ← janggu_pixels_take p, h,
    janggu_plen_take, janggu_info_take, janggu_pixels_take]
  exact ⟨rfl, rfl, rfl⟩

theorem janggu_body_complete (imagesize : Int) (s : sd) (more tail : List u8) (n : Nat)
    (hlen : s.packet.length = PACKET_SIZE) (hn : s.packet_read = n)
    (hP : n + more.length = janggu_plen (memcpy s.packet n more))
    (hcap : janggu_plen (memcpy s.packet n more) ≤ 1024)
    (hinfo : janggu_info (memcpy s.packet n more) ≠ 3) :
    janggu_body imagesize s (more ++ tail) =
      janggu_dispatch imagesize (janggu_pixels (memcpy s.packet n more))
        (janggu_info (memcpy s.packet n more)) (janggu_plen (memcpy s.packet n more))
        { s with packet := memcpy s.packet n more,
                 packet_read := janggu_plen (memcpy s.packet n more) } tail := by
  have hge := janggu_plen_ge (memcpy s.packet n more)
  simp only [PACKET_SIZE] at hlen
  by_cases h4 : n < 4
  · have hm : 4 - n ≤ more.length := by omega
    have hsplit : more = more.take (4 - n) ++ more.drop (4 - n) := (List.take_append_drop _ _).symm
    have hlh : (more.take (4 - n)).length = 4 - n := by simp; omega
    have hB : memcpy s.packet n more =
        memcpy (memcpy s.packet n (more.take (4 - n))) 4 (more.drop (4 - n)) := by
      have := memcpy_memcpy s.packet n (more.take (4 - n)) (more.drop (4 - n))
        (by rw [hlh]; omega)
      rw [hlh, ← hsplit] at this
      have e4 : n + (4 - n) = 4 := by omega
      rw [e4] at this
      exact this.symm
    have hl1 : (memcpy s.packet n (more.take (4 - n))).length = 1024 := by
      rw [memcpy_length _ _ _ (by rw [hlh]; omega)]; exact hlen
    have htk : (memcpy s.packet n more).take 4 =
        (memcpy s.packet n (more.take (4 - n))).take 4 := by
      rw [hB]; exact memcpy_take _ 4 _ 4 (le_refl _) (by omega)
    obtain ⟨f1, f2, f3⟩ := header_fields_of_take htk
    unfold janggu_body
    rw [janggu_header_complete s more tail n hn h4 hm]
    simp only [lt_self_iff_false, if_false]
    rw [janggu_packet_complete imagesize _ (more.drop (4 - n)) tail 4 rfl
      (by simp only [List.length_drop]; rw [← f1]; omega) (by rw [← f1]; exact hcap)
      (by rw [← f2]; exact hinfo)]
    simp only [← f1, ← f2, ← f3, ← hB]
  · have hnl : n ≤ s.packet.length := by omega
    have htk : (memcpy s.packet n more).take 4 = s.packet.take 4 :=
      memcpy_take _ n _ 4 (by omega) hnl
    obtain ⟨f1, f2, f3⟩ := header_fields_of_take htk
    have hh : janggu_header s (more ++ tail) = some (s, more ++ tail) := by
      have : ¬ s.packet_read < 4 := by omega
      simp [janggu_header, this]
    have hnot : ¬ s.packet_read < 4 := by omega
    unfold janggu_body
    rw [hh]
    simp only [hnot, if_false]
    rw [janggu_packet_complete imagesize s more tail n hn (by rw [← f1]; exact hP)
      (by rw [← f1]; exact hcap) (by rw [← f2]; exact hinfo)]
    simp only [← f1, ← f2, ← f3]

/-- C2. Whenever the loop body of `sd_pkt_scan_janggu` holds a complete 4-byte header
(`packet_read` is at least 4) and does not leave through `goto error` on the sanity
checks of that header, the packet length derived from the header is even and at most
1024, the size of the assembly buffer. -/
theorem accepted_header_plen (imagesize : Int) (s : sd) (rest : List u8)
    (h4 : 4 ≤ s.packet_read) (hacc : janggu_packet imagesize s rest ≠ .error s) :
    janggu_plen s.packet % 2 = 0 ∧ janggu_plen s.packet ≤ PACKET_SIZE := by
  have hne := mt (janggu_packet_error_iff imagesize s rest h4).mpr hacc
  push_neg at hne
  refine ⟨?_, by simpa [PACKET_SIZE] using hne.1⟩
  rw [janggu_plen_eq]; omega

/-- C2, witness: the header of `sample_sof` (bit count 17) is accepted; its packet length
is 8. -/
theorem accepted_header_plen_witness :
    janggu_plen sample_header_sd.packet = 8 ∧
      janggu_plen sample_header_sd.packet % 2 = 0 ∧
      janggu_plen sample_header_sd.packet ≤ PACKET_SIZE :=
  ⟨by decide, accepted_header_plen 200 sample_header_sd [] (by decide) (by decide)⟩

/-- C3, as stated, fails: for the header bytes `00 00 00 01` (bit_count 1) the driver
derives the packet length 6, the formula of the specification gives 8. -/
theorem plen_round_up_counterexample :
    janggu_bits [0, 0, 0, 1] = 1 ∧ janggu_plen [0, 0, 0, 1] = 6 ∧
      spec_payload_len (janggu_bits [0, 0, 0, 1]) = 8 ∧
      janggu_plen [0, 0, 0, 1] ≠ spec_payload_len (janggu_bits [0, 0, 0, 1]) := by
  decide

/-- C3, amended. For every header, the 16-bit bit_count is `packet[2]*256 + packet[3]`
and the packet length the driver derives is `floor((bit_count+47)/16) * 2`: the quotient
is rounded down to an integer and doubled, it is not rounded up to an even number. -/
theorem plen_formula (packet : List u8) :
    janggu_bits packet = rd packet 2 * 256 + rd packet 3 ∧
      janggu_plen packet = (janggu_bits packet + 47) / 16 * 2 := by
  refine ⟨?_, janggu_plen_eq packet⟩
  simp [janggu_bits, Nat.shiftLeft_eq]
  omega

theorem janggu_error_restart (t : sd) : (janggu_error t).restart_stream = 1 := rfl

theorem janggu_error_frame_log (t : sd) :
    (janggu_error t).gspca_dev.frame_log =
      t.gspca_dev.frame_log ++ [(.FIRST_PACKET, []), (.LAST_PACKET, [])] := by
  simp [janggu_error, gspca_frame_add]

theorem janggu_loop_step (imagesize : Int) (fuel : Nat) (s : sd) (rest : List u8)
    (hne : rest ≠ []) :
    janggu_loop imagesize (fuel + 1) s rest =
      match janggu_body imagesize s rest with
      | .next s rest => janggu_loop imagesize fuel s rest
      | .done s => .ok s
      | .error s => .ok (janggu_error s)
      | .undefined => .undefined := by
  have : ¬ rest.length = 0 := by simpa using hne
  simp only [janggu_loop, this, if_false]

theorem janggu_body_header_fault (imagesize : Int) (s : sd) (more tail : List u8) (n : Nat)
    (hn : s.packet_read = n)
    (hhdr : n + more.length = 4 ∨ (4 ≤ n ∧ more = []))
    (hbad : janggu_info (memcpy s.packet n more) = 3 ∨
      1024 < janggu_plen (memcpy s.packet n more)) :
    janggu_body imagesize s (more ++ tail) =
      .error { s with packet := memcpy s.packet n more,
                      packet_read := if n < 4 then 4 else n } := by
  by_cases hlt : n < 4
  · have hm : n + more.length = 4 := by omega
    have htake : more.take (4 - n) = more := List.take_of_length_le (by omega)
    have hdrop : more.drop (4 - n) = [] := List.drop_of_length_le (by omega)
    unfold janggu_body
    rw [janggu_header_complete s more tail n hn hlt (by omega), htake, hdrop]
    simp only [lt_self_iff_false, if_false, hlt, if_true, List.nil_append]
    exact (janggu_packet_error_iff imagesize _ tail (le_refl _)).mpr (by tauto)
  · have hnil : more = [] := by
      rcases hhdr with h | ⟨_, h⟩
      · exact List.length_eq_zero.mp (by omega)
      · exact h
    subst hnil
    have hnot : ¬ s.packet_read < 4 := by omega
    have hs : ({ s with packet := memcpy s.packet n [],
                        packet_read := if n < 4 then 4 else n } : sd) = s := by
      rw [memcpy_nil, if_neg hlt, ← hn]
    rw [hs]
    rw [memcpy_nil] at hbad
    unfold janggu_body
    simp only [janggu_header, hnot, if_false, List.nil_append]
    exact (janggu_packet_error_iff imagesize s tail (by omega)).mpr (by tauto)

theorem janggu_body_eof_fault (imagesize : Int) (s : sd) (more tail : List u8) (n : Nat)
    (hlen : s.packet.length = PACKET_SIZE) (hn : s.packet_read = n)
    (hP : n + more.length = janggu_plen (memcpy s.packet n more))
    (hcap : janggu_plen (memcpy s.packet n more) ≤ 1024)
    (hinfo : janggu_info (memcpy s.packet n more) = 1)
    (hpix : to_int (s.pixels_read + janggu_pixels (memcpy s.packet n more)) ≠ imagesize) :
    janggu_body imagesize s (more ++ tail) =
      .error { s with packet := memcpy s.packet n more, packet_read := 0,
                      pixels_read :=
                        to_int (s.pixels_read + janggu_pixels (memcpy s.packet n more)) } := by
  rw [janggu_body_complete imagesize s more tail n hlen hn hP hcap (by omega)]
  simp [janggu_dispatch, hinfo, hpix]

/-- C4. Sync-fault policy. Let the loop of `sd_pkt_scan_janggu` be entered with `n` bytes of
a packet already in the 1024-byte buffer and let `more` be the next bytes of the range,
so that the buffer then holds `memcpy packet n more`. If (a), (b) `more` completes the
4-byte header and the header has info 3 or a packet length above 1024, or (c) `more`
completes an EOF packet and `pixels_read` plus its pixel count differs from
`width*height`, then there is one state `t` with `restart_stream = 1` and with exactly a
zero-length FIRST_PACKET followed by a zero-length LAST_PACKET appended to the record of
sink calls, such that for every continuation `tail` of the range the loop ends in `t`;
the same holds for the call of `sd_pkt_scan_janggu` itself when the restart flag is clear
and the range is not discarded as garbage. No byte of `tail` is processed. -/
theorem sync_fault_policy (fuel : Nat) (s : sd) (more : List u8) (n : Nat)
    (hlen : s.packet.length = PACKET_SIZE) (hn : s.packet_read = n)
    (hfault :
      ((n + more.length = 4 ∨ (4 ≤ n ∧ more = [])) ∧
        (janggu_info (memcpy s.packet n more) = 3 ∨
          1024 < janggu_plen (memcpy s.packet n more))) ∨
      (n + more.length = janggu_plen (memcpy s.packet n more) ∧
        janggu_plen (memcpy s.packet n more) ≤ 1024 ∧
        janggu_info (memcpy s.packet n more) = 1 ∧
        to_int (s.pixels_read + janggu_pixels (memcpy s.packet n more)) ≠
          to_int (s.gspca_dev.width * s.gspca_dev.height))) :
    ∃ t : sd, t.restart_stream = 1 ∧
      t.gspca_dev.frame_log =
        s.gspca_dev.frame_log ++ [(.FIRST_PACKET, []), (.LAST_PACKET, [])] ∧
      (∀ tail, more ++ tail ≠ [] →
        janggu_loop (to_int (s.gspca_dev.width * s.gspca_dev.height)) (fuel + 1) s
          (more ++ tail) = .ok t) ∧
      (∀ tail, more ++ tail ≠ [] → s.restart_stream = 0 →
        ¬ (s.gspca_dev.last_packet_type = .LAST_PACKET ∧ (more ++ tail).length = 1024) →
        sd_pkt_scan_janggu s (more ++ tail) = .ok t) := by
  obtain ⟨u, hu, hlog⟩ : ∃ u : sd, (∀ tail,
      janggu_body (to_int (s.gspca_dev.width * s.gspca_dev.height)) s (more ++ tail) =
        .error u) ∧ u.gspca_dev.frame_log = s.gspca_dev.frame_log := by
    rcases hfault with ⟨hhdr, hbad⟩ | ⟨hP, hcap, hinfo, hpix⟩
    · exact ⟨_, fun tail => janggu_body_header_fault _ s more tail n hn hhdr hbad, rfl⟩
    · exact ⟨_, fun tail => janggu_body_eof_fault _ s more tail n hlen hn hP hcap hinfo hpix,
        rfl⟩
  have hloop : ∀ (f : Nat) (tail : List u8), more ++ tail ≠ [] →
      janggu_loop (to_int (s.gspca_dev.width * s.gspca_dev.height)) (f + 1) s
        (more ++ tail) = .ok (janggu_error u) := by
    intro f tail hne
    rw [janggu_loop_step _ f s _ hne, hu tail]
  refine ⟨janggu_error u, janggu_error_restart u, ?_, hloop fuel, ?_⟩
  · rw [janggu_error_frame_log, hlog]
  · intro tail hne hr hg
    have hr0 : ¬ s.restart_stream ≠ 0 := by simp [hr]
    simp only [sd_pkt_scan_janggu, hr0, hg, if_false]
    exact hloop _ tail hne

/-- C4, witness: the second end-to-end scenario of the specification. With 100 pixels
counted so far for a 10x20 frame, an EOF packet carrying 50 pixels (total 150, not 200)
raises the sync fault. -/
theorem sync_fault_policy_witness :
    ∃ t : sd, t.restart_stream = 1 ∧
      t.gspca_dev.frame_log = [(.FIRST_PACKET, []), (.LAST_PACKET, [])] ∧
      sd_pkt_scan_janggu { sample_sd 2 with pixels_read := 100 } sample_eof_short = .ok t := by
  obtain ⟨t, h1, h2, _, h4⟩ :=
    sync_fault_policy 0 { sample_sd 2 with pixels_read := 100 } sample_eof_short 0
      (List.length_replicate _ _) rfl
      (Or.inr ⟨by decide, by decide, by decide, by decide⟩)
  exact ⟨t, h1, h2, by simpa using h4 [] (by decide) rfl (by decide)⟩

theorem janggu_body_eof_match (imagesize : Int) (s : sd) (more tail : List u8) (n : Nat)
    (hlen : s.packet.length = PACKET_SIZE) (hn : s.packet_read = n)
    (hP : n + more.length = janggu_plen (memcpy s.packet n more))
    (hcap : janggu_plen (memcpy s.packet n more) ≤ 1024)
    (hinfo : janggu_info (memcpy s.packet n more) = 1)
    (hpix : to_int (s.pixels_read + janggu_pixels (memcpy s.packet n more)) = imagesize) :
    janggu_body imagesize s (more ++ tail) =
      .done (sd_complete_frame
        { s with packet := memcpy s.packet n more, packet_read := 0,
                 pixels_read :=
                   to_int (s.pixels_read + janggu_pixels (memcpy s.packet n more)) }
        (s.packet.take n ++ more)) := by
  have htk : (memcpy s.packet n more).take (janggu_plen (memcpy s.packet n more)) =
      s.packet.take n ++ more := by
    rw [← hP]
    exact memcpy_take_all _ _ _ (by simp only [PACKET_SIZE] at hlen; omega)
  rw [janggu_body_complete imagesize s more tail n hlen hn hP hcap (by omega)]
  simp [janggu_dispatch, hinfo, hpix, htk]

/-- C5, as stated, fails: with the exposure gate in state DropFrame, the 10x20 stream
SOF(50) DATA(50) EOF(100) has a matching pixel total and its EOF packet is passed on as
the LAST_PACKET fragment, but the frame is completed as a discarded one. -/
theorem eof_frame_valid_counterexample :
    scan_frame_log (sd_pkt_scan_janggu
        { sample_sd 2 with expo_change_state := .EXPO_DROP_FRAME }
        (sample_sof ++ sample_data ++ sample_eof)) =
      some [(.FIRST_PACKET, sample_sof), (.INTER_PACKET, sample_data),
        (.LAST_PACKET, sample_eof)] ∧
    scan_frames (sd_pkt_scan_janggu
        { sample_sd 2 with expo_change_state := .EXPO_DROP_FRAME }
        (sample_sof ++ sample_data ++ sample_eof)) =
      some [⟨false, sample_sof ++ sample_data ++ sample_eof⟩] := by
  decide

/-- C5, amended. Whenever the loop of `sd_pkt_scan_janggu` has `n` bytes of a packet in
the buffer and the next bytes `more` complete an EOF packet whose pixel count brings
`pixels_read` to `width*height`, the call ends there, whatever follows in the range, and
the packet (`n` buffered bytes followed by `more`) is passed to the sink as the
LAST_PACKET fragment. When the exposure gate is in state Changed or NoChange the driver
leaves `last_packet_type` as it was, so the frame is not marked discarded; when the gate
is in state DropFrame the driver sets `last_packet_type` to DISCARD_PACKET first, so the
frame is completed as a discarded one. -/
theorem eof_frame_delivery (fuel : Nat) (s : sd) (more : List u8) (n : Nat)
    (hlen : s.packet.length = PACKET_SIZE) (hn : s.packet_read = n)
    (hP : n + more.length = janggu_plen (memcpy s.packet n more))
    (hcap : janggu_plen (memcpy s.packet n more) ≤ 1024)
    (hinfo : janggu_info (memcpy s.packet n more) = 1)
    (hpix : to_int (s.pixels_read + janggu_pixels (memcpy s.packet n more)) =
      to_int (s.gspca_dev.width * s.gspca_dev.height)) :
    ∃ t : sd,
      (∀ tail, more ++ tail ≠ [] →
        janggu_loop (to_int (s.gspca_dev.width * s.gspca_dev.height)) (fuel + 1) s
          (more ++ tail) = .ok t) ∧
      (∀ tail, more ++ tail ≠ [] → s.restart_stream = 0 →
        ¬ (s.gspca_dev.last_packet_type = .LAST_PACKET ∧ (more ++ tail).length = 1024) →
        sd_pkt_scan_janggu s (more ++ tail) = .ok t) ∧
      t.gspca_dev.frame_log =
        s.gspca_dev.frame_log ++ [(.LAST_PACKET, s.packet.take n ++ more)] ∧
      t.restart_stream = s.restart_stream ∧
      (s.expo_change_state ≠ .EXPO_DROP_FRAME →
        t.gspca_dev = gspca_frame_add s.gspca_dev .LAST_PACKET (s.packet.take n ++ more)) ∧
      (s.expo_change_state = .EXPO_DROP_FRAME →
        t.gspca_dev =
          gspca_frame_add { s.gspca_dev with last_packet_type := .DISCARD_PACKET }
            .LAST_PACKET (s.packet.take n ++ more)) ∧
      t.gspca_dev.frames = s.gspca_dev.frames ++
        [⟨decide (s.expo_change_state ≠ .EXPO_DROP_FRAME ∧
            s.gspca_dev.last_packet_type ≠ .DISCARD_PACKET),
          s.gspca_dev.image ++ (s.packet.take n ++ more)⟩] := by
  obtain ⟨u, hu, hb⟩ : ∃ u : sd, u = sd_complete_frame
      { s with packet := memcpy s.packet n more, packet_read := 0,
               pixels_read :=
                 to_int (s.pixels_read + janggu_pixels (memcpy s.packet n more)) }
      (s.packet.take n ++ more) ∧ ∀ tail,
      janggu_body (to_int (s.gspca_dev.width * s.gspca_dev.height)) s (more ++ tail) =
        .done u :=
    ⟨_, rfl, fun tail => janggu_body_eof_match _ s more tail n hlen hn hP hcap hinfo hpix⟩
  have hloop : ∀ (f : Nat) (tail : List u8), more ++ tail ≠ [] →
      janggu_loop (to_int (s.gspca_dev.width * s.gspca_dev.height)) (f + 1) s
        (more ++ tail) = .ok u := by
    intro f tail hne
    rw [janggu_loop_step _ f s _ hne, hb tail]
  refine ⟨u, hloop fuel, ?_, ?_, ?_, ?_, ?_, ?_⟩
  · intro tail hne hr hg
    have hr0 : ¬ s.restart_stream ≠ 0 := by simp [hr]
    simp only [sd_pkt_scan_janggu, hr0, hg, if_false]
    exact hloop _ tail hne
  · rw [hu]
    cases he : s.expo_change_state <;> simp [sd_complete_frame, gspca_frame_add, he]
  · rw [hu]
    cases he : s.expo_change_state <;> simp [sd_complete_frame, he]
  · intro hne
    rw [hu]
    cases he : s.expo_change_state <;> simp_all [sd_complete_frame]
  · intro he
    rw [hu]
    simp [sd_complete_frame, he]
  · rw [hu]
    cases he : s.expo_change_state <;> simp [sd_complete_frame, gspca_frame_add, he]

/-- C5, witness: with 100 pixels counted so far for a 10x20 frame and the gate at
NoChange, the EOF packet carrying 100 pixels completes the frame and is the
LAST_PACKET fragment. -/
theorem eof_frame_delivery_witness :
    ∃ t : sd,
      sd_pkt_scan_janggu { sample_sd 2 with pixels_read := 100 } sample_eof = .ok t ∧
      t.gspca_dev.frame_log = [(.LAST_PACKET, sample_eof)] ∧
      t.gspca_dev =
        gspca_frame_add (sample_sd 2).gspca_dev .LAST_PACKET sample_eof := by
  obtain ⟨t, _, h2, h3, _, h5, _⟩ :=
    eof_frame_delivery 0 { sample_sd 2 with pixels_read := 100 } sample_eof 0
      (List.length_replicate _ _) rfl (by decide) (by decide) (by decide) (by decide)
  exact ⟨t, by simpa using h2 [] (by decide) rfl (by decide), by simpa using h3,
    by simpa using h5 (by decide)⟩

theorem to_int_add_left (a b c : Int) (h : ∀ x, to_int (a + x) = to_int (b + x)) :
    ∀ x, to_int (to_int (a + c) + x) = to_int (b + c + x) := by
  intro x
  have h1 := h (c + x)
  have h2 := h c
  unfold to_int at *
  omega

theorem take_four_memcpy_zero (buf pkt : List u8) (h : 4 ≤ pkt.length) :
    (memcpy buf 0 pkt).take 4 = pkt.take 4 := by
  simp [memcpy, List.take_append_of_le_length h]

theorem janggu_body_whole (imagesize : Int) (s : sd) (pkt tail : List u8)
    (hlen : s.packet.length = PACKET_SIZE) (hpr : s.packet_read = 0)
    (hwf : pkt.length = janggu_plen pkt) (hcap : janggu_plen pkt ≤ 1024)
    (hinfo : janggu_info pkt ≠ 3) :
    janggu_body imagesize s (pkt ++ tail) =
      janggu_dispatch imagesize (janggu_pixels pkt) (janggu_info pkt) (janggu_plen pkt)
        { s with packet := memcpy s.packet 0 pkt, packet_read := janggu_plen pkt } tail := by
  have h4 : 4 ≤ pkt.length := by rw [hwf]; exact janggu_plen_ge pkt
  obtain ⟨f1, f2, f3⟩ := header_fields_of_take (take_four_memcpy_zero s.packet pkt h4)
  have := janggu_body_complete imagesize s pkt tail 0 hlen (by simpa using hpr)
    (by rw [f1]; omega) (by rw [f1]; exact hcap) (by rw [f2]; exact hinfo)
  rw [f1, f2, f3] at this
  exact this

theorem memcpy_zero_take (buf pkt : List u8) : (memcpy buf 0 pkt).take pkt.length = pkt := by
  simp [memcpy]

/-- The sink after a run of interior fragments. -/
theorem frame_add_inter_foldl (ds : List (List u8)) (g : gspca_dev) :
    (ds.foldl (fun g d => gspca_frame_add g .INTER_PACKET d) g).frame_log =
        g.frame_log ++ ds.map (fun d => (gspca_packet_type.INTER_PACKET, d)) ∧
      (ds.foldl (fun g d => gspca_frame_add g .INTER_PACKET d) g).frames = g.frames ∧
      (ds.foldl (fun g d => gspca_frame_add g .INTER_PACKET d) g).image =
        g.image ++ ds.flatten ∧
      (ds.foldl (fun g d => gspca_frame_add g .INTER_PACKET d) g).width = g.width ∧
      (ds.foldl (fun g d => gspca_frame_add g .INTER_PACKET d) g).height = g.height ∧
      ((ds.foldl (fun g d => gspca_frame_add g .INTER_PACKET d) g).last_packet_type =
          g.last_packet_type ∨
        (ds.foldl (fun g d => gspca_frame_add g .INTER_PACKET d) g).last_packet_type =
          .INTER_PACKET) := by
  induction ds generalizing g with
  | nil => simp
  | cons d ds ih =>
    obtain ⟨h1, h2, h3, h4, h5, h6⟩ := ih (gspca_frame_add g .INTER_PACKET d)
    simp only [List.foldl_cons, List.map_cons, List.flatten_cons]
    refine ⟨?_, ?_, ?_, ?_, ?_, ?_⟩
    · rw [h1]; simp [gspca_frame_add]
    · rw [h2]; simp [gspca_frame_add]
    · rw [h3]; simp [gspca_frame_add]
    · rw [h4]; simp [gspca_frame_add]
    · rw [h5]; simp [gspca_frame_add]
    · right
      rcases h6 with h | h
      · rw [h]; simp [gspca_frame_add]
      · exact h

theorem janggu_loop_datas (imagesize : Int) (rest : List u8) :
    ∀ (datas : List (List u8)) (fuel : Nat) (s : sd),
      s.packet.length = PACKET_SIZE → s.packet_read = 0 →
      (∀ d ∈ datas, well_formed_packet 0 d) →
      ∃ (pk : List u8) (px : Int), pk.length = PACKET_SIZE ∧
        (∀ x, to_int (px + x) =
          to_int (s.pixels_read + ((datas.map janggu_pixels).sum : Nat) + x)) ∧
        janggu_loop imagesize (fuel + datas.length) s (datas.flatten ++ rest) =
          janggu_loop imagesize fuel
            { s with gspca_dev :=
                       datas.foldl (fun g d => gspca_frame_add g .INTER_PACKET d) s.gspca_dev,
                     packet := pk, pixels_read := px } rest := by
  intro datas
  induction datas with
  | nil =>
    intro fuel s hlen _ _
    exact ⟨s.packet, s.pixels_read, hlen, by simp, by simp⟩
  | cons d ds ih =>
    intro fuel s hlen hpr hwf
    obtain ⟨hi, hl, hc⟩ := hwf d (List.mem_cons_self _ _)
    have h4 : 4 ≤ d.length := by rw [hl]; exact janggu_plen_ge d
    have hne : d ++ (ds.flatten ++ rest) ≠ [] := by
      have hd : d ≠ [] := by
        intro h0
        rw [h0] at h4
        simp at h4
      simp [hd]
    have hbody := janggu_body_whole imagesize s d (ds.flatten ++ rest) hlen hpr hl hc
      (by omega)
    have hfuel : fuel + (d :: ds).length = (fuel + ds.length) + 1 := by
      simp only [List.length_cons]; omega
    rw [hfuel, List.flatten_cons, List.append_assoc, janggu_loop_step _ _ _ _ hne, hbody]
    simp only [janggu_dispatch, hi, if_true, ← hl, memcpy_zero_take]
    have hlen1 : (memcpy s.packet 0 d).length = PACKET_SIZE := by
      have hlen2 : s.packet.length = 1024 := hlen
      rw [memcpy_length _ _ _ (by omega)]; exact hlen
    obtain ⟨pk, px, hpk, hpx, hloop⟩ := ih fuel
      { s with gspca_dev := gspca_frame_add s.gspca_dev .INTER_PACKET d,
               packet := memcpy s.packet 0 d,
               pixels_read := to_int (s.pixels_read + janggu_pixels d),
               packet_read := 0 }
      hlen1 rfl (fun e he => hwf e (List.mem_cons_of_mem _ he))
    refine ⟨pk, px, hpk, ?_, ?_⟩
    · intro x
      rw [hpx x]
      simp only [List.map_cons, List.sum_cons, Nat.cast_add]
      have := to_int_add_left (s.pixels_read) (s.pixels_read) (janggu_pixels d)
        (fun _ => rfl) (((ds.map janggu_pixels).sum : Nat) + x)
      rw [← add_assoc] at this
      rw [this]
      congr 1
      ring
    · rw [hloop]
      simp [hpr]

theorem flatten_length_ge (datas : List (List u8)) (h : ∀ d ∈ datas, 4 ≤ d.length) :
    datas.length ≤ datas.flatten.length := by
  induction datas with
  | nil => simp
  | cons d ds ih =>
    have h1 := h d (List.mem_cons_self _ _)
    have h2 := ih (fun e he => h e (List.mem_cons_of_mem _ he))
    simp only [List.length_cons, List.flatten_cons, List.length_append]
    omega

theorem frame_add_last (g : gspca_dev) (data : List u8) :
    (gspca_frame_add g .LAST_PACKET data).frame_log =
        g.frame_log ++ [(.LAST_PACKET, data)] ∧
      (gspca_frame_add g .LAST_PACKET data).frames =
        g.frames ++ [⟨decide (g.last_packet_type ≠ .DISCARD_PACKET), g.image ++ data⟩] := by
  simp [gspca_frame_add]

theorem frame_add_first (g : gspca_dev) (data : List u8) :
    (gspca_frame_add g .FIRST_PACKET data).frame_log =
        g.frame_log ++ [(.FIRST_PACKET, data)] ∧
      (gspca_frame_add g .FIRST_PACKET data).frames = g.frames ∧
      (gspca_frame_add g .FIRST_PACKET data).image = data := by
  simp [gspca_frame_add]

/-- C6. End-to-end compressed reassembly. From a state with an empty assembly buffer
(`packet_read = 0`), the restart flag clear, the exposure gate at NoChange and the sink
not in the LAST_PACKET state, a range made of one well-formed SOF packet, any number of
well-formed DATA packets and one well-formed EOF packet whose pixel counts sum to
`width*height` makes `sd_pkt_scan_janggu` return, having passed to the sink exactly
FIRST_PACKET(SOF bytes), INTER_PACKET(bytes of each DATA packet, in order),
LAST_PACKET(EOF bytes); one valid frame holding all bytes of the range is completed,
`restart_stream` and `packet_read` are 0 afterwards. -/
theorem compressed_reassembly (s : sd) (sof eof : List u8) (datas : List (List u8))
    (hlen : s.packet.length = PACKET_SIZE) (hpr : s.packet_read = 0)
    (hrs : s.restart_stream = 0) (hexpo : s.expo_change_state = .EXPO_NO_CHANGE)
    (hlpt : s.gspca_dev.last_packet_type ≠ .LAST_PACKET)
    (hsof : well_formed_packet 2 sof) (hdat : ∀ d ∈ datas, well_formed_packet 0 d)
    (heof : well_formed_packet 1 eof)
    (hsum : janggu_pixels sof + (datas.map janggu_pixels).sum + janggu_pixels eof =
      s.gspca_dev.width * s.gspca_dev.height) :
    ∃ t : sd, sd_pkt_scan_janggu s (sof ++ datas.flatten ++ eof) = .ok t ∧
      t.gspca_dev.frame_log = s.gspca_dev.frame_log ++
        ((.FIRST_PACKET, sof) :: datas.map (fun d => (gspca_packet_type.INTER_PACKET, d)) ++
          [(.LAST_PACKET, eof)]) ∧
      t.gspca_dev.frames = s.gspca_dev.frames ++ [⟨true, sof ++ datas.flatten ++ eof⟩] ∧
      t.restart_stream = 0 ∧ t.packet_read = 0 := by
  obtain ⟨si, sl, sc⟩ := hsof
  obtain ⟨ei, el, ec⟩ := heof
  have hs4 : 4 ≤ sof.length := by rw [sl]; exact janggu_plen_ge sof
  have he4 : 4 ≤ eof.length := by rw [el]; exact janggu_plen_ge eof
  have hfl := flatten_length_ge datas (fun d hd => by
    rw [(hdat d hd).2.1]; exact janggu_plen_ge d)
  have hlen2 : s.packet.length = 1024 := hlen
  -- the call reaches the loop
  have hr0 : ¬ s.restart_stream ≠ 0 := by simp [hrs]
  have hg : ¬ (s.gspca_dev.last_packet_type = .LAST_PACKET ∧
      (sof ++ datas.flatten ++ eof).length = 1024) := fun h => hlpt h.1
  obtain ⟨F, hF⟩ : ∃ F, (sof ++ datas.flatten ++ eof).length + 2 =
      ((F + 1) + datas.length) + 1 :=
    ⟨(sof ++ datas.flatten ++ eof).length - datas.length, by
      simp only [List.length_append]; omega⟩
  simp only [sd_pkt_scan_janggu, hr0, hg, if_false, hF]
  -- the SOF packet
  have hne1 : sof ++ (datas.flatten ++ eof) ≠ [] := by
    have hd : sof ≠ [] := by
      intro h0
      rw [h0] at hs4
      simp at hs4
    simp [hd]
  rw [List.append_assoc, janggu_loop_step _ _ _ _ hne1,
    janggu_body_whole _ s sof (datas.flatten ++ eof) hlen hpr sl sc (by omega)]
  simp only [janggu_dispatch, si, ← sl, memcpy_zero_take]
  simp only [show ¬ (2 : Nat) = 0 by decide, show ¬ (2 : Nat) = 1 by decide, if_false, if_true]
  -- the DATA packets
  have hlen1 : (memcpy s.packet 0 sof).length = PACKET_SIZE := by
    rw [memcpy_length _ _ _ (by omega)]; exact hlen
  obtain ⟨pk, px, hpk, hpx, hloop⟩ := janggu_loop_datas
    (to_int (s.gspca_dev.width * s.gspca_dev.height)) eof datas (F + 1)
    { s with gspca_dev := gspca_frame_add s.gspca_dev .FIRST_PACKET sof,
             packet := memcpy s.packet 0 sof,
             pixels_read := janggu_pixels sof,
             packet_read := 0 }
    hlen1 rfl hdat
  rw [hloop]
  -- the EOF packet
  have hne2 : eof ++ [] ≠ [] := by
    have hd : eof ≠ [] := by
      intro h0
      rw [h0] at he4
      simp at he4
    simp [hd]
  have hpix : to_int (px + janggu_pixels eof) =
      to_int (s.gspca_dev.width * s.gspca_dev.height) := by
    rw [hpx]
    have : ((janggu_pixels sof : Nat) : Int) + ((datas.map janggu_pixels).sum : Nat) +
        (janggu_pixels eof : Nat) = (s.gspca_dev.width : Int) * s.gspca_dev.height := by
      exact_mod_cast hsum
    simp only [this]
  obtain ⟨l1, l2, l3, _, _, l6⟩ := frame_add_inter_foldl datas
    (gspca_frame_add s.gspca_dev .FIRST_PACKET sof)
  have hlast : (datas.foldl (fun g d => gspca_frame_add g .INTER_PACKET d)
      (gspca_frame_add s.gspca_dev .FIRST_PACKET sof)).last_packet_type ≠
        .DISCARD_PACKET := by
    rcases l6 with h | h
    · rw [h]; simp [gspca_frame_add]
    · rw [h]; simp
  rw [← List.append_nil eof, janggu_loop_step _ _ _ _ hne2,
    janggu_body_whole _ _ eof [] hpk rfl (by simpa using el) (by simpa using ec)
      (by simp [ei])]
  simp only [List.append_nil, janggu_dispatch, ei, ← el, memcpy_zero_take, hpix]
  simp only [show ¬ (1 : Nat) = 0 by decide, if_false, if_true, ne_eq, not_true_eq_false]
  refine ⟨_, rfl, ?_, ?_, ?_, ?_⟩
  · simp only [sd_complete_frame, hexpo]
    rw [(frame_add_last _ _).1, l1, (frame_add_first _ _).1]
    simp
  · simp only [sd_complete_frame, hexpo]
    rw [(frame_add_last _ _).2, l2, l3, (frame_add_first _ _).2.1, (frame_add_first _ _).2.2]
    simp [hlast]
  · simp [sd_complete_frame, hexpo, hrs]
  · simp [sd_complete_frame, hexpo]

/-- C6, witness: the first end-to-end scenario of the specification, SOF with 50 pixels,
DATA with 50 pixels and EOF with 100 pixels for a 10x20 frame. -/
theorem compressed_reassembly_witness :
    ∃ t : sd,
      sd_pkt_scan_janggu (sample_sd 2)
        (sample_sof ++ [sample_data].flatten ++ sample_eof) = .ok t ∧
      t.gspca_dev.frame_log = (sample_sd 2).gspca_dev.frame_log ++
        ((.FIRST_PACKET, sample_sof) ::
          [sample_data].map (fun d => (gspca_packet_type.INTER_PACKET, d)) ++
          [(.LAST_PACKET, sample_eof)]) ∧
      t.gspca_dev.frames = (sample_sd 2).gspca_dev.frames ++
        [⟨true, sample_sof ++ [sample_data].flatten ++ sample_eof⟩] ∧
      t.restart_stream = 0 ∧ t.packet_read = 0 :=
  compressed_reassembly (sample_sd 2) sample_sof sample_eof [sample_data]
    (List.length_replicate _ _) rfl rfl rfl (by decide) (by decide) (by decide) (by decide)
    (by decide)

/-! ### Raw mode -/

theorem bayer_step (s : sd) (data : List u8)
    (hinv : s.gspca_dev.image_len = s.gspca_dev.image.length) :
    (sd_pkt_scan_bayer s data).gspca_dev.image_len =
        (sd_pkt_scan_bayer s data).gspca_dev.image.length ∧
      sink_bytes (sd_pkt_scan_bayer s data).gspca_dev = sink_bytes s.gspca_dev ++ data ∧
      (sd_pkt_scan_bayer s data).gspca_dev.sizeimage = s.gspca_dev.sizeimage := by
  unfold sd_pkt_scan_bayer
  by_cases h0 : s.gspca_dev.image_len = 0
  · have himg : s.gspca_dev.image = [] := by
      rw [h0] at hinv
      exact List.length_eq_zero.mp (by exact_mod_cast hinv.symm)
    simp [h0, gspca_frame_add, sink_bytes, himg]
  · by_cases h1 : s.gspca_dev.image_len + data.length ≥ s.gspca_dev.sizeimage
    · simp only [h0, h1, if_false, if_true]
      cases he : s.expo_change_state <;>
        simp [sd_complete_frame, he, gspca_frame_add, sink_bytes]
    · simp only [h0, h1, if_false]
      simp [gspca_frame_add, sink_bytes, hinv]

theorem feed_bayer_bytes (chunks : List (List u8)) :
    ∀ s : sd, s.gspca_dev.image_len = s.gspca_dev.image.length →
      sink_bytes (feed_bayer s chunks).gspca_dev = sink_bytes s.gspca_dev ++ chunks.flatten := by
  induction chunks with
  | nil => intro s _; simp [feed_bayer]
  | cons c cs ih =>
    intro s hinv
    obtain ⟨h1, h2, _⟩ := bayer_step s c hinv
    have := ih (sd_pkt_scan_bayer s c) h1
    simp only [feed_bayer, List.foldl_cons, List.flatten_cons] at this ⊢
    rw [this, h2, List.append_assoc]

theorem feed_bayer_short (chunks : List (List u8)) :
    ∀ s : sd, s.gspca_dev.image_len = s.gspca_dev.image.length →
      (s.gspca_dev.image.length : Int) + chunks.flatten.length < s.gspca_dev.sizeimage →
      (feed_bayer s chunks).gspca_dev.frames = s.gspca_dev.frames ∧
        (feed_bayer s chunks).gspca_dev.image = s.gspca_dev.image ++ chunks.flatten := by
  induction chunks with
  | nil => intro s _ _; simp [feed_bayer]
  | cons c cs ih =>
    intro s hinv hlt
    simp only [List.flatten_cons, List.length_append, Nat.cast_add] at hlt
    have hstep : (sd_pkt_scan_bayer s c).gspca_dev.frames = s.gspca_dev.frames ∧
        (sd_pkt_scan_bayer s c).gspca_dev.image = s.gspca_dev.image ++ c := by
      unfold sd_pkt_scan_bayer
      by_cases h0 : s.gspca_dev.image_len = 0
      · have himg : s.gspca_dev.image = [] := by
          rw [h0] at hinv
          exact List.length_eq_zero.mp (by exact_mod_cast hinv.symm)
        simp [h0, gspca_frame_add, himg]
      · have h1 : ¬ s.gspca_dev.image_len + c.length ≥ s.gspca_dev.sizeimage := by
          rw [hinv]; omega
        simp only [h0, h1, if_false]
        simp [gspca_frame_add]
    obtain ⟨h1, _, h3⟩ := bayer_step s c hinv
    have := ih (sd_pkt_scan_bayer s c) h1 (by
      rw [hstep.2, h3]; simp only [List.length_append, Nat.cast_add]; omega)
    simp only [feed_bayer, List.foldl_cons, List.flatten_cons] at this ⊢
    rw [this.1, this.2, hstep.1, hstep.2, List.append_assoc]
    exact ⟨rfl, rfl⟩

/-- C7, as stated, fails: with 4 bytes per frame, the stream `1 2 3 4` fed as the chunks
`1 2` and `3 4` completes the frame `1 2 3 4`, while the same stream fed as one chunk
completes no frame (the bytes stay in the frame in progress). -/
theorem bayer_chunk_invariance_counterexample :
    [[(1 : u8), 2], [3, 4]].flatten = [[(1 : u8), 2, 3, 4]].flatten ∧
    (feed_bayer sample_raw_sd [[1, 2], [3, 4]]).gspca_dev.frames = [⟨true, [1, 2, 3, 4]⟩] ∧
    (feed_bayer sample_raw_sd [[1, 2, 3, 4]]).gspca_dev.frames = [] ∧
    (feed_bayer sample_raw_sd [[1, 2], [3, 4]]).gspca_dev.frames ≠
      (feed_bayer sample_raw_sd [[1, 2, 3, 4]]).gspca_dev.frames := by
  decide

/-- C7, amended. With the sink modelled as the gspca frame buffer and no frame in
progress at the start, for every byte stream and every partition of it into chunks fed
one by one to `sd_pkt_scan_bayer`, the bytes held by the sink (completed frames in order,
then the frame in progress) are those held after feeding the stream as one single chunk,
namely the bytes held before followed by the stream. When the stream is shorter than
`sizeimage`, the frames themselves are identical as well: no frame is completed either
way and the frame in progress holds the stream. Frame boundaries of longer streams
depend on the partition. -/
theorem bayer_chunk_bytes (s : sd) (chunks : List (List u8))
    (h0 : s.gspca_dev.image_len = 0) (himg : s.gspca_dev.image = []) :
    sink_bytes (feed_bayer s chunks).gspca_dev =
        sink_bytes (feed_bayer s [chunks.flatten]).gspca_dev ∧
      sink_bytes (feed_bayer s chunks).gspca_dev = sink_bytes s.gspca_dev ++ chunks.flatten ∧
      ((chunks.flatten.length : Int) < s.gspca_dev.sizeimage →
        (feed_bayer s chunks).gspca_dev.frames =
            (feed_bayer s [chunks.flatten]).gspca_dev.frames ∧
          (feed_bayer s chunks).gspca_dev.image =
            (feed_bayer s [chunks.flatten]).gspca_dev.image ∧
          (feed_bayer s chunks).gspca_dev.frames = s.gspca_dev.frames ∧
          (feed_bayer s chunks).gspca_dev.image = chunks.flatten) := by
  have hinv : s.gspca_dev.image_len = s.gspca_dev.image.length := by simp [h0, himg]
  have h1 := feed_bayer_bytes chunks s hinv
  have h2 := feed_bayer_bytes [chunks.flatten] s hinv
  refine ⟨?_, h1, ?_⟩
  · rw [h1, h2]; simp
  · intro hlt
    have a := feed_bayer_short chunks s hinv (by simpa [himg] using hlt)
    have b := feed_bayer_short [chunks.flatten] s hinv (by simpa [himg] using hlt)
    refine ⟨?_, ?_, a.1, ?_⟩
    · rw [a.1, b.1]
    · rw [a.2, b.2]; simp
    · rw [a.2, himg]; simp

/-- C7, witness: the chunks `1 2` and `3` (shorter than one 4-byte frame together). -/
theorem bayer_chunk_bytes_witness :
    sink_bytes (feed_bayer sample_raw_sd [[1, 2], [3]]).gspca_dev =
      sink_bytes (feed_bayer sample_raw_sd [[[(1 : u8), 2], [3]].flatten]).gspca_dev :=
  (bayer_chunk_bytes sample_raw_sd [[1, 2], [3]] rfl rfl).1

/-- C8. Raw strategy classification. In raw mode (`mult == 1`) `sd_pkt_scan` returns for
every range. A non-empty range is passed whole to the sink in exactly one call: as
FIRST_PACKET when `image_len == 0`, whatever its length; otherwise through
`sd_complete_frame` as the frame-completing LAST_PACKET when
`image_len + len >= sizeimage`; otherwise as INTER_PACKET. An empty range produces no
sink call and no state change. -/
theorem raw_classification (s : sd) (data : List u8) (hraw : s.gspca_dev.priv = 1) :
    (data.length = 0 → sd_pkt_scan s data = .ok s) ∧
    (data.length ≠ 0 → s.gspca_dev.image_len = 0 →
      sd_pkt_scan s data =
          .ok { s with gspca_dev := gspca_frame_add s.gspca_dev .FIRST_PACKET data } ∧
        scan_frame_log (sd_pkt_scan s data) =
          some (s.gspca_dev.frame_log ++ [(.FIRST_PACKET, data)])) ∧
    (data.length ≠ 0 → s.gspca_dev.image_len ≠ 0 →
      s.gspca_dev.image_len + data.length ≥ s.gspca_dev.sizeimage →
      sd_pkt_scan s data = .ok (sd_complete_frame s data) ∧
        scan_frame_log (sd_pkt_scan s data) =
          some (s.gspca_dev.frame_log ++ [(.LAST_PACKET, data)])) ∧
    (data.length ≠ 0 → s.gspca_dev.image_len ≠ 0 →
      s.gspca_dev.image_len + data.length < s.gspca_dev.sizeimage →
      sd_pkt_scan s data =
          .ok { s with gspca_dev := gspca_frame_add s.gspca_dev .INTER_PACKET data } ∧
        scan_frame_log (sd_pkt_scan s data) =
          some (s.gspca_dev.frame_log ++ [(.INTER_PACKET, data)])) := by
  refine ⟨?_, ?_, ?_, ?_⟩
  · intro h
    simp [sd_pkt_scan, h]
  · intro h h0
    simp [sd_pkt_scan, h, hraw, sd_pkt_scan_bayer, h0, scan_frame_log, gspca_frame_add]
  · intro h h0 h1
    have e : sd_pkt_scan s data = .ok (sd_complete_frame s data) := by
      simp only [sd_pkt_scan, h, hraw, sd_pkt_scan_bayer, h0, h1, if_false, if_true]
    rw [e]
    refine ⟨rfl, ?_⟩
    cases he : s.expo_change_state <;>
      simp [scan_frame_log, sd_complete_frame, he, gspca_frame_add]
  · intro h h0 h1
    have h1n : ¬ s.gspca_dev.image_len + data.length ≥ s.gspca_dev.sizeimage := by omega
    have e : sd_pkt_scan s data =
        .ok { s with gspca_dev := gspca_frame_add s.gspca_dev .INTER_PACKET data } := by
      simp only [sd_pkt_scan, h, hraw, sd_pkt_scan_bayer, h0, h1n, if_false, if_true]
    rw [e]
    refine ⟨rfl, ?_⟩
    simp [scan_frame_log, gspca_frame_add]

/-- C8, witness: in the 2x2 raw mode, a 5-byte range with no frame in progress starts a
frame although it is longer than a frame. -/
theorem raw_classification_witness :
    sd_pkt_scan sample_raw_sd [1, 2, 3, 4, 5] =
      .ok { sample_raw_sd with
              gspca_dev := gspca_frame_add sample_raw_sd.gspca_dev .FIRST_PACKET
                [1, 2, 3, 4, 5] } :=
  ((raw_classification sample_raw_sd [1, 2, 3, 4, 5] rfl).2.1 (by decide) rfl).1

/-! ### The exposure gate -/

theorem set_feature_sink (dev : usb_device) (g : gspca_dev) (selector : se401_selector)
    (param : Nat) :
    (se401_set_feature dev g selector param).frames = g.frames ∧
      (se401_set_feature dev g selector param).last_packet_type = g.last_packet_type ∧
      (se401_set_feature dev g selector param).image = g.image ∧
      (se401_set_feature dev g selector param).frame_log = g.frame_log := by
  simp only [se401_set_feature, usb_control_msg]
  by_cases h : g.usb_err < 0
  · simp [h]
  · simp only [h, if_false]
    split_ifs <;> simp

theorem setexposure_sink (dev : usb_device) (s : sd) :
    (setexposure dev s).expo_change_state = .EXPO_CHANGED ∧
      (setexposure dev s).gspca_dev.frames = s.gspca_dev.frames ∧
      (setexposure dev s).gspca_dev.last_packet_type = s.gspca_dev.last_packet_type := by
  refine ⟨rfl, ?_, ?_⟩
  · simp only [setexposure]
    rw [(set_feature_sink _ _ _ _).1, (set_feature_sink _ _ _ _).1,
      (set_feature_sink _ _ _ _).1]
  · simp only [setexposure]
    rw [(set_feature_sink _ _ _ _).2.1, (set_feature_sink _ _ _ _).2.1,
      (set_feature_sink _ _ _ _).2.1]

theorem complete_frame_step (t : sd) (data : List u8) :
    (sd_complete_frame t data).gspca_dev.last_packet_type = .LAST_PACKET ∧
      (sd_complete_frame t data).gspca_dev.frames.map frame.valid =
        t.gspca_dev.frames.map frame.valid ++
          [decide (t.expo_change_state ≠ .EXPO_DROP_FRAME ∧
            t.gspca_dev.last_packet_type ≠ .DISCARD_PACKET)] := by
  cases he : t.expo_change_state <;> simp [sd_complete_frame, he, gspca_frame_add]

theorem complete_frames_marks (ds : List (List u8)) :
    ∀ t : sd, t.gspca_dev.last_packet_type ≠ .DISCARD_PACKET →
      (complete_frames t ds).gspca_dev.frames.map frame.valid =
        t.gspca_dev.frames.map frame.valid ++ gate_marks t.expo_change_state ds.length := by
  induction ds with
  | nil => intro t _; cases t.expo_change_state <;> simp [complete_frames, gate_marks]
  | cons d ds ih =>
    intro t hl
    obtain ⟨h1, h2⟩ := complete_frame_step t d
    have := ih (sd_complete_frame t d) (by rw [h1]; decide)
    simp only [complete_frames, List.foldl_cons, List.length_cons] at this ⊢
    rw [this, h2]
    cases he : t.expo_change_state <;>
      simp [sd_complete_frame, he, gate_marks, hl]

theorem gate_marks_no_change (n : Nat) :
    gate_marks .EXPO_NO_CHANGE n = List.replicate n true := by
  induction n with
  | zero => rfl
  | succ n ih => simp [gate_marks, ih, List.replicate_succ]

theorem gate_marks_changed (n i : Nat) (h : i < n) :
    (gate_marks .EXPO_CHANGED n)[i]? = some (decide (i ≠ 1)) := by
  match n, i, h with
  | 1, 0, _ => simp [gate_marks]
  | n + 2, 0, _ => simp [gate_marks]
  | n + 2, 1, _ => simp [gate_marks]
  | n + 2, i + 2, h =>
    simp only [gate_marks, gate_marks_no_change, List.getElem?_cons_succ]
    rw [List.getElem?_replicate]
    simp
    omega

theorem gate_marks_length (e : expo_state) (n : Nat) : (gate_marks e n).length = n := by
  induction n generalizing e with
  | zero => cases e <;> rfl
  | succ n ih => cases e <;> simp [gate_marks, ih]

/-- C9. Exposure gate sequence. `setexposure` sets the gate to Changed. A frame completed
in state Changed moves the gate to DropFrame and the LAST_PACKET is added to an untouched
sink (not marked); a frame completed in state DropFrame moves the gate to NoChange and
`last_packet_type` is set to DISCARD_PACKET before the LAST_PACKET is added (marked); a
frame completed in state NoChange leaves the gate at NoChange and is not marked. Hence
after one exposure write followed only by frame completions (the sink not already
discarding), frame number `i` (from 0) is completed as valid exactly when `i` is not 1:
the second completed frame, and only that one, is discarded. -/
theorem exposure_gate_sequence (dev : usb_device) (s : sd)
    (hl : s.gspca_dev.last_packet_type ≠ .DISCARD_PACKET) :
    (setexposure dev s).expo_change_state = .EXPO_CHANGED ∧
    (∀ (t : sd) (data : List u8), t.expo_change_state = .EXPO_CHANGED →
      (sd_complete_frame t data).expo_change_state = .EXPO_DROP_FRAME ∧
        (sd_complete_frame t data).gspca_dev =
          gspca_frame_add t.gspca_dev .LAST_PACKET data) ∧
    (∀ (t : sd) (data : List u8), t.expo_change_state = .EXPO_DROP_FRAME →
      (sd_complete_frame t data).expo_change_state = .EXPO_NO_CHANGE ∧
        (sd_complete_frame t data).gspca_dev =
          gspca_frame_add { t.gspca_dev with last_packet_type := .DISCARD_PACKET }
            .LAST_PACKET data) ∧
    (∀ (t : sd) (data : List u8), t.expo_change_state = .EXPO_NO_CHANGE →
      (sd_complete_frame t data).expo_change_state = .EXPO_NO_CHANGE ∧
        (sd_complete_frame t data).gspca_dev =
          gspca_frame_add t.gspca_dev .LAST_PACKET data) ∧
    (∀ ds : List (List u8),
      (complete_frames (setexposure dev s) ds).gspca_dev.frames.length =
          s.gspca_dev.frames.length + ds.length ∧
        ∀ i, i < ds.length →
          ((complete_frames (setexposure dev s) ds).gspca_dev.frames[
              s.gspca_dev.frames.length + i]?).map frame.valid =
            some (decide (i ≠ 1))) := by
  obtain ⟨e1, e2, e3⟩ := setexposure_sink dev s
  refine ⟨e1, ?_, ?_, ?_, ?_⟩
  · intro t data h
    simp [sd_complete_frame, h]
  · intro t data h
    simp [sd_complete_frame, h]
  · intro t data h
    simp [sd_complete_frame, h]
  · intro ds
    have hm := complete_frames_marks ds (setexposure dev s) (by rw [e3]; exact hl)
    rw [e1, e2] at hm
    constructor
    · have := congrArg List.length hm
      simpa [gate_marks_length] using this
    · intro i hi
      rw [← List.getElem?_map, hm, List.getElem?_append_right (by simp)]
      simp only [List.length_map, Nat.add_sub_cancel_left]
      exact gate_marks_changed ds.length i hi

/-- C9, witness: one exposure write, then three frames completed; the second one is the
discarded one. -/
theorem exposure_gate_sequence_witness :
    ((complete_frames (setexposure quiet_device sample_streaming_sd)
        [[3, 4], [5, 6], [7, 8]]).gspca_dev.frames[
          sample_streaming_sd.gspca_dev.frames.length + 1]?).map frame.valid =
      some (decide (1 ≠ 1)) :=
  ((exposure_gate_sequence quiet_device sample_streaming_sd (by decide)).2.2.2.2
    [[3, 4], [5, 6], [7, 8]]).2 1 (by decide)

/-! ### The reset level control loop -/

theorem div_two_pow_succ (x m : Nat) : x / 2 / 2 ^ m = x / 2 ^ (m + 1) := by
  rw [Nat.div_div_eq_div_mul, pow_succ, Nat.mul_comm]

theorem dq_raise_loop_eq : ∀ (fuel alrc lvl m : Nat), lvl ≤ 63 → 63 - lvl ≤ fuel →
    alrc / 2 ^ m < 10 → (∀ j, j < m → ¬ alrc / 2 ^ j < 10) →
    dq_raise_loop fuel alrc lvl = min 63 (lvl + m) := by
  intro fuel
  induction fuel with
  | zero =>
    intro alrc lvl m h1 h2 _ _
    simp only [dq_raise_loop]
    omega
  | succ fuel ih =>
    intro alrc lvl m h1 h2 h3 h4
    simp only [dq_raise_loop]
    by_cases hc : alrc ≥ 10 ∧ lvl < 63
    · rw [if_pos hc]
      cases m with
      | zero => simp at h3; omega
      | succ m =>
        rw [ih (alrc / 2) (lvl + 1) m (by omega) (by omega)
          (by rw [div_two_pow_succ]; exact h3)
          (fun j hj => by rw [div_two_pow_succ]; exact h4 (j + 1) (by omega))]
        omega
    · rw [if_neg hc]
      by_cases ha : alrc ≥ 10
      · omega
      · cases m with
        | zero => omega
        | succ m =>
          have := h4 0 (by omega)
          simp at this
          omega

theorem dq_lower_loop_eq : ∀ (fuel ahrc lvl m : Nat), lvl ≤ fuel →
    ahrc / 2 ^ m < 20 → (∀ j, j < m → ¬ ahrc / 2 ^ j < 20) →
    dq_lower_loop fuel ahrc lvl = lvl - m := by
  intro fuel
  induction fuel with
  | zero =>
    intro ahrc lvl m h1 _ _
    simp only [dq_lower_loop]
    omega
  | succ fuel ih =>
    intro ahrc lvl m h1 h3 h4
    simp only [dq_lower_loop]
    by_cases hc : ahrc ≥ 20 ∧ lvl > 0
    · rw [if_pos hc]
      cases m with
      | zero => simp at h3; omega
      | succ m =>
        rw [ih (ahrc / 2) (lvl - 1) m (by omega)
          (by rw [div_two_pow_succ]; exact h3)
          (fun j hj => by rw [div_two_pow_succ]; exact h4 (j + 1) (by omega))]
        omega
    · rw [if_neg hc]
      by_cases ha : ahrc ≥ 20
      · omega
      · cases m with
        | zero => omega
        | succ m =>
          have := h4 0 (by omega)
          simp at this
          omega

/-- One more iteration than the distance to the cap never changes the result of the
raising loop: the bound of the model is not what ends it. -/
theorem dq_raise_loop_fuel : ∀ (fuel alrc lvl : Nat), 63 - lvl ≤ fuel →
    dq_raise_loop (fuel + 1) alrc lvl = dq_raise_loop fuel alrc lvl := by
  intro fuel
  induction fuel with
  | zero =>
    intro alrc lvl h
    have : ¬ (alrc ≥ 10 ∧ lvl < 63) := by omega
    simp [dq_raise_loop, this]
  | succ fuel ih =>
    intro alrc lvl h
    conv_lhs => rw [dq_raise_loop]
    conv_rhs => rw [dq_raise_loop]
    by_cases hc : alrc ≥ 10 ∧ lvl < 63
    · rw [if_pos hc, if_pos hc]
      exact ih (alrc / 2) (lvl + 1) (by omega)
    · rw [if_neg hc, if_neg hc]

/-- One more iteration than the level never changes the result of the lowering loop. -/
theorem dq_lower_loop_fuel : ∀ (fuel ahrc lvl : Nat), lvl ≤ fuel →
    dq_lower_loop (fuel + 1) ahrc lvl = dq_lower_loop fuel ahrc lvl := by
  intro fuel
  induction fuel with
  | zero =>
    intro ahrc lvl h
    have : ¬ (ahrc ≥ 20 ∧ lvl > 0) := by omega
    simp [dq_lower_loop, this]
  | succ fuel ih =>
    intro ahrc lvl h
    conv_lhs => rw [dq_lower_loop]
    conv_rhs => rw [dq_lower_loop]
    by_cases hc : ahrc ≥ 20 ∧ lvl > 0
    · rw [if_pos hc, if_pos hc]
      exact ih (ahrc / 2) (lvl - 1) (by omega)
    · rw [if_neg hc, if_neg hc]

theorem exists_least_shift (bound x : Nat) (hb : 0 < bound) (hx : bound ≤ x) :
    ∃ m, is_least_shift bound x m ∧ ∀ j, j < m → ¬ x / 2 ^ j < bound := by
  have hex : ∃ m, x / 2 ^ m < bound :=
    ⟨x, by rw [Nat.div_eq_of_lt (Nat.lt_two_pow x)]; exact hb⟩
  classical
  refine ⟨Nat.find hex, ⟨?_, Nat.find_spec hex, fun j _ hj => Nat.find_min hex hj⟩,
    fun j hj => Nat.find_min hex hj⟩
  by_contra h0
  have hz : Nat.find hex = 0 := by omega
  have := Nat.find_spec hex
  rw [hz] at this
  simp at this
  omega

theorem dq_callback_level (k : kernel_consts) (dev : usb_device) (s : sd)
    (hr : s.restart_stream = 0) (hc : 20 ≤ to_u8 (s.resetlevel_frame_count + 1))
    (hd : s.resetlevel_adjust_dir = 0) :
    (sd_dq_callback k dev s).resetlevel =
      dq_adjust (dq_read_counters k dev s.gspca_dev).1
        (dq_read_counters k dev s.gspca_dev).2.1 s.resetlevel := by
  have hc2 : ¬ to_u8 (s.resetlevel_frame_count + 1) < 20 := by omega
  simp only [sd_dq_callback, hr, ne_eq, not_true_eq_false, if_false, hc2, hd, false_and]
  split_ifs <;> rfl

/-- C10. Calibration adjustment rule without damping. In a call of `sd_dq_callback` that
runs a calibration cycle (no restart pending and the frame count reaching 20), started at
a level `L` in [0,63] with no previous direction recorded, let `low_ref` and `high_ref`
be the counters the cycle combines from its second readings. If `low_ref > 10` the new
level is `min(63, L + k)` with `k` the least `k >= 1` such that `low_ref / 2^k < 10`;
else if `high_ref > 20` it is `max(0, L - k)` with `k` the least `k >= 1` such that
`high_ref / 2^k < 20`; else it is `L`. -/
theorem calibration_rule (k : kernel_consts) (dev : usb_device) (s : sd)
    (hr : s.restart_stream = 0) (hc : 20 ≤ to_u8 (s.resetlevel_frame_count + 1))
    (hd : s.resetlevel_adjust_dir = 0) (hL : s.resetlevel ≤ 63) :
    (10 < (dq_read_counters k dev s.gspca_dev).2.1 →
      ∃ n, is_least_shift 10 (dq_read_counters k dev s.gspca_dev).2.1 n ∧
        ((sd_dq_callback k dev s).resetlevel : Int) = min 63 ((s.resetlevel : Int) + n)) ∧
    ((dq_read_counters k dev s.gspca_dev).2.1 ≤ 10 →
      20 < (dq_read_counters k dev s.gspca_dev).1 →
      ∃ n, is_least_shift 20 (dq_read_counters k dev s.gspca_dev).1 n ∧
        ((sd_dq_callback k dev s).resetlevel : Int) = max 0 ((s.resetlevel : Int) - n)) ∧
    ((dq_read_counters k dev s.gspca_dev).2.1 ≤ 10 →
      (dq_read_counters k dev s.gspca_dev).1 ≤ 20 →
      (sd_dq_callback k dev s).resetlevel = s.resetlevel) := by
  rw [dq_callback_level k dev s hr hc hd]
  refine ⟨?_, ?_, ?_⟩
  · intro hlow
    obtain ⟨m, hm, hmin⟩ := exists_least_shift 10 _ (by decide) (le_of_lt hlow)
    refine ⟨m, hm, ?_⟩
    rw [dq_adjust, if_pos hlow,
      dq_raise_loop_eq 256 _ s.resetlevel m hL (by omega) hm.2.1 hmin]
    omega
  · intro hlow hhigh
    obtain ⟨m, hm, hmin⟩ := exists_least_shift 20 _ (by decide) (le_of_lt hhigh)
    refine ⟨m, hm, ?_⟩
    rw [dq_adjust, if_neg (by omega), if_pos hhigh,
      dq_lower_loop_eq 256 _ s.resetlevel m (by omega) hm.2.1 hmin]
    omega
  · intro hlow hhigh
    rw [dq_adjust, if_neg (by omega), if_neg (by omega)]

/-- C10, witness: `low_ref = 40`, `high_ref = 0`, level 30 gives level 33. -/
theorem calibration_rule_witness :
    (dq_read_counters sample_consts counter_device sample_calibration_sd.gspca_dev).2.1 = 40 ∧
    (dq_read_counters sample_consts counter_device sample_calibration_sd.gspca_dev).1 = 0 ∧
    (∃ n, is_least_shift 10
        (dq_read_counters sample_consts counter_device sample_calibration_sd.gspca_dev).2.1 n ∧
      ((sd_dq_callback sample_consts counter_device sample_calibration_sd).resetlevel : Int) =
        min 63 ((sample_calibration_sd.resetlevel : Int) + n)) ∧
    (sd_dq_callback sample_consts counter_device sample_calibration_sd).resetlevel = 33 :=
  ⟨by decide, by decide,
   (calibration_rule sample_consts counter_device sample_calibration_sd (by decide)
      (by decide) (by decide) (by decide)).1 (by decide),
   by decide⟩

/-! ### The iteration bound of the model is never used up -/

theorem janggu_copy_some (s : sd) (rest : List u8) (count : Int) (s1 : sd) (rest1 : List u8)
    (h : janggu_copy s rest count = some (s1, rest1)) :
    0 ≤ count ∧ (rest1.length : Int) = rest.length - count ∧
      s1.packet_read = s.packet_read + count := by
  unfold janggu_copy at h
  split_ifs at h with hc
  simp only [Option.some.injEq, Prod.mk.injEq] at h
  obtain ⟨h1, h2⟩ := h
  subst h1 h2
  push_neg at hc
  refine ⟨hc.1, ?_, rfl⟩
  simp only [List.length_drop]
  omega

theorem janggu_dispatch_next (imagesize : Int) (pixels info plen : Nat) (s : sd)
    (rest : List u8) (s1 : sd) (rest1 : List u8)
    (h : janggu_dispatch imagesize pixels info plen s rest = .next s1 rest1) :
    s1.packet_read = 0 ∧ rest1 = rest := by
  simp only [janggu_dispatch] at h
  split_ifs at h
  all_goals first | contradiction | (cases h; exact ⟨rfl, rfl⟩)

theorem janggu_packet_next (imagesize : Int) (s : sd) (rest : List u8) (s1 : sd)
    (rest1 : List u8) (h : janggu_packet imagesize s rest = .next s1 rest1) :
    s1.packet_read = 0 ∧ rest1.length ≤ rest.length := by
  simp only [janggu_packet] at h
  split_ifs at h
  cases hcp : janggu_copy s rest (min ((janggu_plen s.packet : Int) - s.packet_read)
      rest.length) with
  | none => simp [hcp] at h
  | some p =>
    obtain ⟨s2, rest2⟩ := p
    simp only [hcp] at h
    split_ifs at h
    obtain ⟨h1, h2⟩ := janggu_dispatch_next _ _ _ _ _ _ _ _ h
    obtain ⟨c1, c2, _⟩ := janggu_copy_some _ _ _ _ _ hcp
    refine ⟨h1, ?_⟩
    rw [h2]
    omega

theorem janggu_body_next (imagesize : Int) (s : sd) (rest : List u8) (s1 : sd)
    (rest1 : List u8) (hne : rest.length ≠ 0)
    (h : janggu_body imagesize s rest = .next s1 rest1) :
    s1.packet_read = 0 ∧ rest1.length ≤ rest.length ∧
      (s.packet_read < 4 → rest1.length < rest.length) := by
  unfold janggu_body at h
  by_cases h4 : s.packet_read < 4
  · simp only [janggu_header, h4, if_true] at h
    cases hcp : janggu_copy s rest (min (4 - s.packet_read) rest.length) with
    | none => simp [hcp] at h
    | some p =>
      obtain ⟨s2, rest2⟩ := p
      simp only [hcp] at h
      split_ifs at h
      obtain ⟨h1, h2⟩ := janggu_packet_next _ _ _ _ _ h
      obtain ⟨c1, c2, _⟩ := janggu_copy_some _ _ _ _ _ hcp
      have hpos : 0 < min (4 - s.packet_read) (rest.length : Int) := by
        have := Nat.pos_of_ne_zero hne
        omega
      refine ⟨h1, by omega, fun _ => by omega⟩
  · simp only [janggu_header, h4, if_false] at h
    obtain ⟨h1, h2⟩ := janggu_packet_next _ _ _ _ _ h
    exact ⟨h1, h2, fun hc => absurd hc h4⟩

theorem janggu_loop_fuel (imagesize : Int) :
    ∀ (fuel : Nat) (s : sd) (rest : List u8),
      rest.length + (if 4 ≤ s.packet_read then 2 else 1) ≤ fuel →
      janggu_loop imagesize fuel s rest ≠ .out_of_fuel := by
  intro fuel
  induction fuel with
  | zero =>
    intro s rest h
    split_ifs at h <;> omega
  | succ fuel ih =>
    intro s rest h
    unfold janggu_loop
    by_cases h0 : rest.length = 0
    · simp [h0]
    · simp only [h0, if_false]
      cases hb : janggu_body imagesize s rest with
      | next s1 rest1 =>
        obtain ⟨h1, h2, h3⟩ := janggu_body_next imagesize s rest s1 rest1 h0 hb
        simp only
        apply ih
        have : ¬ (4 : Int) ≤ s1.packet_read := by omega
        rw [if_neg this]
        split_ifs at h with h4
        · omega
        · have := h3 (by omega)
          omega
      | done s1 => simp
      | error s1 => simp
      | undefined => simp

/-- The model of `sd_pkt_scan_janggu` never runs out of iterations: the loop of the
source terminates on every state and every range. -/
theorem sd_pkt_scan_janggu_terminates (s : sd) (data : List u8) :
    sd_pkt_scan_janggu s data ≠ .out_of_fuel := by
  unfold sd_pkt_scan_janggu
  split_ifs
  · simp
  · simp
  · apply janggu_loop_fuel
    split_ifs <;> omega

/-- The model of `sd_pkt_scan` never runs out of iterations. -/
theorem sd_pkt_scan_terminates (s : sd) (data : List u8) :
    sd_pkt_scan s data ≠ .out_of_fuel := by
  unfold sd_pkt_scan
  by_cases h0 : data.length = 0
  · simp [h0]
  · by_cases h1 : s.gspca_dev.priv = 1
    · simp [h0, h1]
    · simp only [h0, h1, if_false]
      exact sd_pkt_scan_janggu_terminates s data

/-! ### Damping, range and period of the reset level control loop -/

theorem dq_callback_split (k : kernel_consts) (dev : usb_device) (s : sd) :
    sd_dq_callback k dev s =
      dq_tick k dev
        (if s.restart_stream ≠ 0 then
          { (sd_start dev { s with gspca_dev := sd_stopN dev s.gspca_dev }).2 with
              restart_stream := 0 }
         else s) := by
  by_cases hr : s.restart_stream ≠ 0
  · rw [if_pos hr]
    unfold sd_dq_callback
    rw [if_pos hr]
    rfl
  · rw [if_neg hr]
    unfold sd_dq_callback
    rw [if_neg hr]
    rfl

theorem dq_callback_idle (k : kernel_consts) (dev : usb_device) (s : sd)
    (hr : s.restart_stream = 0) (hc : to_u8 (s.resetlevel_frame_count + 1) < 20) :
    sd_dq_callback k dev s =
      { s with resetlevel_frame_count := to_u8 (s.resetlevel_frame_count + 1) } := by
  have hr0 : ¬ s.restart_stream ≠ 0 := by simp [hr]
  rw [dq_callback_split, if_neg hr0]
  simp only [dq_tick, hc, if_true]

theorem dq_callback_cycle (k : kernel_consts) (dev : usb_device) (s : sd)
    (hr : s.restart_stream = 0) (hc : 20 ≤ to_u8 (s.resetlevel_frame_count + 1)) :
    sd_dq_callback k dev s =
      dq_cycle k dev
        { s with resetlevel_frame_count := to_u8 (s.resetlevel_frame_count + 1) } := by
  have hr0 : ¬ s.restart_stream ≠ 0 := by simp [hr]
  have hc2 : ¬ to_u8 (s.resetlevel_frame_count + 1) < 20 := by omega
  rw [dq_callback_split, if_neg hr0]
  simp only [dq_tick, hc2, if_false]

theorem sd_start_fields (dev : usb_device) (s : sd) :
    (sd_start dev s).2.resetlevel_frame_count = 0 ∧
      (sd_start dev s).2.restart_stream = 0 ∧
      (sd_start dev s).2.resetlevel_adjust_dir = 0 ∧
      (sd_start dev s).2.packet_read = 0 ∧
      (sd_start dev s).2.pixels_read = 0 ∧
      (sd_start dev s).2.expo_change_state = .EXPO_NO_CHANGE :=
  ⟨rfl, rfl, rfl, rfl, rfl, rfl⟩

theorem setbrightness_fields (dev : usb_device) (s : sd) :
    (setbrightness dev s).resetlevel = s.resetlevel ∧
      (setbrightness dev s).packet = s.packet := by
  unfold setbrightness
  split_ifs <;> exact ⟨rfl, rfl⟩

theorem sd_start_keeps (dev : usb_device) (s : sd) :
    (sd_start dev s).2.resetlevel = s.resetlevel ∧ (sd_start dev s).2.packet = s.packet := by
  have h := setbrightness_fields dev
  simp only [sd_start, setgain, setexposure, h, and_self]

theorem dq_cycle_level (k : kernel_consts) (dev : usb_device) (s : sd) :
    (dq_cycle k dev s).resetlevel =
      if s.resetlevel_adjust_dir ≠ 0 ∧ s.resetlevel_adjust_dir ≠ cycle_direction k dev s then
        to_u8 ((s.resetlevel : Int) +
          Int.tdiv ((cycle_new_level k dev s : Int) - s.resetlevel) 2)
      else cycle_new_level k dev s := by
  simp only [dq_cycle, cycle_direction, cycle_new_level]
  split_ifs <;> rfl

theorem dq_cycle_effect (k : kernel_consts) (dev : usb_device) (s : sd) :
    (dq_cycle k dev s).resetlevel_adjust_dir =
        (if ((dq_cycle k dev s).resetlevel : Int) ≠ s.resetlevel then cycle_direction k dev s
         else s.resetlevel_adjust_dir) ∧
      (dq_cycle k dev s).gspca_dev =
        (if ((dq_cycle k dev s).resetlevel : Int) ≠ s.resetlevel then
          se401_set_feature dev (dq_read_counters k dev s.gspca_dev).2.2 .HV7131_REG_ARLV
            (dq_cycle k dev s).resetlevel
         else (dq_read_counters k dev s.gspca_dev).2.2) ∧
      (dq_cycle k dev s).resetlevel_frame_count = 0 ∧
      (dq_cycle k dev s).restart_stream = s.restart_stream := by
  simp only [dq_cycle, cycle_direction, cycle_new_level]
  split_ifs <;> simp_all

theorem dq_raise_loop_bounds : ∀ (fuel alrc lvl : Nat),
    lvl ≤ dq_raise_loop fuel alrc lvl ∧ dq_raise_loop fuel alrc lvl ≤ max lvl 63 := by
  intro fuel
  induction fuel with
  | zero => intro alrc lvl; simp [dq_raise_loop]
  | succ fuel ih =>
    intro alrc lvl
    rw [dq_raise_loop]
    split_ifs with hc
    · have := ih (alrc / 2) (lvl + 1)
      omega
    · omega

theorem dq_lower_loop_le : ∀ (fuel ahrc lvl : Nat), dq_lower_loop fuel ahrc lvl ≤ lvl := by
  intro fuel
  induction fuel with
  | zero => intro ahrc lvl; simp [dq_lower_loop]
  | succ fuel ih =>
    intro ahrc lvl
    rw [dq_lower_loop]
    split_ifs with hc
    · have := ih (ahrc / 2) (lvl - 1)
      omega
    · omega

theorem dq_adjust_le (ahrc alrc lvl : Nat) : dq_adjust ahrc alrc lvl ≤ max lvl 63 := by
  unfold dq_adjust
  split_ifs
  · exact (dq_raise_loop_bounds 256 alrc lvl).2
  · have := dq_lower_loop_le 256 ahrc lvl
    omega
  · omega

theorem tdiv_two_cases (x : Int) :
    (0 ≤ x ∧ x.tdiv 2 = x / 2) ∨ (x < 0 ∧ x.tdiv 2 = -((-x) / 2)) := by
  by_cases h : 0 ≤ x
  · exact Or.inl ⟨h, Int.tdiv_eq_ediv h (by decide)⟩
  · refine Or.inr ⟨by omega, ?_⟩
    have h1 : x = -(-x) := by omega
    conv_lhs => rw [h1, Int.neg_tdiv, Int.tdiv_eq_ediv (show (0 : Int) ≤ -x by omega) (by decide)]

theorem damped_between (o n : Nat) :
    min (o : Int) n ≤ (o : Int) + Int.tdiv ((n : Int) - o) 2 ∧
      (o : Int) + Int.tdiv ((n : Int) - o) 2 ≤ max (o : Int) n ∧
      2 * |Int.tdiv ((n : Int) - o) 2| ≤ |(n : Int) - o| := by
  rcases tdiv_two_cases ((n : Int) - o) with ⟨h, e⟩ | ⟨h, e⟩
  · rw [e, abs_of_nonneg (by omega), abs_of_nonneg h]
    omega
  · rw [e, abs_of_nonpos (by omega), abs_of_neg h]
    omega

theorem to_u8_damped (o n : Nat) (ho : o < 256) (hn : n < 256) :
    (to_u8 ((o : Int) + Int.tdiv ((n : Int) - o) 2) : Int) =
      (o : Int) + Int.tdiv ((n : Int) - o) 2 := by
  obtain ⟨h1, h2, _⟩ := damped_between o n
  unfold to_u8
  omega

/-- C11. Anti-oscillation damping. In a call of `sd_dq_callback` that runs a calibration
cycle from a level `old` (an 8-bit value), let `new` be the level the undamped rule gives
and let the direction be Up (1) if `new > old`, Down (-1) otherwise. If a previous
direction is recorded (`resetlevel_adjust_dir != 0`) and differs from this direction, the
final level is `old + (new - old)/2`, the division truncating toward zero, which lies
between `old` and `new` with at most half the move; if no direction is recorded or it
equals this direction, the final level is `new`. -/
theorem damping_rule (k : kernel_consts) (dev : usb_device) (s : sd)
    (hr : s.restart_stream = 0) (hc : 20 ≤ to_u8 (s.resetlevel_frame_count + 1))
    (hL : s.resetlevel < 256) :
    (s.resetlevel_adjust_dir ≠ 0 → s.resetlevel_adjust_dir ≠ cycle_direction k dev s →
      ((sd_dq_callback k dev s).resetlevel : Int) =
          (s.resetlevel : Int) + Int.tdiv ((cycle_new_level k dev s : Int) - s.resetlevel) 2 ∧
        min (s.resetlevel : Int) (cycle_new_level k dev s) ≤
          ((sd_dq_callback k dev s).resetlevel : Int) ∧
        ((sd_dq_callback k dev s).resetlevel : Int) ≤
          max (s.resetlevel : Int) (cycle_new_level k dev s) ∧
        2 * |((sd_dq_callback k dev s).resetlevel : Int) - s.resetlevel| ≤
          |(cycle_new_level k dev s : Int) - s.resetlevel|) ∧
    ((s.resetlevel_adjust_dir = 0 ∨ s.resetlevel_adjust_dir = cycle_direction k dev s) →
      (sd_dq_callback k dev s).resetlevel = cycle_new_level k dev s) := by
  have hnew : cycle_new_level k dev s < 256 := by
    have := dq_adjust_le (dq_read_counters k dev s.gspca_dev).1
      (dq_read_counters k dev s.gspca_dev).2.1 s.resetlevel
    unfold cycle_new_level
    omega
  have hfin : (sd_dq_callback k dev s).resetlevel =
      if s.resetlevel_adjust_dir ≠ 0 ∧ s.resetlevel_adjust_dir ≠ cycle_direction k dev s then
        to_u8 ((s.resetlevel : Int) +
          Int.tdiv ((cycle_new_level k dev s : Int) - s.resetlevel) 2)
      else cycle_new_level k dev s := by
    rw [dq_callback_cycle k dev s hr hc]
    exact dq_cycle_level k dev _
  constructor
  · intro h1 h2
    rw [hfin, if_pos ⟨h1, h2⟩]
    obtain ⟨b1, b2, b3⟩ := damped_between s.resetlevel (cycle_new_level k dev s)
    rw [to_u8_damped s.resetlevel (cycle_new_level k dev s) hL hnew, add_sub_cancel_left]
    exact ⟨rfl, b1, b2, b3⟩
  · intro h
    have hif : ¬ (s.resetlevel_adjust_dir ≠ 0 ∧
        s.resetlevel_adjust_dir ≠ cycle_direction k dev s) := by
      rcases h with h | h
      · exact fun hh => hh.1 h
      · exact fun hh => hh.2 h
    rw [hfin, if_neg hif]

/-- C11, witness: level 30, `low_ref = 40` (the undamped rule gives 33), previous
direction Down: the damped level is 31. -/
theorem damping_rule_witness :
    cycle_new_level sample_consts counter_device sample_damped_sd = 33 ∧
    ((sd_dq_callback sample_consts counter_device sample_damped_sd).resetlevel : Int) =
      (sample_damped_sd.resetlevel : Int) +
        Int.tdiv ((cycle_new_level sample_consts counter_device sample_damped_sd : Int) -
          sample_damped_sd.resetlevel) 2 ∧
    (sd_dq_callback sample_consts counter_device sample_damped_sd).resetlevel = 31 :=
  ⟨by decide,
   ((damping_rule sample_consts counter_device sample_damped_sd (by decide) (by decide)
      (by decide)).1 (by decide) (by decide)).1,
   by decide⟩

theorem dq_tick_level_le (k : kernel_consts) (dev : usb_device) (t : sd)
    (hL : t.resetlevel ≤ 63) : (dq_tick k dev t).resetlevel ≤ 63 := by
  unfold dq_tick
  simp only
  split_ifs
  · exact hL
  · rw [dq_cycle_level]
    have hnew : cycle_new_level k dev t ≤ 63 := by
      have := dq_adjust_le (dq_read_counters k dev t.gspca_dev).1
        (dq_read_counters k dev t.gspca_dev).2.1 t.resetlevel
      unfold cycle_new_level
      omega
    change (if t.resetlevel_adjust_dir ≠ 0 ∧ t.resetlevel_adjust_dir ≠ cycle_direction k dev t
      then to_u8 ((t.resetlevel : Int) +
        Int.tdiv ((cycle_new_level k dev t : Int) - t.resetlevel) 2)
      else cycle_new_level k dev t) ≤ 63
    split_ifs
    · have e := to_u8_damped t.resetlevel (cycle_new_level k dev t) (by omega) (by omega)
      obtain ⟨_, b2, _⟩ := damped_between t.resetlevel (cycle_new_level k dev t)
      omega
    · exact hnew

/-- C12. Reset-level range invariant. If `resetlevel` is in [0,63] before
`sd_dq_callback`, it is in [0,63] after it, for every device (so every value of the
counters), every recorded direction, every frame count and whether or not a restart is
pending; hence it stays in [0,63] over any number of callbacks. The level `sd_config`
sets, 0x2d, is in the range. In every cycle from such a level the undamped level and the
damped value `old + (new - old)/2` are in [0,63] before they are stored, so the 8-bit
field never wraps. -/
theorem reset_level_range (k : kernel_consts) (dev : usb_device) (s : sd)
    (hL : s.resetlevel ≤ 63) :
    (sd_dq_callback k dev s).resetlevel ≤ 63 ∧
    (∀ n, (dq_callbacks k dev n s).resetlevel ≤ 63) ∧
    (∀ t : sd, (sd_config_resetlevel t).resetlevel ≤ 63) ∧
    cycle_new_level k dev s ≤ 63 ∧
    0 ≤ (s.resetlevel : Int) + Int.tdiv ((cycle_new_level k dev s : Int) - s.resetlevel) 2 ∧
    (s.resetlevel : Int) + Int.tdiv ((cycle_new_level k dev s : Int) - s.resetlevel) 2 ≤ 63 := by
  have hstep : ∀ t : sd, t.resetlevel ≤ 63 → (sd_dq_callback k dev t).resetlevel ≤ 63 := by
    intro t ht
    rw [dq_callback_split]
    apply dq_tick_level_le
    split_ifs
    · exact le_of_eq_of_le (sd_start_keeps dev _).1 ht
    · exact ht
  have hnew : cycle_new_level k dev s ≤ 63 := by
    have := dq_adjust_le (dq_read_counters k dev s.gspca_dev).1
      (dq_read_counters k dev s.gspca_dev).2.1 s.resetlevel
    unfold cycle_new_level
    omega
  obtain ⟨b1, b2, _⟩ := damped_between s.resetlevel (cycle_new_level k dev s)
  refine ⟨hstep s hL, ?_, fun t => (by decide : (45 : Nat) ≤ 63), hnew, by omega, by omega⟩
  intro n
  induction n with
  | zero => exact hL
  | succ n ih => exact hstep _ ih

/-- C12, witness: one callback that runs a cycle from level 30. -/
theorem reset_level_range_witness :
    (sd_dq_callback sample_consts counter_device sample_calibration_sd).resetlevel ≤ 63 :=
  (reset_level_range sample_consts counter_device sample_calibration_sd (by decide)).1

theorem get_feature_log (k : kernel_consts) (dev : usb_device) (g : gspca_dev)
    (selector : se401_selector) :
    ∀ e ∈ (se401_get_feature k dev g selector).2.usb_log, e ∈ g.usb_log ∨ is_feature_read e := by
  have hlog : (se401_get_feature k dev g selector).2.usb_log = g.usb_log ∨
      (se401_get_feature k dev g selector).2.usb_log =
        .control_msg ⟨.USB_DIR_IN, .SE401_REQ_GET_EXT_FEATURE, 0, some selector, 2⟩ ::
          g.usb_log := by
    simp only [se401_get_feature, usb_control_msg]
    split_ifs <;> simp
  intro e he
  rcases hlog with h | h
  · rw [h] at he
    exact Or.inl he
  · rw [h, List.mem_cons] at he
    rcases he with he | he
    · exact Or.inr ⟨selector, he⟩
    · exact Or.inl he

theorem dq_read_counters_log (k : kernel_consts) (dev : usb_device) (g : gspca_dev) :
    ∀ e ∈ (dq_read_counters k dev g).2.2.usb_log, e ∈ g.usb_log ∨ is_feature_read e := by
  have step : ∀ (g1 : gspca_dev) (selector : se401_selector),
      (∀ e ∈ g1.usb_log, e ∈ g.usb_log ∨ is_feature_read e) →
      ∀ e ∈ (se401_get_feature k dev g1 selector).2.usb_log,
        e ∈ g.usb_log ∨ is_feature_read e := by
    intro g1 selector h1 e he
    rcases get_feature_log k dev g1 selector e he with h | h
    · exact h1 e h
    · exact Or.inr h
  unfold dq_read_counters
  simp only
  exact step _ _ (step _ _ (step _ _ (step _ _ (step _ _ (step _ _ (step _ _
    (step _ _ (fun e he => Or.inl he))))))))

theorem set_feature_log (dev : usb_device) (g : gspca_dev) (selector : se401_selector)
    (param : Nat) (h : 0 ≤ g.usb_err) :
    (se401_set_feature dev g selector param).usb_log =
      .control_msg ⟨.USB_DIR_OUT, .SE401_REQ_SET_EXT_FEATURE, param, some selector, 0⟩ ::
        g.usb_log := by
  have h0 : ¬ g.usb_err < 0 := by omega
  simp only [se401_set_feature, usb_control_msg, h0, if_false]
  split_ifs <;> rfl

/-- C13. Write only on change. In a call of `sd_dq_callback` that runs a calibration
cycle, let `g` be the device state after the eight counter reads. If the final level
(after damping) differs from the level at the start, `resetlevel_adjust_dir` becomes this
cycle's direction and the device state is that of `se401_set_feature(HV7131_REG_ARLV,
level)` called on `g` (one write transfer, unless an error is latched). If the final
level equals the level at the start, the recorded direction is unchanged and the device
state is `g` itself: nothing is sent but the counter reads. -/
theorem write_on_change (k : kernel_consts) (dev : usb_device) (s : sd)
    (hr : s.restart_stream = 0) (hc : 20 ≤ to_u8 (s.resetlevel_frame_count + 1)) :
    ((sd_dq_callback k dev s).resetlevel ≠ s.resetlevel →
      (sd_dq_callback k dev s).resetlevel_adjust_dir = cycle_direction k dev s ∧
        (sd_dq_callback k dev s).gspca_dev =
          se401_set_feature dev (dq_read_counters k dev s.gspca_dev).2.2 .HV7131_REG_ARLV
            (sd_dq_callback k dev s).resetlevel ∧
        (0 ≤ (dq_read_counters k dev s.gspca_dev).2.2.usb_err →
          (sd_dq_callback k dev s).gspca_dev.usb_log =
            arlv_write (sd_dq_callback k dev s).resetlevel ::
              (dq_read_counters k dev s.gspca_dev).2.2.usb_log)) ∧
    ((sd_dq_callback k dev s).resetlevel = s.resetlevel →
      (sd_dq_callback k dev s).resetlevel_adjust_dir = s.resetlevel_adjust_dir ∧
        (sd_dq_callback k dev s).gspca_dev = (dq_read_counters k dev s.gspca_dev).2.2) ∧
    (∀ e ∈ (dq_read_counters k dev s.gspca_dev).2.2.usb_log,
      e ∈ s.gspca_dev.usb_log ∨ is_feature_read e) := by
  have he := dq_cycle_effect k dev
    { s with resetlevel_frame_count := to_u8 (s.resetlevel_frame_count + 1) }
  rw [← dq_callback_cycle k dev s hr hc] at he
  obtain ⟨e1, e2, _, _⟩ := he
  refine ⟨?_, ?_, dq_read_counters_log k dev s.gspca_dev⟩
  · intro hne
    have hne2 : ((sd_dq_callback k dev s).resetlevel : Int) ≠ (s.resetlevel : Int) := by
      exact_mod_cast hne
    rw [if_pos hne2] at e1 e2
    refine ⟨e1, e2, fun hu => ?_⟩
    rw [e2, set_feature_log dev _ _ _ hu]
    rfl
  · intro heq
    have heq2 : ¬ ((sd_dq_callback k dev s).resetlevel : Int) ≠ (s.resetlevel : Int) := by
      simp [heq]
    rw [if_neg heq2] at e1 e2
    exact ⟨e1, e2⟩

/-- C13, witness: the cycle from level 30 with `low_ref = 40` ends at level 33 and
writes it. -/
theorem write_on_change_witness :
    (sd_dq_callback sample_consts counter_device sample_calibration_sd).resetlevel = 33 ∧
    (sd_dq_callback sample_consts counter_device sample_calibration_sd).resetlevel_adjust_dir =
      cycle_direction sample_consts counter_device sample_calibration_sd ∧
    (sd_dq_callback sample_consts counter_device sample_calibration_sd).gspca_dev =
      se401_set_feature counter_device
        (dq_read_counters sample_consts counter_device sample_calibration_sd.gspca_dev).2.2
        .HV7131_REG_ARLV
        (sd_dq_callback sample_consts counter_device sample_calibration_sd).resetlevel :=
  ⟨by decide,
   ((write_on_change sample_consts counter_device sample_calibration_sd (by decide)
      (by decide)).1 (by decide)).1,
   ((write_on_change sample_consts counter_device sample_calibration_sd (by decide)
      (by decide)).1 (by decide)).2.1⟩

theorem to_u8_succ (c : Nat) (h : c < 255) : to_u8 ((c : Int) + 1) = c + 1 := by
  unfold to_u8
  omega

/-- C14. Calibration period. With no restart pending, `sd_dq_callback` increments
`resetlevel_frame_count`. If the incremented count is below 20, nothing else changes: no
counter is read, no control request is sent, level and direction stay. Otherwise it
performs exactly one calibration cycle and the count is 0 afterwards. The count is below
20 after every such callback. Starting from count 0, after `n` callbacks the count is
`n mod 20`, and callback number `n + 1` runs a cycle exactly when `n + 1` is a multiple
of 20. -/
theorem calibration_period (k : kernel_consts) (dev : usb_device) (s : sd)
    (hr : s.restart_stream = 0) :
    (to_u8 (s.resetlevel_frame_count + 1) < 20 →
      sd_dq_callback k dev s =
        { s with resetlevel_frame_count := to_u8 (s.resetlevel_frame_count + 1) }) ∧
    (20 ≤ to_u8 (s.resetlevel_frame_count + 1) →
      sd_dq_callback k dev s =
          dq_cycle k dev
            { s with resetlevel_frame_count := to_u8 (s.resetlevel_frame_count + 1) } ∧
        (sd_dq_callback k dev s).resetlevel_frame_count = 0) ∧
    (sd_dq_callback k dev s).resetlevel_frame_count < 20 ∧
    (s.resetlevel_frame_count = 0 → ∀ n,
      (dq_callbacks k dev n s).resetlevel_frame_count = n % 20 ∧
        (dq_callbacks k dev n s).restart_stream = 0 ∧
        (20 ≤ to_u8 ((dq_callbacks k dev n s).resetlevel_frame_count + 1) ↔
          (n + 1) % 20 = 0)) := by
  have hstep : ∀ t : sd, t.restart_stream = 0 →
      (to_u8 (t.resetlevel_frame_count + 1) < 20 →
        sd_dq_callback k dev t =
          { t with resetlevel_frame_count := to_u8 (t.resetlevel_frame_count + 1) }) ∧
      (20 ≤ to_u8 (t.resetlevel_frame_count + 1) →
        sd_dq_callback k dev t =
            dq_cycle k dev
              { t with resetlevel_frame_count := to_u8 (t.resetlevel_frame_count + 1) } ∧
          (sd_dq_callback k dev t).resetlevel_frame_count = 0 ∧
          (sd_dq_callback k dev t).restart_stream = 0) := by
    intro t ht
    refine ⟨fun h => dq_callback_idle k dev t ht h, fun h => ?_⟩
    have e := dq_callback_cycle k dev t ht h
    obtain ⟨_, _, e3, e4⟩ := dq_cycle_effect k dev
      { t with resetlevel_frame_count := to_u8 (t.resetlevel_frame_count + 1) }
    rw [← e] at e3 e4
    exact ⟨e, e3, e4.trans ht⟩
  refine ⟨(hstep s hr).1, fun h => ⟨((hstep s hr).2 h).1, ((hstep s hr).2 h).2.1⟩, ?_, ?_⟩
  · by_cases h : to_u8 (s.resetlevel_frame_count + 1) < 20
    · rw [(hstep s hr).1 h]
      exact h
    · rw [((hstep s hr).2 (by omega)).2.1]
      decide
  · intro h0 n
    have hn : (dq_callbacks k dev n s).resetlevel_frame_count = n % 20 ∧
        (dq_callbacks k dev n s).restart_stream = 0 := by
      induction n with
      | zero => exact ⟨h0, hr⟩
      | succ n ih =>
        obtain ⟨ic, ir⟩ := ih
        have hu := to_u8_succ (dq_callbacks k dev n s).resetlevel_frame_count (by omega)
        simp only [dq_callbacks]
        by_cases h : to_u8 ((dq_callbacks k dev n s).resetlevel_frame_count + 1) < 20
        · rw [(hstep _ ir).1 h]
          refine ⟨?_, ir⟩
          simp only
          omega
        · obtain ⟨_, c0, r0⟩ := (hstep _ ir).2 (by omega)
          exact ⟨by omega, r0⟩
    refine ⟨hn.1, hn.2, ?_⟩
    have hu := to_u8_succ (dq_callbacks k dev n s).resetlevel_frame_count (by omega)
    omega

/-- C14, witness: from count 19 the callback runs the cycle and the count is 0 again. -/
theorem calibration_period_witness :
    (sd_dq_callback sample_consts counter_device sample_calibration_sd).resetlevel_frame_count
      = 0 :=
  (((calibration_period sample_consts counter_device sample_calibration_sd (by decide)).2.1)
    (by decide)).2

/-- C15, as stated, fails: entered with the restart flag set, the callback leaves the frame
count at 1, not at the 0 that `sd_start` gave it: the tick of that invocation has run. -/
theorem callback_dispatch_counterexample :
    sample_restart_sd.restart_stream = 1 ∧
    (sd_dq_callback sample_consts quiet_device sample_restart_sd).resetlevel_frame_count = 1 ∧
    (sd_dq_callback sample_consts quiet_device sample_restart_sd).resetlevel_frame_count ≠
      (sd_start quiet_device
        { sample_restart_sd with
            gspca_dev := sd_stopN quiet_device sample_restart_sd.gspca_dev }).2.resetlevel_frame_count := by
  decide

/-- C15, amended. Entered with the restart flag set, `sd_dq_callback` performs `sd_stopN`
then `sd_start`, clears the flag, and then runs the calibration tick of that invocation
as well: the frame count that `sd_start` reset to 0 is incremented to 1, and since 1 is
below 20 no calibration cycle runs (no counter is read, the level is unchanged, no
direction is recorded). Entered with the flag clear it runs one calibration tick. -/
theorem callback_dispatch (k : kernel_consts) (dev : usb_device) (s : sd) :
    (s.restart_stream ≠ 0 →
      sd_dq_callback k dev s =
          { (sd_start dev { s with gspca_dev := sd_stopN dev s.gspca_dev }).2 with
              restart_stream := 0, resetlevel_frame_count := 1 } ∧
        (sd_dq_callback k dev s).restart_stream = 0 ∧
        (sd_dq_callback k dev s).resetlevel_frame_count = 1 ∧
        (sd_dq_callback k dev s).resetlevel = s.resetlevel ∧
        (sd_dq_callback k dev s).resetlevel_adjust_dir = 0) ∧
    (s.restart_stream = 0 → sd_dq_callback k dev s = dq_tick k dev s) := by
  constructor
  · intro hr
    have e : sd_dq_callback k dev s =
        { (sd_start dev { s with gspca_dev := sd_stopN dev s.gspca_dev }).2 with
            restart_stream := 0, resetlevel_frame_count := 1 } := by
      rw [dq_callback_split, if_pos hr]
      have hc := (sd_start_fields dev { s with gspca_dev := sd_stopN dev s.gspca_dev }).1
      generalize sd_start dev { s with gspca_dev := sd_stopN dev s.gspca_dev } = st at hc ⊢
      have h1 : to_u8 (((0 : Nat) : Int) + 1) = 1 := by decide
      have h2 : (1 : Nat) < 20 := by decide
      simp only [dq_tick, hc, h1, h2, if_true]
    have hk := (sd_start_keeps dev { s with gspca_dev := sd_stopN dev s.gspca_dev }).1
    have hd := (sd_start_fields dev { s with gspca_dev := sd_stopN dev s.gspca_dev }).2.2.1
    rw [e]
    exact ⟨rfl, rfl, rfl, hk, hd⟩
  · intro hr
    have hr0 : ¬ s.restart_stream ≠ 0 := by simp [hr]
    rw [dq_callback_split, if_neg hr0]

/-- C15, witness: the sample state with a restart pending. -/
theorem callback_dispatch_witness :
    (sd_dq_callback sample_consts quiet_device sample_restart_sd).restart_stream = 0 ∧
    (sd_dq_callback sample_consts quiet_device sample_restart_sd).resetlevel_frame_count = 1 :=
  ⟨((callback_dispatch sample_consts quiet_device sample_restart_sd).1 (by decide)).2.1,
   ((callback_dispatch sample_consts quiet_device sample_restart_sd).1 (by decide)).2.2.1⟩

/-! ### Exposure -/

theorem exposure_integration_eq (e : Int) (freq : power_line_frequency)
    (h0 : 0 ≤ e) (h1 : e ≤ 32767) :
    exposure_integration e freq =
      match freq with
      | .V4L2_CID_POWER_LINE_FREQUENCY_DISABLED => e * 64
      | .V4L2_CID_POWER_LINE_FREQUENCY_50HZ => e * 64 - e * 64 % 106667
      | .V4L2_CID_POWER_LINE_FREQUENCY_60HZ => e * 64 - e * 64 % 88889 := by
  have hw : to_int (e * 64) = e * 64 := by unfold to_int; omega
  have t1 : (e * 64).tmod 106667 = e * 64 % 106667 :=
    Int.tmod_eq_emod (by omega) (by decide)
  have t2 : (e * 64).tmod 88889 = e * 64 % 88889 :=
    Int.tmod_eq_emod (by omega) (by decide)
  cases freq
  · simp [exposure_integration, hw]
  · simp only [exposure_integration, hw, t1, if_true, reduceCtorEq, if_false]
    unfold to_int
    omega
  · simp only [exposure_integration, hw, t2, if_true, reduceCtorEq, if_false]
    unfold to_int
    omega

theorem exposure_bytes (v : Int) (h0 : 0 ≤ v) (h1 : v < 16777216) :
    (to_u8 v : Int) + 256 * to_u8 (v >>> 8) + 65536 * to_u8 (v >>> 16) = v := by
  obtain ⟨n, rfl⟩ := Int.eq_ofNat_of_zero_le h0
  have e8 : (n : Int) >>> (8 : Int) = ((n / 256 : Nat) : Int) := by
    have := Int.shiftRight_coe_nat n 8
    rw [Nat.shiftRight_eq_div_pow] at this
    exact_mod_cast this
  have e16 : (n : Int) >>> (16 : Int) = ((n / 65536 : Nat) : Int) := by
    have := Int.shiftRight_coe_nat n 16
    rw [Nat.shiftRight_eq_div_pow] at this
    exact_mod_cast this
  rw [e8, e16]
  unfold to_u8
  push_cast
  omega

/-- C16, as stated, fails: for the exposure 32767 with the 50 Hz filter, `e << 6` is
2097088; the driver programs 2026673 = 19 * 106667 (bytes 177, 236, 30), but the nearest
multiple of 106667 is 20 * 106667 = 2133340. -/
theorem exposure_snapping_counterexample :
    exposure_integration 32767 .V4L2_CID_POWER_LINE_FREQUENCY_50HZ = 2026673 ∧
    (setexposure quiet_device sample_exposure_sd).gspca_dev.usb_log =
      [.control_msg ⟨.USB_DIR_OUT, .SE401_REQ_SET_EXT_FEATURE, 30, some .HV7131_REG_TITU, 0⟩,
       .control_msg ⟨.USB_DIR_OUT, .SE401_REQ_SET_EXT_FEATURE, 236, some .HV7131_REG_TITM, 0⟩,
       .control_msg ⟨.USB_DIR_OUT, .SE401_REQ_SET_EXT_FEATURE, 177, some .HV7131_REG_TITL, 0⟩] ∧
    (177 : Int) + 256 * 236 + 65536 * 30 = 2026673 ∧
    ¬ is_nearest_multiple 106667 (32767 * 64)
        (exposure_integration 32767 .V4L2_CID_POWER_LINE_FREQUENCY_50HZ) := by
  refine ⟨by decide, by decide, by decide, ?_⟩
  intro h
  have h2 := h.2 2133340 (by decide)
  have e : exposure_integration 32767 .V4L2_CID_POWER_LINE_FREQUENCY_50HZ = 2026673 := by
    decide
  rw [e] at h2
  norm_num at h2

/-- C16, amended. For every exposure value `e` in [0,32767], `setexposure` computes the
integration value `e << 6`, which fits in 24 bits. With the 50 Hz (resp. 60 Hz) filter
selected, the value it passes to the three integration-time registers (low, middle and
high byte) is `e << 6` minus its remainder modulo 106667 (resp. 88889): the greatest
multiple of that period not above `e << 6`, not the nearest one. With the filter off it
passes `e << 6` unchanged. -/
theorem exposure_snapping (dev : usb_device) (s : sd)
    (h0 : 0 ≤ s.ctrls.exposure) (h1 : s.ctrls.exposure ≤ 32767) :
    0 ≤ s.ctrls.exposure * 64 ∧ s.ctrls.exposure * 64 < 16777216 ∧
    (s.ctrls.freq = .V4L2_CID_POWER_LINE_FREQUENCY_DISABLED →
      exposure_integration s.ctrls.exposure s.ctrls.freq = s.ctrls.exposure * 64) ∧
    (s.ctrls.freq = .V4L2_CID_POWER_LINE_FREQUENCY_50HZ →
      exposure_integration s.ctrls.exposure s.ctrls.freq % 106667 = 0 ∧
        exposure_integration s.ctrls.exposure s.ctrls.freq ≤ s.ctrls.exposure * 64 ∧
        s.ctrls.exposure * 64 <
          exposure_integration s.ctrls.exposure s.ctrls.freq + 106667) ∧
    (s.ctrls.freq = .V4L2_CID_POWER_LINE_FREQUENCY_60HZ →
      exposure_integration s.ctrls.exposure s.ctrls.freq % 88889 = 0 ∧
        exposure_integration s.ctrls.exposure s.ctrls.freq ≤ s.ctrls.exposure * 64 ∧
        s.ctrls.exposure * 64 <
          exposure_integration s.ctrls.exposure s.ctrls.freq + 88889) ∧
    setexposure dev s =
      { s with
          expo_change_state := .EXPO_CHANGED,
          gspca_dev :=
            se401_set_feature dev
              (se401_set_feature dev
                (se401_set_feature dev s.gspca_dev .HV7131_REG_TITL
                  (to_u8 (exposure_integration s.ctrls.exposure s.ctrls.freq)))
                .HV7131_REG_TITM
                (to_u8 (exposure_integration s.ctrls.exposure s.ctrls.freq >>> 8)))
              .HV7131_REG_TITU
              (to_u8 (exposure_integration s.ctrls.exposure s.ctrls.freq >>> 16)) } ∧
    (to_u8 (exposure_integration s.ctrls.exposure s.ctrls.freq) : Int) +
        256 * to_u8 (exposure_integration s.ctrls.exposure s.ctrls.freq >>> 8) +
        65536 * to_u8 (exposure_integration s.ctrls.exposure s.ctrls.freq >>> 16) =
      exposure_integration s.ctrls.exposure s.ctrls.freq := by
  have e := exposure_integration_eq s.ctrls.exposure s.ctrls.freq h0 h1
  have hv : 0 ≤ exposure_integration s.ctrls.exposure s.ctrls.freq ∧
      exposure_integration s.ctrls.exposure s.ctrls.freq < 16777216 := by
    rw [e]
    cases s.ctrls.freq <;> simp only <;> omega
  refine ⟨by omega, by omega, ?_, ?_, ?_, rfl, exposure_bytes _ hv.1 hv.2⟩
  · intro hf
    rw [e, hf]
  · intro hf
    rw [e, hf]
    simp only
    omega
  · intro hf
    rw [e, hf]
    simp only
    omega

/-- C16, witness: exposure 32767 with the 50 Hz filter. -/
theorem exposure_snapping_witness :
    exposure_integration sample_exposure_sd.ctrls.exposure sample_exposure_sd.ctrls.freq
        % 106667 = 0 ∧
      exposure_integration sample_exposure_sd.ctrls.exposure sample_exposure_sd.ctrls.freq ≤
        sample_exposure_sd.ctrls.exposure * 64 ∧
      sample_exposure_sd.ctrls.exposure * 64 <
        exposure_integration sample_exposure_sd.ctrls.exposure sample_exposure_sd.ctrls.freq
          + 106667 :=
  (exposure_snapping quiet_device sample_exposure_sd (by decide) (by decide)).2.2.2.1 rfl

/-! ### Ranges that are dropped whole -/

/-- C17. Restart-pending drop. If `restart_stream` is set when `sd_pkt_scan_janggu` is
called, the call returns the state it was given, for every range: nothing is passed to
the sink and the packet buffer, `packet_read`, `pixels_read`, `restart_stream`,
`last_packet_type` and the exposure gate are unchanged. -/
theorem restart_pending_drop (s : sd) (data : List u8) (h : s.restart_stream ≠ 0) :
    sd_pkt_scan_janggu s data = .ok s := by
  unfold sd_pkt_scan_janggu
  rw [if_pos h]

/-- C17, witness: a whole SOF packet offered while a restart is pending. -/
theorem restart_pending_drop_witness :
    sd_pkt_scan_janggu sample_restart_sd sample_sof = .ok sample_restart_sd :=
  restart_pending_drop sample_restart_sd sample_sof (by decide)

/-- C18. Garbage-packet discard. In `sd_pkt_scan_janggu` with the restart flag clear: if
the last packet type of the sink is LAST_PACKET and the range is exactly 1024 bytes
long, the call returns the state it was given with only `last_packet_type` changed to
DISCARD_PACKET (no fragment is passed on; packet buffer, `packet_read` and `pixels_read`
are unchanged); in every other case the rule does not apply and the range is parsed by
the loop. -/
theorem garbage_discard (s : sd) (data : List u8) (hr : s.restart_stream = 0) :
    (s.gspca_dev.last_packet_type = .LAST_PACKET → data.length = 1024 →
      sd_pkt_scan_janggu s data =
        .ok { s with gspca_dev :=
                { s.gspca_dev with last_packet_type := .DISCARD_PACKET } }) ∧
    (¬ (s.gspca_dev.last_packet_type = .LAST_PACKET ∧ data.length = 1024) →
      sd_pkt_scan_janggu s data =
        janggu_loop (to_int (s.gspca_dev.width * s.gspca_dev.height)) (data.length + 2) s
          data) := by
  have hr0 : ¬ s.restart_stream ≠ 0 := by simp [hr]
  constructor
  · intro h1 h2
    unfold sd_pkt_scan_janggu
    rw [if_neg hr0, if_pos ⟨h1, h2⟩]
  · intro h
    unfold sd_pkt_scan_janggu
    rw [if_neg hr0, if_neg h]

/-- C18, witness: 1024 zero bytes right after a completed frame are discarded. -/
theorem garbage_discard_witness :
    sd_pkt_scan_janggu sample_last_sd (List.replicate 1024 0) =
      .ok { sample_last_sd with
              gspca_dev :=
                { sample_last_sd.gspca_dev with last_packet_type := .DISCARD_PACKET } } :=
  (garbage_discard sample_last_sd (List.replicate 1024 0) rfl).1 rfl
    (List.length_replicate _ _)

/-! ### Bounds of the assembly buffer -/

theorem dispatch_step_ok (imagesize : Int) (pixels info plen : Nat) (s : sd) (rest : List u8)
    (hlen : s.packet.length = PACKET_SIZE) :
    (∀ s1 rest1, janggu_dispatch imagesize pixels info plen s rest = .next s1 rest1 →
      buffer_ok s1 ∧ s1.restart_stream = s.restart_stream) ∧
    (∀ s1, janggu_dispatch imagesize pixels info plen s rest = .done s1 →
      buffer_ok s1 ∧ s1.restart_stream = s.restart_stream) ∧
    (∀ s1, janggu_dispatch imagesize pixels info plen s rest = .error s1 →
      s1.packet.length = PACKET_SIZE) ∧
    janggu_dispatch imagesize pixels info plen s rest ≠ .undefined := by
  have hok : ∀ t : sd, t.packet = s.packet → t.packet_read = 0 → buffer_ok t := by
    intro t h1 h2
    exact ⟨by rw [h1]; exact hlen, Or.inl ⟨by omega, by omega⟩⟩
  simp only [janggu_dispatch]
  refine ⟨?_, ?_, ?_, ?_⟩
  · intro s1 rest1 h
    split_ifs at h
    all_goals first
      | contradiction
      | (cases h; exact ⟨hok _ rfl rfl, rfl⟩)
  · intro s1 h
    split_ifs at h
    all_goals first
      | contradiction
      | (cases h
         refine ⟨hok _ ?_ ?_, ?_⟩ <;>
           (cases he : s.expo_change_state <;> simp [sd_complete_frame, he]))
  · intro s1 h
    split_ifs at h
    all_goals first
      | contradiction
      | (cases h; exact hlen)
  · split_ifs <;> simp

theorem header_fields_memcpy (buf : List u8) (n : Nat) (src : List u8) (h4 : 4 ≤ n)
    (hn : n ≤ buf.length) :
    janggu_plen (memcpy buf n src) = janggu_plen buf ∧
      janggu_info (memcpy buf n src) = janggu_info buf ∧
      janggu_pixels (memcpy buf n src) = janggu_pixels buf :=
  header_fields_of_take (memcpy_take buf n src 4 h4 hn)

theorem packet_step_ok (imagesize : Int) (s : sd) (rest : List u8)
    (hlen : s.packet.length = PACKET_SIZE) (h4 : 4 ≤ s.packet_read)
    (hle : s.packet_read ≤ janggu_plen s.packet) :
    (∀ s1 rest1, janggu_packet imagesize s rest = .next s1 rest1 →
      buffer_ok s1 ∧ s1.restart_stream = s.restart_stream) ∧
    (∀ s1, janggu_packet imagesize s rest = .done s1 →
      buffer_ok s1 ∧ s1.restart_stream = s.restart_stream) ∧
    (∀ s1, janggu_packet imagesize s rest = .error s1 →
      s1.packet.length = PACKET_SIZE) ∧
    janggu_packet imagesize s rest ≠ .undefined := by
  have hlen2 : s.packet.length = 1024 := hlen
  by_cases hp : janggu_plen s.packet > 1024
  · simp only [janggu_packet, hp, if_true]
    refine ⟨by simp, by simp, ?_, by simp⟩
    intro s1 h
    cases h
    exact hlen
  · by_cases hi : janggu_info s.packet = 3
    · simp only [janggu_packet, hp, hi, if_true, if_false]
      refine ⟨by simp, by simp, ?_, by simp⟩
      intro s1 h
      cases h
      exact hlen
    · obtain ⟨c, hc⟩ : ∃ c : Nat, (c : Int) =
          min ((janggu_plen s.packet : Int) - s.packet_read) rest.length :=
        ⟨(min ((janggu_plen s.packet : Int) - s.packet_read) rest.length).toNat, by omega⟩
      have hcopy := janggu_copy_ok s rest c (by omega) (by omega)
        (by simp only [PACKET_SIZE]; omega)
      simp only [janggu_packet, hp, hi, if_false, ← hc, hcopy]
      have hn : s.packet_read.toNat ≤ s.packet.length := by omega
      have hml : (memcpy s.packet s.packet_read.toNat (rest.take c)).length = PACKET_SIZE := by
        rw [memcpy_length _ _ _ (by simp only [List.length_take]; omega)]
        exact hlen
      obtain ⟨f1, f2, _⟩ := header_fields_memcpy s.packet s.packet_read.toNat (rest.take c)
        (by omega) hn
      by_cases hb : s.packet_read + (c : Int) < janggu_plen s.packet
      · simp only [hb, if_true]
        refine ⟨by simp, ?_, by simp, by simp⟩
        intro s1 h
        cases h
        refine ⟨⟨hml, Or.inr ⟨?_, ?_, ?_, ?_⟩⟩, rfl⟩
        · simp only [f2]; exact hi
        · simp only; omega
        · simp only [f1]; exact hb
        · simp only [f1]; omega
      · simp only [hb, if_false]
        exact dispatch_step_ok imagesize _ _ _ _ _ hml

theorem body_step_ok (imagesize : Int) (s : sd) (rest : List u8) (hs : buffer_ok s)
    (hne : rest.length ≠ 0) :
    (∀ s1 rest1, janggu_body imagesize s rest = .next s1 rest1 →
      buffer_ok s1 ∧ s1.restart_stream = s.restart_stream) ∧
    (∀ s1, janggu_body imagesize s rest = .done s1 →
      buffer_ok s1 ∧ s1.restart_stream = s.restart_stream) ∧
    (∀ s1, janggu_body imagesize s rest = .error s1 →
      s1.packet.length = PACKET_SIZE) ∧
    janggu_body imagesize s rest ≠ .undefined := by
  obtain ⟨hlen, hb⟩ := hs
  have hlen2 : s.packet.length = 1024 := hlen
  have hpos := Nat.pos_of_ne_zero hne
  by_cases h4 : s.packet_read < 4
  · have h0 : 0 ≤ s.packet_read := by
      rcases hb with h | h <;> omega
    obtain ⟨c, hc⟩ : ∃ c : Nat, (c : Int) = min (4 - s.packet_read) (rest.length : Int) :=
      ⟨(min (4 - s.packet_read) (rest.length : Int)).toNat, by omega⟩
    have hcopy := janggu_copy_ok s rest c (by omega) h0 (by simp only [PACKET_SIZE]; omega)
    have hml : (memcpy s.packet s.packet_read.toNat (rest.take c)).length = PACKET_SIZE := by
      rw [memcpy_length _ _ _ (by simp only [List.length_take]; omega)]
      exact hlen
    simp only [janggu_body, janggu_header, h4, if_true, ← hc, hcopy]
    by_cases hb2 : s.packet_read + (c : Int) < 4
    · simp only [hb2, if_true]
      refine ⟨by simp, ?_, by simp, by simp⟩
      intro s1 h
      cases h
      exact ⟨⟨hml, Or.inl ⟨by simp only; omega, hb2⟩⟩, rfl⟩
    · simp only [hb2, if_false]
      exact packet_step_ok imagesize _ _ hml (by simp only; omega) (by
        have := janggu_plen_ge (memcpy s.packet s.packet_read.toNat (rest.take c))
        simp only
        omega)
  · have hv : janggu_info s.packet ≠ 3 ∧ 4 ≤ s.packet_read ∧
        s.packet_read < janggu_plen s.packet ∧ janggu_plen s.packet ≤ 1024 := by
      rcases hb with h | h
      · omega
      · exact h
    simp only [janggu_body, janggu_header, h4, if_false]
    exact packet_step_ok imagesize s rest hlen hv.2.1 (by omega)

theorem loop_ok (imagesize : Int) :
    ∀ (fuel : Nat) (s : sd) (rest : List u8), buffer_ok s →
      janggu_loop imagesize fuel s rest = .out_of_fuel ∨
        ∃ t, janggu_loop imagesize fuel s rest = .ok t ∧ t.packet.length = PACKET_SIZE ∧
          ((t.restart_stream = s.restart_stream ∧ buffer_ok t) ∨ t.restart_stream = 1) := by
  intro fuel
  induction fuel with
  | zero => intro s rest _; exact Or.inl rfl
  | succ fuel ih =>
    intro s rest hs
    unfold janggu_loop
    by_cases h0 : rest.length = 0
    · simp only [h0, if_true]
      exact Or.inr ⟨s, rfl, hs.1, Or.inl ⟨rfl, hs⟩⟩
    · simp only [h0, if_false]
      obtain ⟨b1, b2, b3, b4⟩ := body_step_ok imagesize s rest hs h0
      cases hb : janggu_body imagesize s rest with
      | next s1 rest1 =>
        obtain ⟨k1, k2⟩ := b1 s1 rest1 hb
        simp only
        rcases ih s1 rest1 k1 with h | ⟨t, h1, h2, h3⟩
        · exact Or.inl h
        · refine Or.inr ⟨t, h1, h2, ?_⟩
          rw [← k2]
          exact h3
      | done s1 =>
        obtain ⟨k1, k2⟩ := b2 s1 hb
        exact Or.inr ⟨s1, rfl, k1.1, Or.inl ⟨k2, k1⟩⟩
      | error s1 =>
        exact Or.inr ⟨janggu_error s1, rfl, b3 s1 hb, Or.inr rfl⟩
      | undefined => exact absurd hb b4

theorem scan_ok (s : sd) (data : List u8) (hlen : s.packet.length = PACKET_SIZE)
    (hs : s.restart_stream = 0 → buffer_ok s) :
    ∃ t, sd_pkt_scan_janggu s data = .ok t ∧ t.packet.length = PACKET_SIZE ∧
      (t.restart_stream = 0 → buffer_ok t) := by
  unfold sd_pkt_scan_janggu
  by_cases hr : s.restart_stream ≠ 0
  · rw [if_pos hr]
    exact ⟨s, rfl, hlen, hs⟩
  · have hr0 : s.restart_stream = 0 := by
      by_contra h
      exact hr h
    have hb := hs hr0
    rw [if_neg hr]
    by_cases hg : s.gspca_dev.last_packet_type = .LAST_PACKET ∧ data.length = 1024
    · rw [if_pos hg]
      exact ⟨_, rfl, hlen, fun _ => hb⟩
    · rw [if_neg hg]
      have hf := janggu_loop_fuel (to_int (s.gspca_dev.width * s.gspca_dev.height))
        (data.length + 2) s data (by split_ifs <;> omega)
      rcases loop_ok _ (data.length + 2) s data hb with h | ⟨t, h1, h2, h3⟩
      · exact absurd h hf
      · refine ⟨t, h1, h2, fun ht => ?_⟩
        rcases h3 with ⟨_, h⟩ | h
        · exact h
        · omega

theorem dq_cycle_keeps (k : kernel_consts) (dev : usb_device) (s : sd) :
    (dq_cycle k dev s).packet = s.packet ∧ (dq_cycle k dev s).packet_read = s.packet_read ∧
      (dq_cycle k dev s).restart_stream = s.restart_stream := by
  simp only [dq_cycle]
  split_ifs <;> exact ⟨rfl, rfl, rfl⟩

theorem dq_tick_keeps (k : kernel_consts) (dev : usb_device) (s : sd) :
    (dq_tick k dev s).packet = s.packet ∧ (dq_tick k dev s).packet_read = s.packet_read ∧
      (dq_tick k dev s).restart_stream = s.restart_stream := by
  simp only [dq_tick]
  split_ifs
  · exact ⟨rfl, rfl, rfl⟩
  · exact dq_cycle_keeps k dev _

theorem buffer_ok_congr (s t : sd) (h1 : t.packet = s.packet)
    (h2 : t.packet_read = s.packet_read) (hs : buffer_ok s) : buffer_ok t := by
  unfold buffer_ok at hs ⊢
  rw [h1, h2]
  exact hs

theorem tick_ok (k : kernel_consts) (dev : usb_device) (t : sd)
    (hlen : t.packet.length = PACKET_SIZE) (hs : t.restart_stream = 0 → buffer_ok t) :
    (dq_tick k dev t).packet.length = PACKET_SIZE ∧
      ((dq_tick k dev t).restart_stream = 0 → buffer_ok (dq_tick k dev t)) := by
  obtain ⟨k1, k2, k3⟩ := dq_tick_keeps k dev t
  refine ⟨by rw [k1]; exact hlen, fun h => ?_⟩
  exact buffer_ok_congr t _ k1 k2 (hs (k3.symm.trans h))

theorem callback_ok (k : kernel_consts) (dev : usb_device) (s : sd)
    (hlen : s.packet.length = PACKET_SIZE) (hs : s.restart_stream = 0 → buffer_ok s) :
    (sd_dq_callback k dev s).packet.length = PACKET_SIZE ∧
      ((sd_dq_callback k dev s).restart_stream = 0 → buffer_ok (sd_dq_callback k dev s)) := by
  rw [dq_callback_split]
  apply tick_ok
  · split_ifs
    · exact (congrArg List.length (sd_start_keeps dev _).2).trans hlen
    · exact hlen
  · split_ifs with hr
    · intro _
      have hp := (sd_start_keeps dev { s with gspca_dev := sd_stopN dev s.gspca_dev }).2
      have hpr := (sd_start_fields dev { s with gspca_dev := sd_stopN dev s.gspca_dev }).2.2.2.1
      exact ⟨(congrArg List.length hp).trans hlen,
        Or.inl ⟨le_of_eq hpr.symm, lt_of_eq_of_lt hpr (by decide)⟩⟩
    · exact hs

theorem run_stream_ok (k : kernel_consts) (dev : usb_device) (events : List stream_event) :
    ∀ s : sd, s.packet.length = PACKET_SIZE → (s.restart_stream = 0 → buffer_ok s) →
      ∃ t, run_stream k dev events s = .ok t ∧ t.packet.length = PACKET_SIZE ∧
        (t.restart_stream = 0 → buffer_ok t) := by
  induction events with
  | nil => intro s hlen hs; exact ⟨s, rfl, hlen, hs⟩
  | cons e es ih =>
    intro s hlen hs
    cases e with
    | range data =>
      obtain ⟨t, h1, h2, h3⟩ := scan_ok s data hlen hs
      obtain ⟨u, g1, g2, g3⟩ := ih t h2 h3
      exact ⟨u, by simp only [run_stream, h1, g1], g2, g3⟩
    | dq_callback =>
      obtain ⟨h2, h3⟩ := callback_ok k dev s hlen hs
      obtain ⟨u, g1, g2, g3⟩ := ih _ h2 h3
      exact ⟨u, by simp only [run_stream, g1], g2, g3⟩

/-- C20. Assembly buffer bounds. From a state with the 1024-byte buffer empty
(`packet_read = 0`) and the restart flag clear, every sequence of ranges given to
`sd_pkt_scan_janggu`, with `sd_dq_callback` (hence `sd_stopN` and `sd_start` after a
fault) run at any points in between, makes every call return: no copy has a negative
count, reads past the end of the range or writes outside the buffer, these being exactly
the cases in which the model of the copy has no result. This relies on the derived packet
length being at least 4. After every call with the restart flag clear, either
`packet_read < 4`, or the buffered header is valid and
`4 <= packet_read < plen <= 1024`; the same holds for one call from any state of that
form. -/
theorem buffer_bounds (k : kernel_consts) (dev : usb_device) (events : List stream_event)
    (s : sd) (hlen : s.packet.length = PACKET_SIZE) (hpr : s.packet_read = 0)
    (hr : s.restart_stream = 0) :
    (∃ t, run_stream k dev events s = .ok t ∧ t.packet.length = PACKET_SIZE ∧
      (t.restart_stream = 0 → buffer_ok t)) ∧
    (∀ (u : sd) (data : List u8), u.packet.length = PACKET_SIZE →
      (u.restart_stream = 0 → buffer_ok u) →
      ∃ t, sd_pkt_scan_janggu u data = .ok t ∧ t.packet.length = PACKET_SIZE ∧
        (t.restart_stream = 0 → buffer_ok t)) ∧
    (∀ (u : sd) (rest : List u8) (count : Int),
      janggu_copy u rest count = none ↔
        (count < 0 ∨ (rest.length : Int) < count ∨ u.packet_read < 0 ∨
          u.packet_read + count > PACKET_SIZE)) ∧
    (∀ packet : List u8, 4 ≤ janggu_plen packet) := by
  refine ⟨?_, fun u data => scan_ok u data, ?_, janggu_plen_ge⟩
  · have hr1 := hr
    exact run_stream_ok k dev events s hlen
      (fun _ => ⟨hlen, Or.inl ⟨le_of_eq hpr.symm, lt_of_eq_of_lt hpr (by decide)⟩⟩)
  · intro u rest count
    unfold janggu_copy
    split_ifs with h
    · simp [h]
    · simp [h]

/-- C20, witness: a SOF packet split over two ranges, a header with info 3 (a sync fault),
a range dropped while the restart is pending, the callback that restarts the stream, and
a whole SOF packet again. -/
theorem buffer_bounds_witness :
    ∃ t, run_stream sample_consts quiet_device
        [.range (sample_sof.take 5), .range (sample_sof.drop 5), .range [0xc0, 0, 0, 0],
          .range sample_data, .dq_callback, .range sample_sof] (sample_sd 2) = .ok t ∧
      t.packet.length = PACKET_SIZE ∧ (t.restart_stream = 0 → buffer_ok t) :=
  (buffer_bounds sample_consts quiet_device
    [.range (sample_sof.take 5), .range (sample_sof.drop 5), .range [0xc0, 0, 0, 0],
      .range sample_data, .dq_callback, .range sample_sof] (sample_sd 2)
    (List.length_replicate _ _) rfl rfl).1

/-! ### At most one frame boundary per range -/

theorem janggu_copy_append (s : sd) (rest extra : List u8) (count : Int) (s1 : sd)
    (rest1 : List u8) (h : janggu_copy s rest count = some (s1, rest1)) :
    janggu_copy s (rest ++ extra) count = some (s1, rest1 ++ extra) := by
  unfold janggu_copy at h ⊢
  split_ifs at h with hc
  push_neg at hc
  have hc2 : ¬ (count < 0 ∨ ((rest ++ extra).length : Int) < count ∨ s.packet_read < 0 ∨
      s.packet_read + count > PACKET_SIZE) := by
    simp only [List.length_append, Nat.cast_add]
    omega
  rw [if_neg hc2]
  have hle : count.toNat ≤ rest.length := by omega
  simp only [Option.some.injEq, Prod.mk.injEq] at h ⊢
  obtain ⟨h1, h2⟩ := h
  rw [List.take_append_of_le_length hle, List.drop_append_of_le_length hle, h1, h2]
  exact ⟨rfl, rfl⟩

theorem dispatch_boundary (imagesize : Int) (pixels info plen : Nat) (s : sd)
    (rest : List u8) :
    (∀ s1 rest1, janggu_dispatch imagesize pixels info plen s rest = .next s1 rest1 →
      (∃ mids, s1.gspca_dev.frame_log = s.gspca_dev.frame_log ++ mids ∧
        ∀ e ∈ mids, e.1 ≠ gspca_packet_type.LAST_PACKET) ∧
      rest1 = rest ∧
      ∀ r, janggu_dispatch imagesize pixels info plen s r = .next s1 r) ∧
    (∀ s1, janggu_dispatch imagesize pixels info plen s rest = .done s1 →
      (∃ d, s1.gspca_dev.frame_log = s.gspca_dev.frame_log ++ [(.LAST_PACKET, d)]) ∧
      ∀ r, janggu_dispatch imagesize pixels info plen s r = .done s1) ∧
    (∀ s1, janggu_dispatch imagesize pixels info plen s rest = .error s1 →
      s1.gspca_dev.frame_log = s.gspca_dev.frame_log ∧
      ∀ r, janggu_dispatch imagesize pixels info plen s r = .error s1) := by
  simp only [janggu_dispatch]
  refine ⟨?_, ?_, ?_⟩
  · intro s1 rest1 h
    split_ifs at h
    · cases h
      exact ⟨⟨[(.INTER_PACKET, s.packet.take plen)], by simp [gspca_frame_add], by simp⟩,
        rfl, fun r => by split_ifs; rfl⟩
    · cases h
      exact ⟨⟨[(.FIRST_PACKET, s.packet.take plen)], by simp [gspca_frame_add], by simp⟩,
        rfl, fun r => by split_ifs; rfl⟩
    · cases h
      exact ⟨⟨[], by simp, by simp⟩, rfl, fun r => by split_ifs; rfl⟩
  · intro s1 h
    split_ifs at h
    cases h
    refine ⟨⟨s.packet.take plen, ?_⟩, fun r => by split_ifs; rfl⟩
    cases he : s.expo_change_state <;> simp [sd_complete_frame, he, gspca_frame_add]
  · intro s1 h
    split_ifs at h
    cases h
    exact ⟨rfl, fun r => by split_ifs; rfl⟩

theorem packet_boundary (imagesize : Int) (s : sd) (rest : List u8) :
    (∀ s1 rest1, janggu_packet imagesize s rest = .next s1 rest1 →
      (∃ mids, s1.gspca_dev.frame_log = s.gspca_dev.frame_log ++ mids ∧
        ∀ e ∈ mids, e.1 ≠ gspca_packet_type.LAST_PACKET) ∧
      ∀ extra, janggu_packet imagesize s (rest ++ extra) = .next s1 (rest1 ++ extra)) ∧
    (∀ s1, janggu_packet imagesize s rest = .done s1 →
      s1.gspca_dev.frame_log = s.gspca_dev.frame_log ∨
      ((∃ d, s1.gspca_dev.frame_log = s.gspca_dev.frame_log ++ [(.LAST_PACKET, d)]) ∧
        ∀ extra, janggu_packet imagesize s (rest ++ extra) = .done s1)) ∧
    (∀ s1, janggu_packet imagesize s rest = .error s1 →
      s1.gspca_dev.frame_log = s.gspca_dev.frame_log ∧
      ∀ extra, janggu_packet imagesize s (rest ++ extra) = .error s1) := by
  by_cases hp : janggu_plen s.packet > 1024
  · simp only [janggu_packet, hp, if_true]
    refine ⟨by simp, by simp, ?_⟩
    intro s1 h
    cases h
    exact ⟨rfl, fun _ => rfl⟩
  · by_cases hi : janggu_info s.packet = 3
    · simp only [janggu_packet, hp, hi, if_true, if_false]
      refine ⟨by simp, by simp, ?_⟩
      intro s1 h
      cases h
      exact ⟨rfl, fun _ => rfl⟩
    · simp only [janggu_packet, hp, hi, if_false]
      cases hcp : janggu_copy s rest
          (min ((janggu_plen s.packet : Int) - s.packet_read) rest.length) with
      | none => simp
      | some p =>
        obtain ⟨s2, rest2⟩ := p
        obtain ⟨c0, c1, c2⟩ := janggu_copy_some _ _ _ _ _ hcp
        have hlog : s2.gspca_dev.frame_log = s.gspca_dev.frame_log := by
          unfold janggu_copy at hcp
          split_ifs at hcp
          simp only [Option.some.injEq, Prod.mk.injEq] at hcp
          rw [← hcp.1]
        by_cases hb : s2.packet_read < janggu_plen s.packet
        · simp only [hb, if_true]
          refine ⟨by simp, ?_, by simp⟩
          intro s1 h
          cases h
          exact Or.inl hlog
        · have hmin : ∀ extra : List u8,
              min ((janggu_plen s.packet : Int) - s.packet_read)
                ((rest ++ extra).length : Int) =
              min ((janggu_plen s.packet : Int) - s.packet_read) rest.length := by
            intro extra
            simp only [List.length_append, Nat.cast_add]
            omega
          have hcpe : ∀ extra : List u8, janggu_copy s (rest ++ extra)
              (min ((janggu_plen s.packet : Int) - s.packet_read)
                ((rest ++ extra).length : Int)) = some (s2, rest2 ++ extra) := by
            intro extra
            rw [hmin extra]
            exact janggu_copy_append s rest extra _ s2 rest2 hcp
          obtain ⟨d1, d2, d3⟩ := dispatch_boundary imagesize (janggu_pixels s.packet)
            (janggu_info s.packet) (janggu_plen s.packet) s2 rest2
          simp only [hb, if_false, hcpe]
          refine ⟨?_, ?_, ?_⟩
          · intro s1 rest1 h
            obtain ⟨⟨mids, m1, m2⟩, e1, e2⟩ := d1 s1 rest1 h
            refine ⟨⟨mids, by rw [m1, hlog], m2⟩, fun extra => ?_⟩
            rw [e1]
            exact e2 _
          · intro s1 h
            obtain ⟨⟨d, m1⟩, e2⟩ := d2 s1 h
            exact Or.inr ⟨⟨d, by rw [m1, hlog]⟩, fun extra => e2 _⟩
          · intro s1 h
            obtain ⟨m1, e2⟩ := d3 s1 h
            exact ⟨by rw [m1, hlog], fun extra => e2 _⟩

theorem body_boundary (imagesize : Int) (s : sd) (rest : List u8) :
    (∀ s1 rest1, janggu_body imagesize s rest = .next s1 rest1 →
      (∃ mids, s1.gspca_dev.frame_log = s.gspca_dev.frame_log ++ mids ∧
        ∀ e ∈ mids, e.1 ≠ gspca_packet_type.LAST_PACKET) ∧
      ∀ extra, janggu_body imagesize s (rest ++ extra) = .next s1 (rest1 ++ extra)) ∧
    (∀ s1, janggu_body imagesize s rest = .done s1 →
      s1.gspca_dev.frame_log = s.gspca_dev.frame_log ∨
      ((∃ d, s1.gspca_dev.frame_log = s.gspca_dev.frame_log ++ [(.LAST_PACKET, d)]) ∧
        ∀ extra, janggu_body imagesize s (rest ++ extra) = .done s1)) ∧
    (∀ s1, janggu_body imagesize s rest = .error s1 →
      s1.gspca_dev.frame_log = s.gspca_dev.frame_log ∧
      ∀ extra, janggu_body imagesize s (rest ++ extra) = .error s1) := by
  by_cases h4 : s.packet_read < 4
  · simp only [janggu_body, janggu_header, h4, if_true]
    cases hcp : janggu_copy s rest (min (4 - s.packet_read) rest.length) with
    | none => simp
    | some p =>
      obtain ⟨s2, rest2⟩ := p
      obtain ⟨c0, c1, c2⟩ := janggu_copy_some _ _ _ _ _ hcp
      have hlog : s2.gspca_dev.frame_log = s.gspca_dev.frame_log := by
        unfold janggu_copy at hcp
        split_ifs at hcp
        simp only [Option.some.injEq, Prod.mk.injEq] at hcp
        rw [← hcp.1]
      by_cases hb : s2.packet_read < 4
      · simp only [hb, if_true]
        refine ⟨by simp, ?_, by simp⟩
        intro s1 h
        cases h
        exact Or.inl hlog
      · have hmin : ∀ extra : List u8,
            min (4 - s.packet_read) ((rest ++ extra).length : Int) =
            min (4 - s.packet_read) rest.length := by
          intro extra
          simp only [List.length_append, Nat.cast_add]
          omega
        have hcpe : ∀ extra : List u8, janggu_copy s (rest ++ extra)
            (min (4 - s.packet_read) ((rest ++ extra).length : Int)) =
              some (s2, rest2 ++ extra) := by
          intro extra
          rw [hmin extra]
          exact janggu_copy_append s rest extra _ s2 rest2 hcp
        obtain ⟨d1, d2, d3⟩ := packet_boundary imagesize s2 rest2
        simp only [hb, if_false, hcpe]
        refine ⟨?_, ?_, ?_⟩
        · intro s1 rest1 h
          obtain ⟨⟨mids, m1, m2⟩, e2⟩ := d1 s1 rest1 h
          exact ⟨⟨mids, by rw [m1, hlog], m2⟩, e2⟩
        · intro s1 h
          rcases d2 s1 h with m1 | ⟨⟨d, m1⟩, e2⟩
          · exact Or.inl (by rw [m1, hlog])
          · exact Or.inr ⟨⟨d, by rw [m1, hlog]⟩, e2⟩
        · intro s1 h
          obtain ⟨m1, e2⟩ := d3 s1 h
          exact ⟨by rw [m1, hlog], e2⟩
  · simp only [janggu_body, janggu_header, h4, if_false]
    exact packet_boundary imagesize s rest

theorem loop_boundary (imagesize : Int) :
    ∀ (fuel : Nat) (s : sd) (rest : List u8),
      janggu_loop imagesize fuel s rest = .out_of_fuel ∨
      janggu_loop imagesize fuel s rest = .undefined ∨
      ∃ t mids fin, janggu_loop imagesize fuel s rest = .ok t ∧
        t.gspca_dev.frame_log = s.gspca_dev.frame_log ++ mids ++ fin ∧
        (∀ e ∈ mids, e.1 ≠ gspca_packet_type.LAST_PACKET) ∧
        (fin = [] ∨ ∃ d, fin = [(gspca_packet_type.LAST_PACKET, d)]) ∧
        (fin ≠ [] → ∀ (extra : List u8) (more : Nat), fuel ≤ more →
          janggu_loop imagesize more s (rest ++ extra) = .ok t) := by
  intro fuel
  induction fuel with
  | zero => intro s rest; exact Or.inl rfl
  | succ fuel ih =>
    intro s rest
    by_cases h0 : rest.length = 0
    · refine Or.inr (Or.inr ⟨s, [], [], ?_, by simp, by simp, Or.inl rfl, by simp⟩)
      simp only [janggu_loop, h0, if_true]
    · have hne : rest ≠ [] := by
        intro h
        exact h0 (by rw [h]; rfl)
      have hne2 : ∀ extra : List u8, rest ++ extra ≠ [] := by
        intro extra h
        exact hne (List.append_eq_nil.mp h).1
      obtain ⟨b1, b2, b3⟩ := body_boundary imagesize s rest
      rw [janggu_loop_step imagesize fuel s rest hne]
      cases hb : janggu_body imagesize s rest with
      | undefined => exact Or.inr (Or.inl rfl)
      | next s1 rest1 =>
        obtain ⟨⟨m1, l1, n1⟩, e1⟩ := b1 s1 rest1 hb
        rcases ih s1 rest1 with h | h | ⟨t, mids, fin, r1, r2, r3, r4, r5⟩
        · exact Or.inl h
        · exact Or.inr (Or.inl h)
        · refine Or.inr (Or.inr ⟨t, m1 ++ mids, fin, r1, ?_, ?_, r4, ?_⟩)
          · rw [r2, l1, List.append_assoc s.gspca_dev.frame_log m1 mids]
          · intro e he
            rcases List.mem_append.mp he with h | h
            · exact n1 e h
            · exact r3 e h
          · intro hf extra more hm
            obtain ⟨m, rfl⟩ : ∃ m, more = m + 1 := ⟨more - 1, by omega⟩
            rw [janggu_loop_step imagesize m s _ (hne2 extra), e1 extra]
            exact r5 hf extra m (by omega)
      | done s1 =>
        rcases b2 s1 hb with l1 | ⟨⟨d, l1⟩, e1⟩
        · exact Or.inr (Or.inr ⟨s1, [], [], rfl, by simp [l1], by simp, Or.inl rfl,
            by simp⟩)
        · refine Or.inr (Or.inr ⟨s1, [], [(.LAST_PACKET, d)], rfl, by simp [l1], by simp,
            Or.inr ⟨d, rfl⟩, ?_⟩)
          intro _ extra more hm
          obtain ⟨m, rfl⟩ : ∃ m, more = m + 1 := ⟨more - 1, by omega⟩
          rw [janggu_loop_step imagesize m s _ (hne2 extra), e1 extra]
      | error s1 =>
        obtain ⟨l1, e1⟩ := b3 s1 hb
        refine Or.inr (Or.inr ⟨janggu_error s1, [(.FIRST_PACKET, [])], [(.LAST_PACKET, [])],
          rfl, ?_, ?_, Or.inr ⟨[], rfl⟩, ?_⟩)
        · rw [janggu_error_frame_log, l1]
          simp
        · intro e he
          rw [List.mem_singleton.mp he]
          decide
        · intro _ extra more hm
          obtain ⟨m, rfl⟩ : ∃ m, more = m + 1 := ⟨more - 1, by omega⟩
          rw [janggu_loop_step imagesize m s _ (hne2 extra), e1 extra]

/-- C19. At most one frame boundary per range. For every state and every range, a call of
`sd_pkt_scan_janggu` either makes a copy that is undefined in C, or returns after passing
to the sink the fragments `mids ++ fin`, where no fragment of `mids` is a LAST_PACKET and
`fin` is empty or one LAST_PACKET: at most one LAST_PACKET is emitted and nothing is
emitted after it. When a LAST_PACKET was emitted (matched EOF or sync fault) the bytes
behind that point are not consumed: the call returns the very same state for the range
followed by any further bytes `extra`, complete packets included (as long as the longer
range is not taken by the 1024-byte garbage rule). -/
theorem one_boundary_per_range (s : sd) (data : List u8) :
    sd_pkt_scan_janggu s data = .undefined ∨
    ∃ t mids fin, sd_pkt_scan_janggu s data = .ok t ∧
      t.gspca_dev.frame_log = s.gspca_dev.frame_log ++ mids ++ fin ∧
      (∀ e ∈ mids, e.1 ≠ gspca_packet_type.LAST_PACKET) ∧
      (fin = [] ∨ ∃ d, fin = [(gspca_packet_type.LAST_PACKET, d)]) ∧
      (mids ++ fin).countP (fun e => e.1 = gspca_packet_type.LAST_PACKET) ≤ 1 ∧
      (fin ≠ [] → ∀ extra : List u8,
        ¬ (s.gspca_dev.last_packet_type = .LAST_PACKET ∧ (data ++ extra).length = 1024) →
        sd_pkt_scan_janggu s (data ++ extra) = .ok t) := by
  have hcount : ∀ (mids fin : List (gspca_packet_type × List u8)),
      (∀ e ∈ mids, e.1 ≠ gspca_packet_type.LAST_PACKET) →
      (fin = [] ∨ ∃ d, fin = [(gspca_packet_type.LAST_PACKET, d)]) →
      (mids ++ fin).countP (fun e => e.1 = gspca_packet_type.LAST_PACKET) ≤ 1 := by
    intro mids fin hm hf
    have h0 : mids.countP (fun e => e.1 = gspca_packet_type.LAST_PACKET) = 0 := by
      rw [List.countP_eq_zero]
      intro e he
      simpa using hm e he
    rw [List.countP_append, h0]
    rcases hf with rfl | ⟨d, rfl⟩
    · simp
    · simp
  by_cases hr : s.restart_stream ≠ 0
  · refine Or.inr ⟨s, [], [], ?_, by simp, by simp, Or.inl rfl, by simp, by simp⟩
    unfold sd_pkt_scan_janggu
    rw [if_pos hr]
  · by_cases hg : s.gspca_dev.last_packet_type = .LAST_PACKET ∧ data.length = 1024
    · refine Or.inr ⟨{ s with gspca_dev :=
                          { s.gspca_dev with last_packet_type := .DISCARD_PACKET } },
        [], [], ?_, by simp, by simp, Or.inl rfl, by simp, by simp⟩
      unfold sd_pkt_scan_janggu
      rw [if_neg hr, if_pos hg]
    · have hscan : ∀ d : List u8,
          ¬ (s.gspca_dev.last_packet_type = .LAST_PACKET ∧ d.length = 1024) →
          sd_pkt_scan_janggu s d =
            janggu_loop (to_int (s.gspca_dev.width * s.gspca_dev.height)) (d.length + 2)
              s d := by
        intro d hd
        unfold sd_pkt_scan_janggu
        rw [if_neg hr, if_neg hd]
      have hterm := sd_pkt_scan_janggu_terminates s data
      rw [hscan data hg] at hterm ⊢
      rcases loop_boundary (to_int (s.gspca_dev.width * s.gspca_dev.height))
          (data.length + 2) s data with h | h | ⟨t, mids, fin, r1, r2, r3, r4, r5⟩
      · exact absurd h hterm
      · exact Or.inl h
      · refine Or.inr ⟨t, mids, fin, r1, r2, r3, r4, hcount mids fin r3 r4, ?_⟩
        intro hf extra he
        rw [hscan (data ++ extra) he]
        apply r5 hf extra
        simp only [List.length_append]
        omega

/-- C19, witness: a whole frame (SOF, DATA, matched EOF) followed by a further complete
SOF packet in the same range; the scan is not undefined, ends with the EOF fragment, and
returns the same state as without the trailing packet. -/
theorem one_boundary_per_range_witness :
    sd_pkt_scan_janggu (sample_sd 2) (sample_sof ++ sample_data ++ sample_eof) ≠
        .undefined ∧
      sd_pkt_scan_janggu (sample_sd 2)
          ((sample_sof ++ sample_data ++ sample_eof) ++ sample_sof) =
        sd_pkt_scan_janggu (sample_sd 2) (sample_sof ++ sample_data ++ sample_eof) := by
  have hu : sd_pkt_scan_janggu (sample_sd 2) (sample_sof ++ sample_data ++ sample_eof) ≠
      .undefined := by decide
  refine ⟨hu, ?_⟩
  rcases one_boundary_per_range (sample_sd 2) (sample_sof ++ sample_data ++ sample_eof)
    with h | ⟨t, mids, fin, h1, h2, h3, h4, _, h6⟩
  · exact absurd h hu
  · have hlog : scan_frame_log (sd_pkt_scan_janggu (sample_sd 2)
        (sample_sof ++ sample_data ++ sample_eof)) =
        some [(.FIRST_PACKET, sample_sof), (.INTER_PACKET, sample_data),
          (.LAST_PACKET, sample_eof)] := by decide
    rw [h1] at hlog ⊢
    simp only [scan_frame_log, Option.some.injEq] at hlog
    have hfin : fin ≠ [] := by
      intro hf
      rw [hf, hlog] at h2
      have hm : (gspca_packet_type.LAST_PACKET, sample_eof) ∈ mids := by
        have h2b : mids = [(.FIRST_PACKET, sample_sof), (.INTER_PACKET, sample_data),
            (.LAST_PACKET, sample_eof)] := by
          simpa [sample_sd, sample_gspca] using h2.symm
        rw [h2b]
        simp
      exact h3 _ hm rfl
    exact h6 hfin sample_sof (by decide)

/-! ### Splitting a range -/

theorem janggu_loop_fuel_irrel (imagesize : Int) :
    ∀ (f1 f2 : Nat) (s : sd) (rest : List u8),
      rest.length + (if 4 ≤ s.packet_read then 2 else 1) ≤ f1 →
      rest.length + (if 4 ≤ s.packet_read then 2 else 1) ≤ f2 →
      janggu_loop imagesize f1 s rest = janggu_loop imagesize f2 s rest := by
  intro f1
  induction f1 with
  | zero =>
    intro f2 s rest h
    split_ifs at h <;> omega
  | succ f1 ih =>
    intro f2 s rest h1 h2
    obtain ⟨f2, rfl⟩ : ∃ m, f2 = m + 1 := ⟨f2 - 1, by split_ifs at h2 <;> omega⟩
    by_cases h0 : rest.length = 0
    · simp only [janggu_loop, h0, if_true]
    · have hne : rest ≠ [] := by
        intro h
        exact h0 (by rw [h]; rfl)
      rw [janggu_loop_step imagesize f1 s rest hne, janggu_loop_step imagesize f2 s rest hne]
      cases hb : janggu_body imagesize s rest with
      | undefined => rfl
      | done s1 => rfl
      | error s1 => rfl
      | next s1 rest1 =>
        obtain ⟨n1, n2, n3⟩ := janggu_body_next imagesize s rest s1 rest1 h0 hb
        have hm : (if 4 ≤ s1.packet_read then 2 else 1) = 1 := by
          rw [n1]
          rfl
        apply ih
        · rw [hm]
          split_ifs at h1 with h4
          · omega
          · have := n3 (by omega)
            omega
        · rw [hm]
          split_ifs at h2 with h4
          · omega
          · have := n3 (by omega)
            omega

theorem janggu_copy_all (s : sd) (a : List u8) (count : Int) (s1 : sd) (rest1 : List u8)
    (h : janggu_copy s a count = some (s1, rest1)) (hc : count = a.length) :
    s1 = { s with packet := memcpy s.packet s.packet_read.toNat a,
                  packet_read := s.packet_read + a.length } ∧ rest1 = [] ∧
      0 ≤ s.packet_read ∧ s.packet_read + a.length ≤ PACKET_SIZE := by
  subst hc
  unfold janggu_copy at h
  split_ifs at h with hg
  push_neg at hg
  simp only [Option.some.injEq, Prod.mk.injEq, Int.toNat_ofNat, List.take_length,
    List.drop_length] at h
  exact ⟨h.1.symm, h.2.symm, hg.2.2.1, hg.2.2.2⟩

theorem janggu_copy_resume (s : sd) (a b : List u8) (c : Int)
    (hlen : s.packet.length = PACKET_SIZE) (hpr : 0 ≤ s.packet_read)
    (hcap : s.packet_read + a.length ≤ PACKET_SIZE) (hc : 0 ≤ c) :
    janggu_copy s (a ++ b) (a.length + c) =
      janggu_copy { s with packet := memcpy s.packet s.packet_read.toNat a,
                           packet_read := s.packet_read + a.length } b c := by
  have hlen2 : s.packet.length = 1024 := hlen
  have hcap2 : s.packet_read + a.length ≤ 1024 := hcap
  obtain ⟨n, rfl⟩ := Int.eq_ofNat_of_zero_le hc
  obtain ⟨p, hp⟩ := Int.eq_ofNat_of_zero_le hpr
  unfold janggu_copy
  by_cases hg : ((n : Nat) : Int) < 0 ∨ (b.length : Int) < n ∨
      s.packet_read + a.length < 0 ∨ s.packet_read + a.length + n > PACKET_SIZE
  · have hg2 : (a.length : Int) + n < 0 ∨ ((a ++ b).length : Int) < a.length + n ∨
        s.packet_read < 0 ∨ s.packet_read + (a.length + n) > PACKET_SIZE := by
      simp only [List.length_append, Nat.cast_add]
      rcases hg with h | h | h | h
      · omega
      · right; left; omega
      · omega
      · right; right; right; omega
    rw [if_pos hg2, if_pos hg]
  · have hg2 : ¬ ((a.length : Int) + n < 0 ∨ ((a ++ b).length : Int) < a.length + n ∨
        s.packet_read < 0 ∨ s.packet_read + (a.length + n) > PACKET_SIZE) := by
      simp only [List.length_append, Nat.cast_add]
      push_neg at hg ⊢
      refine ⟨by omega, by omega, hpr, by omega⟩
    rw [if_neg hg2, if_neg hg]
    push_neg at hg
    have hn : n ≤ b.length := by omega
    have e1 : ((a.length : Int) + n).toNat = a.length + n := by omega
    have e2 : (s.packet_read + (a.length : Int)).toNat = s.packet_read.toNat + a.length := by
      omega
    have e3 : ((n : Nat) : Int).toNat = n := by omega
    have hm : s.packet_read.toNat + a.length ≤ s.packet.length := by omega
    simp only [e1, e2, e3, List.take_append, List.drop_append,
      memcpy_memcpy s.packet s.packet_read.toNat a (b.take n) hm, add_assoc]

theorem janggu_copy_keeps (s : sd) (rest : List u8) (count : Int) (s1 : sd)
    (rest1 : List u8) (h : janggu_copy s rest count = some (s1, rest1)) :
    s1.gspca_dev = s.gspca_dev ∧ s1.restart_stream = s.restart_stream ∧
      (s.packet.length = PACKET_SIZE → s1.packet.length = PACKET_SIZE) := by
  unfold janggu_copy at h
  split_ifs at h with hg
  push_neg at hg
  simp only [Option.some.injEq, Prod.mk.injEq] at h
  rw [← h.1]
  refine ⟨rfl, rfl, fun hlen => ?_⟩
  have hlen2 : s.packet.length = 1024 := hlen
  have hcap : s.packet_read + count ≤ 1024 := hg.2.2.2
  show (memcpy s.packet s.packet_read.toNat (rest.take count.toNat)).length = PACKET_SIZE
  rw [memcpy_length, hlen]
  rw [List.length_take]
  omega

theorem packet_resume (imagesize : Int) (s : sd) (rest : List u8)
    (hlen : s.packet.length = PACKET_SIZE) (h4 : 4 ≤ s.packet_read) (s1 : sd)
    (h : janggu_packet imagesize s rest = .done s1) :
    (∃ d, s1.gspca_dev.frame_log =
        s.gspca_dev.frame_log ++ [(gspca_packet_type.LAST_PACKET, d)]) ∨
    (s1.gspca_dev = s.gspca_dev ∧ s1.restart_stream = s.restart_stream ∧
      4 ≤ s1.packet_read ∧ s1.packet.length = PACKET_SIZE ∧
      ∀ more, janggu_packet imagesize s (rest ++ more) = janggu_packet imagesize s1 more) := by
  have hlen2 : s.packet.length = 1024 := hlen
  by_cases hp : janggu_plen s.packet > 1024
  · simp [janggu_packet, hp] at h
  by_cases hi : janggu_info s.packet = 3
  · simp [janggu_packet, hp, hi] at h
  simp only [janggu_packet, hp, hi, if_false] at h
  cases hcp : janggu_copy s rest
      (min ((janggu_plen s.packet : Int) - s.packet_read) rest.length) with
  | none => simp [hcp] at h
  | some p =>
    obtain ⟨s2, rest2⟩ := p
    obtain ⟨c0, c1, c2⟩ := janggu_copy_some _ _ _ _ _ hcp
    obtain ⟨k1, k2, k3⟩ := janggu_copy_keeps _ _ _ _ _ hcp
    simp only [hcp] at h
    by_cases hb : s2.packet_read < janggu_plen s.packet
    · simp only [hb, if_true] at h
      obtain rfl : s1 = s2 := by
        injection h with h
        exact h.symm
      have hcount : min ((janggu_plen s.packet : Int) - s.packet_read) rest.length =
          rest.length := by omega
      obtain ⟨a1, a2, a3, a4⟩ := janggu_copy_all s rest _ s1 rest2 hcp hcount
      have a5 : s.packet_read + rest.length ≤ 1024 := a4
      refine Or.inr ⟨k1, k2, by omega, k3 hlen, fun more => ?_⟩
      obtain ⟨f1, f2, f3⟩ := header_fields_memcpy s.packet s.packet_read.toNat rest
        (by omega) (by omega)
      have hmin : min ((janggu_plen s.packet : Int) - s.packet_read)
          ((rest ++ more).length : Int) =
          rest.length + min ((janggu_plen s.packet : Int) - (s.packet_read + rest.length))
            more.length := by
        simp only [List.length_append, Nat.cast_add]
        omega
      have hc0 : 0 ≤ min ((janggu_plen s.packet : Int) - (s.packet_read + rest.length))
          (more.length : Int) := by omega
      rw [a1]
      simp only [janggu_packet, f1, f2, f3, hp, hi, if_false, hmin,
        janggu_copy_resume s rest more _ hlen a3 a4 hc0]
    · simp only [hb, if_false] at h
      obtain ⟨_, d2, _⟩ := dispatch_boundary imagesize (janggu_pixels s.packet)
        (janggu_info s.packet) (janggu_plen s.packet) s2 rest2
      obtain ⟨⟨d, m1⟩, _⟩ := d2 s1 h
      exact Or.inl ⟨d, by rw [m1, k1]⟩

theorem janggu_body_late (imagesize : Int) (s : sd) (rest : List u8)
    (h4 : 4 ≤ s.packet_read) :
    janggu_body imagesize s rest = janggu_packet imagesize s rest := by
  have h : ¬ s.packet_read < 4 := by omega
  simp only [janggu_body, janggu_header, h, if_false]

theorem body_resume (imagesize : Int) (s : sd) (rest : List u8)
    (hlen : s.packet.length = PACKET_SIZE) (s1 : sd)
    (h : janggu_body imagesize s rest = .done s1) :
    (∃ d, s1.gspca_dev.frame_log =
        s.gspca_dev.frame_log ++ [(gspca_packet_type.LAST_PACKET, d)]) ∨
    (s1.gspca_dev = s.gspca_dev ∧ s1.restart_stream = s.restart_stream ∧
      s1.packet.length = PACKET_SIZE ∧
      ∀ more, janggu_body imagesize s (rest ++ more) = janggu_body imagesize s1 more) := by
  by_cases h4 : s.packet_read < 4
  · simp only [janggu_body, janggu_header, h4, if_true] at h
    cases hcp : janggu_copy s rest (min (4 - s.packet_read) rest.length) with
    | none => simp [hcp] at h
    | some p =>
      obtain ⟨s2, rest2⟩ := p
      obtain ⟨c0, c1, c2⟩ := janggu_copy_some _ _ _ _ _ hcp
      obtain ⟨k1, k2, k3⟩ := janggu_copy_keeps _ _ _ _ _ hcp
      simp only [hcp] at h
      by_cases hb : s2.packet_read < 4
      · simp only [hb, if_true] at h
        obtain rfl : s1 = s2 := by
          injection h with h
          exact h.symm
        have hcount : min (4 - s.packet_read) (rest.length : Int) = rest.length := by omega
        obtain ⟨a1, a2, a3, a4⟩ := janggu_copy_all s rest _ s1 rest2 hcp hcount
        refine Or.inr ⟨k1, k2, k3 hlen, fun more => ?_⟩
        have hmin : min (4 - s.packet_read) ((rest ++ more).length : Int) =
            rest.length + min (4 - (s.packet_read + rest.length)) more.length := by
          simp only [List.length_append, Nat.cast_add]
          omega
        have hc0 : 0 ≤ min (4 - (s.packet_read + rest.length)) (more.length : Int) := by
          omega
        have hb2 : s.packet_read + (rest.length : Int) < 4 := by omega
        rw [a1]
        simp only [janggu_body, janggu_header, h4, hb2, if_true, hmin,
          janggu_copy_resume s rest more _ hlen a3 a4 hc0]
      · simp only [hb, if_false] at h
        rcases packet_resume imagesize s2 rest2 (k3 hlen) (by omega) s1 h with
          ⟨d, m1⟩ | ⟨r1, r2, r3, r4, r5⟩
        · exact Or.inl ⟨d, by rw [m1, k1]⟩
        · refine Or.inr ⟨by rw [r1, k1], by rw [r2, k2], r4, fun more => ?_⟩
          have hmin : min (4 - s.packet_read) ((rest ++ more).length : Int) =
              min (4 - s.packet_read) rest.length := by
            simp only [List.length_append, Nat.cast_add]
            omega
          rw [janggu_body_late imagesize s1 more r3, ← r5 more]
          simp only [janggu_body, janggu_header, h4, if_true, hmin,
            janggu_copy_append s rest more _ s2 rest2 hcp, hb, if_false]
  · rw [janggu_body_late imagesize s rest (by omega)] at h
    rcases packet_resume imagesize s rest hlen (by omega) s1 h with
      ⟨d, m1⟩ | ⟨r1, r2, r3, r4, r5⟩
    · exact Or.inl ⟨d, m1⟩
    · refine Or.inr ⟨r1, r2, r4, fun more => ?_⟩
      rw [janggu_body_late imagesize s1 more r3,
        janggu_body_late imagesize s (rest ++ more) (by omega)]
      exact r5 more

theorem dispatch_defined (imagesize : Int) (pixels info plen : Nat) (s : sd)
    (rest : List u8) : janggu_dispatch imagesize pixels info plen s rest ≠ .undefined := by
  simp only [janggu_dispatch]
  split_ifs <;> simp

theorem packet_undefined_append (imagesize : Int) (s : sd) (rest more : List u8)
    (h : janggu_packet imagesize s rest = .undefined) :
    janggu_packet imagesize s (rest ++ more) = .undefined := by
  by_cases hp : janggu_plen s.packet > 1024
  · simp [janggu_packet, hp] at h
  by_cases hi : janggu_info s.packet = 3
  · simp [janggu_packet, hp, hi] at h
  simp only [janggu_packet, hp, hi, if_false] at h ⊢
  cases hcp : janggu_copy s rest
      (min ((janggu_plen s.packet : Int) - s.packet_read) rest.length) with
  | some p =>
    obtain ⟨s2, rest2⟩ := p
    simp only [hcp] at h
    split_ifs at h
    exact absurd h (dispatch_defined _ _ _ _ _ _)
  | none =>
    have hn : janggu_copy s (rest ++ more)
        (min ((janggu_plen s.packet : Int) - s.packet_read)
          ((rest ++ more).length : Int)) = none := by
      unfold janggu_copy at hcp ⊢
      split_ifs at hcp with hg
      rw [if_pos]
      simp only [List.length_append, Nat.cast_add]
      have hp2 : (janggu_plen s.packet : Int) ≤ 1024 := by omega
      have hk : (PACKET_SIZE : Int) = 1024 := rfl
      rw [hk] at hg ⊢
      omega
    rw [hn]

theorem body_undefined_append (imagesize : Int) (s : sd) (rest more : List u8)
    (h : janggu_body imagesize s rest = .undefined) :
    janggu_body imagesize s (rest ++ more) = .undefined := by
  by_cases h4 : s.packet_read < 4
  · simp only [janggu_body, janggu_header, h4, if_true] at h ⊢
    cases hcp : janggu_copy s rest (min (4 - s.packet_read) rest.length) with
    | some p =>
      obtain ⟨s2, rest2⟩ := p
      obtain ⟨c0, c1, c2⟩ := janggu_copy_some _ _ _ _ _ hcp
      simp only [hcp] at h
      by_cases hb : s2.packet_read < 4
      · simp [hb] at h
      · simp only [hb, if_false] at h
        have hmin : min (4 - s.packet_read) ((rest ++ more).length : Int) =
            min (4 - s.packet_read) rest.length := by
          simp only [List.length_append, Nat.cast_add]
          omega
        simp only [hmin, janggu_copy_append s rest more _ s2 rest2 hcp, hb, if_false]
        exact packet_undefined_append imagesize s2 rest2 more h
    | none =>
      have hn : janggu_copy s (rest ++ more)
          (min (4 - s.packet_read) ((rest ++ more).length : Int)) = none := by
        unfold janggu_copy at hcp ⊢
        split_ifs at hcp with hg
        rw [if_pos]
        simp only [List.length_append, Nat.cast_add]
        have hk : (PACKET_SIZE : Int) = 1024 := rfl
        rw [hk] at hg ⊢
        omega
      rw [hn]
  · rw [janggu_body_late imagesize s rest (by omega)] at h
    rw [janggu_body_late imagesize s (rest ++ more) (by omega)]
    exact packet_undefined_append imagesize s rest more h

theorem dispatch_next_keeps (imagesize : Int) (pixels info plen : Nat) (s : sd)
    (rest : List u8) (s1 : sd) (rest1 : List u8)
    (h : janggu_dispatch imagesize pixels info plen s rest = .next s1 rest1) :
    s1.restart_stream = s.restart_stream ∧ s1.packet = s.packet ∧
      s1.gspca_dev.width = s.gspca_dev.width ∧ s1.gspca_dev.height = s.gspca_dev.height ∧
      (s.gspca_dev.last_packet_type ≠ .LAST_PACKET →
        s1.gspca_dev.last_packet_type ≠ .LAST_PACKET) := by
  simp only [janggu_dispatch] at h
  split_ifs at h
  all_goals first
    | contradiction
    | (cases h
       refine ⟨rfl, rfl, ?_, ?_, ?_⟩ <;> simp [gspca_frame_add])

theorem packet_next_keeps (imagesize : Int) (s : sd) (rest : List u8) (s1 : sd)
    (rest1 : List u8) (h : janggu_packet imagesize s rest = .next s1 rest1) :
    s1.restart_stream = s.restart_stream ∧
      (s.packet.length = PACKET_SIZE → s1.packet.length = PACKET_SIZE) ∧
      s1.gspca_dev.width = s.gspca_dev.width ∧ s1.gspca_dev.height = s.gspca_dev.height ∧
      (s.gspca_dev.last_packet_type ≠ .LAST_PACKET →
        s1.gspca_dev.last_packet_type ≠ .LAST_PACKET) := by
  simp only [janggu_packet] at h
  split_ifs at h
  cases hcp : janggu_copy s rest (min ((janggu_plen s.packet : Int) - s.packet_read)
      rest.length) with
  | none => simp [hcp] at h
  | some p =>
    obtain ⟨s2, rest2⟩ := p
    obtain ⟨k1, k2, k3⟩ := janggu_copy_keeps _ _ _ _ _ hcp
    simp only [hcp] at h
    split_ifs at h
    obtain ⟨d1, d2, d3, d4, d5⟩ := dispatch_next_keeps _ _ _ _ _ _ _ _ h
    rw [k1] at d3 d4 d5
    exact ⟨by rw [d1, k2], fun hl => by rw [d2]; exact k3 hl, d3, d4, d5⟩

theorem body_next_keeps (imagesize : Int) (s : sd) (rest : List u8) (s1 : sd)
    (rest1 : List u8) (h : janggu_body imagesize s rest = .next s1 rest1) :
    s1.restart_stream = s.restart_stream ∧
      (s.packet.length = PACKET_SIZE → s1.packet.length = PACKET_SIZE) ∧
      s1.gspca_dev.width = s.gspca_dev.width ∧ s1.gspca_dev.height = s.gspca_dev.height ∧
      (s.gspca_dev.last_packet_type ≠ .LAST_PACKET →
        s1.gspca_dev.last_packet_type ≠ .LAST_PACKET) := by
  by_cases h4 : s.packet_read < 4
  · simp only [janggu_body, janggu_header, h4, if_true] at h
    cases hcp : janggu_copy s rest (min (4 - s.packet_read) rest.length) with
    | none => simp [hcp] at h
    | some p =>
      obtain ⟨s2, rest2⟩ := p
      obtain ⟨k1, k2, k3⟩ := janggu_copy_keeps _ _ _ _ _ hcp
      simp only [hcp] at h
      split_ifs at h
      obtain ⟨d1, d2, d3, d4, d5⟩ := packet_next_keeps _ _ _ _ _ h
      rw [k1] at d3 d4 d5
      exact ⟨by rw [d1, k2], fun hl => d2 (k3 hl), d3, d4, d5⟩
  · rw [janggu_body_late imagesize s rest (by omega)] at h
    exact packet_next_keeps _ _ _ _ _ h

theorem loop_split (imagesize : Int) :
    ∀ (fuel : Nat) (s : sd) (a : List u8), s.packet.length = PACKET_SIZE →
      janggu_loop imagesize fuel s a = .out_of_fuel ∨
      (janggu_loop imagesize fuel s a = .undefined ∧
        ∀ (b : List u8) (f2 : Nat),
          (a ++ b).length + (if 4 ≤ s.packet_read then 2 else 1) ≤ f2 →
          janggu_loop imagesize f2 s (a ++ b) = .undefined) ∨
      ∃ t, janggu_loop imagesize fuel s a = .ok t ∧
        ((∃ e ∈ t.gspca_dev.frame_log.drop s.gspca_dev.frame_log.length,
            e.1 = gspca_packet_type.LAST_PACKET) ∨
         (t.restart_stream = s.restart_stream ∧
          t.gspca_dev.width = s.gspca_dev.width ∧
          t.gspca_dev.height = s.gspca_dev.height ∧
          (s.gspca_dev.last_packet_type ≠ .LAST_PACKET →
            t.gspca_dev.last_packet_type ≠ .LAST_PACKET) ∧
          t.packet.length = PACKET_SIZE ∧
          ∀ (b : List u8) (f1 f2 : Nat),
            b.length + (if 4 ≤ t.packet_read then 2 else 1) ≤ f1 →
            (a ++ b).length + (if 4 ≤ s.packet_read then 2 else 1) ≤ f2 →
            janggu_loop imagesize f1 t b = janggu_loop imagesize f2 s (a ++ b))) := by
  intro fuel
  induction fuel with
  | zero => intro s a _; exact Or.inl rfl
  | succ fuel ih =>
    intro s a hlen
    by_cases h0 : a.length = 0
    · have ha : a = [] := List.length_eq_zero.mp h0
      subst ha
      refine Or.inr (Or.inr ⟨s, ?_, Or.inr ⟨rfl, rfl, rfl, fun h => h, hlen, ?_⟩⟩)
      · simp only [janggu_loop, List.length_nil, if_true]
      · intro b f1 f2 h1 h2
        rw [List.nil_append] at h2 ⊢
        exact janggu_loop_fuel_irrel imagesize f1 f2 s b h1 h2
    · have hne : a ≠ [] := by
        intro h
        exact h0 (by rw [h]; rfl)
      have hne2 : ∀ b : List u8, a ++ b ≠ [] := by
        intro b h
        exact hne (List.append_eq_nil.mp h).1
      have hlen0 : ∀ b : List u8, (a ++ b).length ≠ 0 := by
        intro b h
        exact hne2 b (List.length_eq_zero.mp h)
      have hpos : ∀ (b : List u8) (f2 : Nat),
          (a ++ b).length + (if 4 ≤ s.packet_read then 2 else 1) ≤ f2 →
          ∃ m, f2 = m + 1 := by
        intro b f2 h
        refine ⟨f2 - 1, ?_⟩
        split_ifs at h <;> omega
      obtain ⟨b1, _, b3⟩ := body_boundary imagesize s a
      rw [janggu_loop_step imagesize fuel s a hne]
      cases hb : janggu_body imagesize s a with
      | undefined =>
        refine Or.inr (Or.inl ⟨rfl, fun b f2 hf => ?_⟩)
        obtain ⟨m, rfl⟩ := hpos b f2 hf
        rw [janggu_loop_step imagesize m s _ (hne2 b),
          body_undefined_append imagesize s a b hb]
      | error s1 =>
        obtain ⟨l1, _⟩ := b3 s1 hb
        refine Or.inr (Or.inr ⟨janggu_error s1, rfl, Or.inl
          ⟨(.LAST_PACKET, []), ?_, rfl⟩⟩)
        rw [janggu_error_frame_log, l1, List.drop_left]
        simp
      | done s1 =>
        rcases body_resume imagesize s a hlen s1 hb with ⟨d, m1⟩ | ⟨r1, r2, r3, r4⟩
        · refine Or.inr (Or.inr ⟨s1, rfl, Or.inl ⟨(.LAST_PACKET, d), ?_, rfl⟩⟩)
          rw [m1, List.drop_left]
          simp
        · refine Or.inr (Or.inr ⟨s1, rfl, Or.inr ⟨r2, by rw [r1], by rw [r1],
            fun h => by rw [r1]; exact h, r3, ?_⟩⟩)
          intro b f1 f2 h1 h2
          obtain ⟨m2, rfl⟩ := hpos b f2 h2
          rw [janggu_loop_step imagesize m2 s _ (hne2 b)]
          by_cases hb0 : b.length = 0
          · have hbn : b = [] := List.length_eq_zero.mp hb0
            subst hbn
            obtain ⟨m1, rfl⟩ : ∃ m, f1 = m + 1 := ⟨f1 - 1, by split_ifs at h1 <;> omega⟩
            rw [List.append_nil, hb]
            simp only [janggu_loop, List.length_nil, if_true]
          · have hbne : b ≠ [] := by
              intro h
              exact hb0 (by rw [h]; rfl)
            obtain ⟨m1, rfl⟩ : ∃ m, f1 = m + 1 := ⟨f1 - 1, by split_ifs at h1 <;> omega⟩
            rw [janggu_loop_step imagesize m1 s1 b hbne, r4 b]
            cases hx : janggu_body imagesize s1 b with
            | undefined => rfl
            | done s2 => rfl
            | error s2 => rfl
            | next s2 rest2 =>
              obtain ⟨n1, n2, n3⟩ := janggu_body_next imagesize s1 b s2 rest2 hb0 hx
              have hy : janggu_body imagesize s (a ++ b) = .next s2 rest2 := by
                rw [r4 b, hx]
              obtain ⟨_, p2, p3⟩ :=
                janggu_body_next imagesize s (a ++ b) s2 rest2 (hlen0 b) hy
              have hm : (if 4 ≤ s2.packet_read then 2 else 1) = 1 := by
                rw [n1]
                rfl
              apply janggu_loop_fuel_irrel
              · rw [hm]
                split_ifs at h1 with h4
                · omega
                · have := n3 (by omega)
                  omega
              · rw [hm]
                split_ifs at h2 with h4
                · omega
                · have := p3 (by omega)
                  omega
      | next s1 a1 =>
        obtain ⟨⟨mids, l1, _⟩, e1⟩ := b1 s1 a1 hb
        obtain ⟨k1, k2, k3, k4, k5⟩ := body_next_keeps imagesize s a s1 a1 hb
        obtain ⟨n1, n2, n3⟩ := janggu_body_next imagesize s a s1 a1 h0 hb
        have hm : (if 4 ≤ s1.packet_read then 2 else 1) = 1 := by
          rw [n1]
          rfl
        have hfuel : ∀ (b : List u8) (m : Nat),
            (a ++ b).length + (if 4 ≤ s.packet_read then 2 else 1) ≤ m + 1 →
            (a1 ++ b).length + (if 4 ≤ s1.packet_read then 2 else 1) ≤ m := by
          intro b m h
          rw [hm]
          simp only [List.length_append] at h ⊢
          split_ifs at h with h4
          · omega
          · have := n3 (by omega)
            omega
        rcases ih s1 a1 (k2 hlen) with h | ⟨h, hu⟩ | ⟨t, r1, r2⟩
        · exact Or.inl h
        · refine Or.inr (Or.inl ⟨h, fun b f2 hf => ?_⟩)
          obtain ⟨m, rfl⟩ := hpos b f2 hf
          rw [janggu_loop_step imagesize m s _ (hne2 b), e1 b]
          exact hu b m (hfuel b m hf)
        · refine Or.inr (Or.inr ⟨t, r1, ?_⟩)
          rcases r2 with ⟨e, he, hl⟩ | ⟨q1, q2, q3, q4, q5, q6⟩
          · refine Or.inl ⟨e, ?_, hl⟩
            rw [l1, List.length_append, ← List.drop_drop] at he
            exact List.mem_of_mem_drop he
          · refine Or.inr ⟨by rw [q1, k1], by rw [q2, k3], by rw [q3, k4],
              fun h => q4 (k5 h), q5, ?_⟩
            intro b f1 f2 h1 h2
            obtain ⟨m, rfl⟩ := hpos b f2 h2
            rw [janggu_loop_step imagesize m s _ (hne2 b), e1 b]
            exact q6 b f1 m h1 (hfuel b m h2)

/-- C21. Compressed-mode split invariance. For every state with its 1024-byte packet
buffer, the restart flag clear and the last packet type of the sink not LAST_PACKET, and
every range split at any position into parts `a` and `b`: if the call of
`sd_pkt_scan_janggu` on `a` passes no LAST_PACKET to the sink (no EOF completes and no sync
fault occurs inside `a`), then the call on `b` from the state the first call left gives the
very result of one call on `a ++ b` from the starting state: the same state, hence the
same packet buffer, `packet_read`, `pixels_read`, `restart_stream` and the same sequence
of fragments in the sink. The first call returns unless it makes a copy that is undefined
in C, in which case the call on the whole range does so too; from a state with
`buffer_ok` both calls return. The parts may even be empty. -/
theorem split_invariance (s : sd) (a b : List u8) (hlen : s.packet.length = PACKET_SIZE)
    (hr : s.restart_stream = 0)
    (hl : s.gspca_dev.last_packet_type ≠ gspca_packet_type.LAST_PACKET) :
    ((sd_pkt_scan_janggu s a = .undefined ∧ sd_pkt_scan_janggu s (a ++ b) = .undefined) ∨
      ∃ t, sd_pkt_scan_janggu s a = .ok t ∧
        ((∀ e ∈ t.gspca_dev.frame_log.drop s.gspca_dev.frame_log.length,
            e.1 ≠ gspca_packet_type.LAST_PACKET) →
          sd_pkt_scan_janggu t b = sd_pkt_scan_janggu s (a ++ b))) ∧
    (buffer_ok s →
      ∃ t u, sd_pkt_scan_janggu s a = .ok t ∧ sd_pkt_scan_janggu t b = .ok u) := by
  constructor
  · have hscan : ∀ (u : sd) (d : List u8), u.restart_stream = 0 →
        u.gspca_dev.last_packet_type ≠ gspca_packet_type.LAST_PACKET →
        sd_pkt_scan_janggu u d =
          janggu_loop (to_int (u.gspca_dev.width * u.gspca_dev.height)) (d.length + 2)
            u d := by
      intro u d h1 h2
      have h3 : ¬ u.restart_stream ≠ 0 := by simp [h1]
      have h4 : ¬ (u.gspca_dev.last_packet_type = gspca_packet_type.LAST_PACKET ∧
          d.length = 1024) := fun h => h2 h.1
      unfold sd_pkt_scan_janggu
      rw [if_neg h3, if_neg h4]
    have hfuel : ∀ (u : sd) (d : List u8),
        d.length + (if 4 ≤ u.packet_read then 2 else 1) ≤ d.length + 2 := by
      intro u d
      split_ifs <;> omega
    rw [hscan s a hr hl, hscan s (a ++ b) hr hl]
    rcases loop_split (to_int (s.gspca_dev.width * s.gspca_dev.height)) (a.length + 2) s a
        hlen with h | ⟨h, hu⟩ | ⟨t, r1, r2⟩
    · exact absurd h (janggu_loop_fuel _ _ s a (hfuel s a))
    · exact Or.inl ⟨h, hu b _ (hfuel s (a ++ b))⟩
    · refine Or.inr ⟨t, r1, fun hno => ?_⟩
      rcases r2 with ⟨e, he, hlast⟩ | ⟨q1, q2, q3, q4, _, q6⟩
      · exact absurd hlast (hno e he)
      · rw [hscan t b (by rw [q1, hr]) (q4 hl), q2, q3]
        exact q6 b _ _ (hfuel t b) (hfuel s (a ++ b))
  · intro hb
    obtain ⟨t, h1, h2, h3⟩ := scan_ok s a hlen (fun _ => hb)
    obtain ⟨u, g1, _, _⟩ := scan_ok t b h2 h3
    exact ⟨t, u, h1, g1⟩

/-- C21, witness: the SOF packet of the samples split inside its payload, after the fifth
byte; the two calls end as the one call on the whole packet does, with the one
FIRST_PACKET fragment in the sink. -/
theorem split_invariance_witness :
    (∃ t, sd_pkt_scan_janggu (sample_sd 2) (sample_sof.take 5) = .ok t ∧
      sd_pkt_scan_janggu t (sample_sof.drop 5) =
        sd_pkt_scan_janggu (sample_sd 2) (sample_sof.take 5 ++ sample_sof.drop 5)) ∧
    scan_frame_log (sd_pkt_scan_janggu (sample_sd 2)
        (sample_sof.take 5 ++ sample_sof.drop 5)) =
      some [(.FIRST_PACKET, sample_sof)] := by
  refine ⟨?_, by decide⟩
  rcases (split_invariance (sample_sd 2) (sample_sof.take 5) (sample_sof.drop 5)
      (List.length_replicate _ _) rfl (by decide)).1 with ⟨h, _⟩ | ⟨t, h1, h2⟩
  · exact absurd h (by decide)
  · refine ⟨t, h1, h2 ?_⟩
    have hlog : scan_frame_log (sd_pkt_scan_janggu (sample_sd 2) (sample_sof.take 5)) =
        some [] := by decide
    rw [h1] at hlog
    simp only [scan_frame_log, Option.some.injEq] at hlog
    rw [hlog]
    simp

/-! ### Calibration under a latched error -/

/-- C22. Calibration under a latched error, evaluated on the sample state with the sticky
error -32 already set, one frame before a calibration cycle. The claim says that the cycle
keeps `resetlevel` and `resetlevel_adjust_dir`; the code does not: every counter read
returns the error code, which `sd_dq_callback` takes for a counter value, so that with no
transfer made and the error still latched the level 30 becomes 59 and the direction 0
becomes 1 (Up). With no direction recorded every level below 63 is raised, by 29 steps or
up to 63; with the direction Down recorded the level 30 becomes 44. The same happens
when the error is latched by the first counter read of the cycle itself. -/
theorem latched_error_calibration :
    (sample_latched_sd 30 0).gspca_dev.usb_err < 0 ∧
    (sd_dq_callback sample_consts quiet_device (sample_latched_sd 30 0)).resetlevel = 59 ∧
    (sd_dq_callback sample_consts quiet_device
      (sample_latched_sd 30 0)).resetlevel_adjust_dir = 1 ∧
    (sd_dq_callback sample_consts quiet_device (sample_latched_sd 30 0)).gspca_dev =
      (sample_latched_sd 30 0).gspca_dev ∧
    (∀ level : Fin 63,
      (sd_dq_callback sample_consts quiet_device (sample_latched_sd level 0)).resetlevel =
        min 63 (level.val + 29) ∧
      (sd_dq_callback sample_consts quiet_device
        (sample_latched_sd level 0)).resetlevel_adjust_dir = 1) ∧
    (sd_dq_callback sample_consts quiet_device (sample_latched_sd 30 (-1))).resetlevel = 44 ∧
    (sd_dq_callback sample_consts stalled_device sample_calibration_sd).resetlevel = 59 ∧
    (sd_dq_callback sample_consts stalled_device
      sample_calibration_sd).resetlevel_adjust_dir = 1 := by
  refine ⟨by decide, by decide, by decide, by decide, by decide, by decide, by decide,
    by decide⟩

end Se401
